import Mathlib

/-!
Derplotter: shallow embedding and verification

A model of the Derplotter software renderer (namespace derplot of the C++
sources) together with theorems about its command queue, its render state
machine and its pixel buffer.

Conventions of the embedding

* int and unsigned int are the mathematical integers and naturals. The
  buffer code is only meaningful when the cell count width*height fits an
  int (the allocation in the constructor and the loop bound of clear compute
  it in int), and for such buffers no index computation can wrap. The one
  exception is Region2i.area, which is computed in 32-bit int arithmetic.
* float has two models. In the exact model a float is a rational and the
  operations are those of the rationals. In the binary32 model (definitions
  with the suffix _f32) every float operation returns F32.rnd of the exact
  result, the nearest binary32 value with ties to even, each operation being
  rounded on its own (a product is not fused with the addition that follows
  it); overflow, infinities and NaN are not modelled. Statements about the
  digits a float computation produces (posOf, raw_drawLine, the perspective
  matrix) are made in the binary32 model. The conversion (int)q truncates
  toward zero. Division is the total division of the rationals; where a zero
  divisor matters the division is checked (divChecked, raw_drawLine_checked).
* A reference returned by a function is a Ref: the object it designates and
  whether that object still exists; reading a reference to a destroyed object
  gives none.
* sin, cos and tan come from math.h, which is not part of the repository;
  they are a parameter (LibM).
* A pointer to storage is an Option: none is nullptr, some m is a block of
  cells m 0, m 1, ... addressed by offset.
* Mutating member functions return the new object, paired with the C++
  return value when there is one.
-/

namespace derplot

/-- Memory behind an unsigned int pointer: the cell at each offset. -/
abbrev Mem := Nat → Nat

/-- The conversion (int)q of a floating point value: truncation toward zero. -/
def truncToInt (q : ℚ) : Int := Int.tdiv q.num q.den

/-- Round to the nearest integer, a tie going to the even one. -/
def roundHalfEven (q : ℚ) : Int :=
  if q - ⌊q⌋ < 1 / 2 then ⌊q⌋
  else if 1 / 2 < q - ⌊q⌋ then ⌊q⌋ + 1
  else if ⌊q⌋ % 2 = 0 then ⌊q⌋ else ⌊q⌋ + 1

namespace F32

/-- The binary exponent used for q: floor(log2 |q|), and -126 for the
subnormal range below 2^-126. -/
def exponent (q : ℚ) : Int := max (Int.log 2 |q|) (-126)

/-- The spacing of the binary32 values around q: 2^(exponent - 23). -/
def ulp (q : ℚ) : ℚ := (2 : ℚ) ^ (exponent q - 23)

/-- The binary32 value a float operation returns for the exact result q:
round to nearest, ties to even. Overflow to infinity (from 2^128 on) is not
modelled. -/
def rnd (q : ℚ) : ℚ := (roundHalfEven (q / ulp q) : ℚ) * ulp q

end F32

namespace F64

/-- The binary exponent used for q in binary64. -/
def exponent (q : ℚ) : Int := max (Int.log 2 |q|) (-1022)

/-- The spacing of the binary64 values around q. -/
def ulp (q : ℚ) : ℚ := (2 : ℚ) ^ (exponent q - 52)

/-- The binary64 value a double operation returns for the exact result q:
round to nearest, ties to even. -/
def rnd (q : ℚ) : ℚ := (roundHalfEven (q / ulp q) : ℚ) * ulp q

end F64

/-- The x values visited by a loop for (x = lo; x <= hi; x++). -/
def intRange (lo hi : Int) : List Int :=
  (List.range (hi + 1 - lo).toNat).map (fun k => lo + (k : Int))

namespace math

/-- The functions of math.h used by the renderer. -/
structure LibM where
  sin : ℚ → ℚ
  cos : ℚ → ℚ
  tan : ℚ → ℚ

/-- MathUtils.h: the constant PI. -/
def PI : ℚ := 3.141592653589793238462643383279502884197169

/-- MathUtils.h: degrees2radians. -/
def degrees2radians (angle : ℚ) : ℚ := angle * PI / 180

/-- Vector4f: the four components v[0..3]. -/
structure Vector4f where
  x : ℚ
  y : ℚ
  z : ℚ
  w : ℚ

/-- Vector4f::normalize. -/
def Vector4f.normalize (v : Vector4f) : Vector4f :=
  { x := v.x / v.w, y := v.y / v.w, z := v.z / v.w, w := 1 }

/-- Mat4x4f: sixteen floats, m[0..15]. -/
structure Mat4x4f where
  m : Fin 16 → ℚ

/-- Mat4x4f(initializer_list): the listed values in order, the rest zero. -/
def Mat4x4f.ofList (list : List ℚ) : Mat4x4f :=
  ⟨fun i => list.getD i.val 0⟩

/-- Mat4x4f::IDENTITY. -/
def Mat4x4f.IDENTITY : Mat4x4f :=
  Mat4x4f.ofList [1, 0, 0, 0,  0, 1, 0, 0,  0, 0, 1, 0,  0, 0, 0, 1]

/-- Mat4x4f::get(row, col): m[row + (col << 2)], zero out of range. -/
def Mat4x4f.get (a : Mat4x4f) (row col : Nat) : ℚ :=
  if h : row < 4 ∧ col < 4 then a.m ⟨row + col * 4, by omega⟩ else 0

/-- Mat4x4f::operator*=. The loop assigns each m[c*4 + r] once, from the
copy m1 of the left operand; entry i has r = i % 4 and c = i / 4. -/
def Mat4x4f.operatorMulAssign (a other : Mat4x4f) : Mat4x4f :=
  ⟨fun i =>
    a.m ⟨i.val % 4 + 0, by omega⟩ * other.m ⟨i.val / 4 * 4 + 0, by omega⟩ +
    a.m ⟨i.val % 4 + 4, by omega⟩ * other.m ⟨i.val / 4 * 4 + 1, by omega⟩ +
    a.m ⟨i.val % 4 + 8, by omega⟩ * other.m ⟨i.val / 4 * 4 + 2, by omega⟩ +
    a.m ⟨i.val % 4 + 12, by omega⟩ * other.m ⟨i.val / 4 * 4 + 3, by omega⟩⟩

/-- Mat4x4f::operator*= called as A *= A, where other is the object *this
itself: m1 is the copy taken on entry, and other.m is this->m, which the loop
(r outer, c inner) reads while it overwrites it. -/
def Mat4x4f.operatorMulAssignSelf (a : Mat4x4f) : Mat4x4f :=
  ⟨(List.finRange 4).foldl
    (fun cur r => (List.finRange 4).foldl
      (fun cur2 c =>
        Function.update cur2 ⟨c.val * 4 + r.val, by have := r.isLt; have := c.isLt; omega⟩
          (a.m ⟨r.val + 0, by have := r.isLt; omega⟩ *
              cur2 ⟨c.val * 4 + 0, by have := c.isLt; omega⟩ +
            a.m ⟨r.val + 4, by have := r.isLt; omega⟩ *
              cur2 ⟨c.val * 4 + 1, by have := c.isLt; omega⟩ +
            a.m ⟨r.val + 8, by have := r.isLt; omega⟩ *
              cur2 ⟨c.val * 4 + 2, by have := c.isLt; omega⟩ +
            a.m ⟨r.val + 12, by have := r.isLt; omega⟩ *
              cur2 ⟨c.val * 4 + 3, by have := c.isLt; omega⟩))
      cur)
    a.m⟩

/-- A reference const T& returned by a function: the object it designates
and whether that object still exists when the caller receives the
reference. -/
structure Ref (α : Type) where
  target : α
  alive : Bool

/-- Reading through a reference: the value of a live object; none for a
reference to a destroyed object, where the program has undefined behaviour. -/
def Ref.read {α : Type} (r : Ref α) : Option α :=
  if r.alive then some r.target else none

/-- Mat4x4f::operator*: a copy out of the left operand, out *= other, and
return of a reference to the local out, which is destroyed when the function
returns. -/
def Mat4x4f.operatorMul (a other : Mat4x4f) : Ref Mat4x4f :=
  { target := a.operatorMulAssign other, alive := false }

/-- MathUtils: multiply(vec, mat). -/
def multiply (vec : Vector4f) (mat : Mat4x4f) : Vector4f :=
  let t : Nat → ℚ := fun row =>
    mat.get row 0 * vec.x + mat.get row 1 * vec.y +
    mat.get row 2 * vec.z + mat.get row 3 * vec.w
  { x := t 0, y := t 1, z := t 2, w := t 3 }

/-- MathUtils: translate(mat, x, y, z, w). -/
def translate4 (mat : Mat4x4f) (x y z w : ℚ) : Mat4x4f :=
  mat.operatorMulAssign
    (Mat4x4f.ofList [1, 0, 0, 0,  0, 1, 0, 0,  0, 0, 1, 0,  x, y, z, w])

/-- MathUtils: translate(mat, v). -/
def translate (mat : Mat4x4f) (v : Vector4f) : Mat4x4f :=
  mat.operatorMulAssign
    (Mat4x4f.ofList [1, 0, 0, 0,  0, 1, 0, 0,  0, 0, 1, 0,  v.x, v.y, v.z, v.w])

/-- MathUtils: scale(mat, x, y, z, w). -/
def scale4 (mat : Mat4x4f) (x y z w : ℚ) : Mat4x4f :=
  mat.operatorMulAssign
    (Mat4x4f.ofList [x, 0, 0, 0,  0, y, 0, 0,  0, 0, z, 0,  0, 0, 0, w])

/-- MathUtils: scale(mat, v). -/
def scale (mat : Mat4x4f) (v : Vector4f) : Mat4x4f :=
  scale4 mat v.x v.y v.z v.w

/-- MathUtils: rotateAroundX. -/
def rotateAroundX (lm : LibM) (mat : Mat4x4f) (ang : ℚ) : Mat4x4f :=
  let sine := lm.sin ang
  let cosine := lm.cos ang
  mat.operatorMulAssign
    (Mat4x4f.ofList [1, 0, 0, 0,  0, cosine, sine, 0,  0, -sine, cosine, 0,  0, 0, 0, 1])

/-- MathUtils: rotateAroundY. -/
def rotateAroundY (lm : LibM) (mat : Mat4x4f) (ang : ℚ) : Mat4x4f :=
  let sine := lm.sin ang
  let cosine := lm.cos ang
  mat.operatorMulAssign
    (Mat4x4f.ofList [cosine, 0, -sine, 0,  0, 1, 0, 0,  sine, 0, cosine, 0,  0, 0, 0, 1])

/-- MathUtils: rotateAroundZ. -/
def rotateAroundZ (lm : LibM) (mat : Mat4x4f) (ang : ℚ) : Mat4x4f :=
  let sine := lm.sin ang
  let cosine := lm.cos ang
  mat.operatorMulAssign
    (Mat4x4f.ofList [cosine, sine, 0, 0,  -sine, cosine, 0, 0,  0, 0, 1, 0,  0, 0, 0, 1])

/-- Region2i: the four bounds. -/
structure Region2i where
  x_min : Int
  x_max : Int
  y_min : Int
  y_max : Int

/-- Region2i::fix. -/
def Region2i.fix (r : Region2i) : Region2i :=
  let r1 := if r.x_max < r.x_min then { r with x_max := r.x_min } else r
  if r1.y_max < r1.y_min then { r1 with y_max := r1.y_min } else r1

/-- Region2i(x_min, x_max, y_min, y_max). -/
def Region2i.create (x_min x_max y_min y_max : Int) : Region2i :=
  (Region2i.mk x_min x_max y_min y_max).fix

/-- Region2i(): the default constructor. -/
def Region2i.default : Region2i :=
  { x_min := 0, x_max := 0, y_min := 0, y_max := 0 }

/-- Region2i(x, y): the origin cornered constructor. -/
def Region2i.createOrigin (x y : Int) : Region2i :=
  (Region2i.mk 0 x 0 y).fix

/-- Region2i(const Region2i&) and Region2i(Region2i&&): the copy and move
constructors. -/
def Region2i.copy (other : Region2i) : Region2i :=
  { x_min := other.x_min, x_max := other.x_max, y_min := other.y_min, y_max := other.y_max }

/-- Region2i::operator= (copy and move): the object after the assignment. -/
def Region2i.operatorAssign (_self other : Region2i) : Region2i :=
  { x_min := other.x_min, x_max := other.x_max, y_min := other.y_min, y_max := other.y_max }

/-- Region2i::set: the returned flag and the region afterwards. -/
def Region2i.set (r : Region2i) (x_min x_max y_min y_max : Int) : Bool × Region2i :=
  if x_max < x_min ∨ y_max < y_min then (false, r)
  else (true, { x_min := x_min, x_max := x_max, y_min := y_min, y_max := y_max })

/-- The value of an integer expression in a 32-bit two's complement int. -/
def wrapInt32 (n : Int) : Int := (n + 2147483648) % 4294967296 - 2147483648

/-- Region2i::area, with both subtractions and the product in 32-bit int
arithmetic: the one function whose machine width the embedding keeps. -/
def Region2i.area (r : Region2i) : Int :=
  wrapInt32 (wrapInt32 (r.x_max - r.x_min) * wrapInt32 (r.y_max - r.y_min))

/-- The class invariant of Region2i: min <= max on both axes. -/
abbrev Region2i.valid (r : Region2i) : Prop :=
  r.x_min ≤ r.x_max ∧ r.y_min ≤ r.y_max

/-- Region2i::posOf: the returned flag and the pixel written to (px, py). -/
def Region2i.posOf (r : Region2i) (x y : ℚ) : Bool × (Int × Int) :=
  let xdelta : Int := r.x_max - r.x_min
  let ydelta : Int := r.y_max - r.y_min
  let px := r.x_min + truncToInt ((xdelta : ℚ) * (x + 1) * (1 / 2))
  let py := r.y_max - truncToInt ((ydelta : ℚ) * (y + 1) * (1 / 2))
  (!(decide (x < 0) || decide (x ≥ 1) || decide (y < 0) || decide (y ≥ 1)), (px, py))

/-- Region2i::posOf in binary32, for float arguments x and y: x + 1 is a
float addition, xdelta * (x + 1) a float multiplication with xdelta converted
to float, the product with the double 0.5 is exact, and (int) truncates. -/
def Region2i.posOf_f32 (r : Region2i) (x y : ℚ) : Bool × (Int × Int) :=
  let xdelta : Int := r.x_max - r.x_min
  let ydelta : Int := r.y_max - r.y_min
  let px := r.x_min +
    truncToInt (F32.rnd (F32.rnd (xdelta : ℚ) * F32.rnd (x + 1)) * (1 / 2))
  let py := r.y_max -
    truncToInt (F32.rnd (F32.rnd (ydelta : ℚ) * F32.rnd (y + 1)) * (1 / 2))
  (!(decide (x < 0) || decide (x ≥ 1) || decide (y < 0) || decide (y ≥ 1)), (px, py))

end math

open math

/-! ## DisplayBuffer -/

/-- DisplayBuffer: dimensions, the caller's storage (buff) and the owned
storage (inner_buff). -/
structure DisplayBuffer where
  width : Int
  height : Int
  buff : Option Mem
  inner_buff : Option Mem

namespace DisplayBuffer

/-- DisplayBuffer(): the default constructor. -/
def default : DisplayBuffer :=
  { width := 0, height := 0, buff := none, inner_buff := none }

/-- DisplayBuffer(width, height, buffer): with a caller buffer the storage is
borrowed; without one, new unsigned int[width*height] is owned and its cells
(uninit) are indeterminate. -/
def create (width height : Int) (ext_buffer : Option Mem) (uninit : Mem) : DisplayBuffer :=
  { width := width, height := height, buff := ext_buffer,
    inner_buff := if ext_buffer.isNone then some uninit else none }

/-- DisplayBuffer(DisplayBuffer&&): the new object and the moved-from one. -/
def move (other : DisplayBuffer) : DisplayBuffer × DisplayBuffer :=
  ({ width := other.width, height := other.height, buff := other.buff,
     inner_buff := other.inner_buff },
   { width := 0, height := 0, buff := none, inner_buff := none })

/-- DisplayBuffer::operator!: true iff the buffer is not ready. -/
def operatorNot (b : DisplayBuffer) : Bool :=
  b.buff.isNone && b.inner_buff.isNone

/-- DisplayBuffer::data (and usedbuffer): buff when non-null, else inner_buff. -/
def data (b : DisplayBuffer) : Option Mem :=
  match b.buff with
  | some m => some m
  | none => b.inner_buff

/-- The assignment usedbuffer()[i] = v. -/
def store (b : DisplayBuffer) (i : Nat) (v : Nat) : DisplayBuffer :=
  match b.buff with
  | some m => { b with buff := some (Function.update m i v) }
  | none =>
    match b.inner_buff with
    | some m => { b with inner_buff := some (Function.update m i v) }
    | none => b

/-- DisplayBuffer::indexOf, for the non-negative arguments plot passes:
none when it returns false, the index written to ind when it returns true. -/
def indexOf (b : DisplayBuffer) (x y : Int) : Option Nat :=
  if x ≥ b.width ∨ y ≥ b.height then none
  else some (b.width * y + x).toNat

/-- DisplayBuffer::clear. -/
def clear (b : DisplayBuffer) (color : Nat) : Bool × DisplayBuffer :=
  if b.operatorNot then (false, b)
  else
    (true, (List.range (b.width * b.height).toNat).foldl
      (fun d i => d.store i color) b)

/-- DisplayBuffer::plot. -/
def plot (b : DisplayBuffer) (x y : Int) (color : Nat) : Bool × DisplayBuffer :=
  if b.operatorNot then (false, b)
  else if x < 0 ∨ y < 0 then (false, b)
  else
    match b.indexOf x y with
    | none => (false, b)
    | some ind => (true, b.store ind color)

/-- The pixel (x, y) lies inside the buffer: 0 <= x < width, 0 <= y < height. -/
abbrev inside (b : DisplayBuffer) (x y : Int) : Prop :=
  0 ≤ x ∧ x < b.width ∧ 0 ≤ y ∧ y < b.height

/-- The row-major offset width*y + x of the pixel (x, y) in the storage. -/
def offset (b : DisplayBuffer) (x y : Int) : Nat :=
  (b.width * y + x).toNat

end DisplayBuffer

/-! ## RendererProgram -/

/-- RendererProgram: the render state. The C++ object holds a pointer
p_buffer to the buffer of its Renderer; the embedding keeps the pointee in
the field buffer, so that a write through p_buffer is a new value of it. -/
structure RendererProgram where
  buffer : DisplayBuffer
  modelview : Mat4x4f
  proj : Mat4x4f
  viewport : Region2i
  front_color : Nat
  clear_color : Nat

namespace RendererProgram

/-- RendererProgram::DEFAULT_FRONT_COLOR = 0xFFFFFFFF. -/
def DEFAULT_FRONT_COLOR : Nat := 0xFFFFFFFF

/-- RendererProgram::DEFAULT_CLEAR_COLOR = 0xFF000000. -/
def DEFAULT_CLEAR_COLOR : Nat := 0xFF000000

/-- RendererProgram(DisplayBuffer&). -/
def create (buffer : DisplayBuffer) : RendererProgram :=
  { buffer := buffer,
    modelview := Mat4x4f.IDENTITY,
    proj := Mat4x4f.IDENTITY,
    viewport := Region2i.create 0 buffer.width 0 buffer.height,
    front_color := DEFAULT_FRONT_COLOR,
    clear_color := DEFAULT_CLEAR_COLOR }

/-- RendererProgram::raw_clear. -/
def raw_clear (prg : RendererProgram) : Int × RendererProgram :=
  let r := prg.buffer.clear prg.clear_color
  (if r.1 then 0 else 1, { prg with buffer := r.2 })

/-- RendererProgram::raw_drawPoint. -/
def raw_drawPoint (prg : RendererProgram) (p : Int × Int) : Int × RendererProgram :=
  let x := p.1
  let y := p.2
  if x < 0 ∨ y < 0 then (1, prg)
  else
    let r := prg.buffer.plot x y prg.front_color
    (if r.1 then 0 else 1, { prg with buffer := r.2 })

/-- RendererProgram::raw_drawBigPoint. -/
def raw_drawBigPoint (prg : RendererProgram) (p : Int × Int) : Int × RendererProgram :=
  let x := p.1
  let y := p.2
  if x < 0 ∨ y < 0 then (1, prg)
  else
    let r := prg.buffer.plot x y prg.front_color
    if !r.1 then (1, { prg with buffer := r.2 })
    else
      let b1 := (r.2.plot (x - 1) y prg.front_color).2
      let b2 := (b1.plot (x + 1) y prg.front_color).2
      let b3 := (b2.plot x (y - 1) prg.front_color).2
      let b4 := (b3.plot x (y + 1) prg.front_color).2
      (0, { prg with buffer := b4 })

/-- RendererProgram::raw_drawLine. -/
def raw_drawLine (prg : RendererProgram) (p1 p2 : Int × Int) : Int × RendererProgram :=
  if p1 = p2 then prg.raw_drawPoint p1
  else
    let dx : Int := p2.1 - p1.1
    let dy : Int := p2.2 - p1.2
    let abs_dx : Int := if dx ≥ 0 then dx else -dx
    let abs_dy : Int := if dy ≥ 0 then dy else -dy
    if abs_dx > abs_dy then
      let q1 := if p1.1 > p2.1 then p2 else p1
      let q2 := if p1.1 > p2.1 then p1 else p2
      let m : ℚ := (dy : ℚ) / (dx : ℚ)
      let b : ℚ := (q1.2 : ℚ) - (q1.1 : ℚ) * m
      let x0 : Int := if q1.1 < 0 then 0 else q1.1
      let xmax : Int :=
        if q2.1 > prg.buffer.width then prg.buffer.width - 1 else q2.1
      let buf := (intRange x0 xmax).foldl
        (fun d x => (d.plot x (truncToInt ((x : ℚ) * m + b)) prg.front_color).2)
        prg.buffer
      (0, { prg with buffer := buf })
    else
      let q1 := if p1.2 > p2.2 then p2 else p1
      let q2 := if p1.2 > p2.2 then p1 else p2
      let m : ℚ := (dx : ℚ) / (dy : ℚ)
      let b : ℚ := (q1.1 : ℚ) - (q1.2 : ℚ) * m
      let y0 : Int := if q1.2 < 0 then 0 else q1.2
      let ymax : Int :=
        if q2.2 > prg.buffer.height then prg.buffer.height - 1 else q2.2
      let buf := (intRange y0 ymax).foldl
        (fun d y => (d.plot (truncToInt ((y : ℚ) * m + b)) y prg.front_color).2)
        prg.buffer
      (0, { prg with buffer := buf })

/-- RendererProgram::raw_drawLine in binary32: dx, dy and the coordinates are
converted to float, and the division for m, the product and the subtraction
for b and the product and the addition for x*m + b are float operations. -/
def raw_drawLine_f32 (prg : RendererProgram) (p1 p2 : Int × Int) : Int × RendererProgram :=
  if p1 = p2 then prg.raw_drawPoint p1
  else
    let dx : Int := p2.1 - p1.1
    let dy : Int := p2.2 - p1.2
    let abs_dx : Int := if dx ≥ 0 then dx else -dx
    let abs_dy : Int := if dy ≥ 0 then dy else -dy
    if abs_dx > abs_dy then
      let q1 := if p1.1 > p2.1 then p2 else p1
      let q2 := if p1.1 > p2.1 then p1 else p2
      let m : ℚ := F32.rnd (F32.rnd (dy : ℚ) / F32.rnd (dx : ℚ))
      let b : ℚ := F32.rnd (F32.rnd (q1.2 : ℚ) - F32.rnd (F32.rnd (q1.1 : ℚ) * m))
      let x0 : Int := if q1.1 < 0 then 0 else q1.1
      let xmax : Int :=
        if q2.1 > prg.buffer.width then prg.buffer.width - 1 else q2.1
      let buf := (intRange x0 xmax).foldl
        (fun d x => (d.plot x
          (truncToInt (F32.rnd (F32.rnd (F32.rnd (x : ℚ) * m) + b))) prg.front_color).2)
        prg.buffer
      (0, { prg with buffer := buf })
    else
      let q1 := if p1.2 > p2.2 then p2 else p1
      let q2 := if p1.2 > p2.2 then p1 else p2
      let m : ℚ := F32.rnd (F32.rnd (dx : ℚ) / F32.rnd (dy : ℚ))
      let b : ℚ := F32.rnd (F32.rnd (q1.1 : ℚ) - F32.rnd (F32.rnd (q1.2 : ℚ) * m))
      let y0 : Int := if q1.2 < 0 then 0 else q1.2
      let ymax : Int :=
        if q2.2 > prg.buffer.height then prg.buffer.height - 1 else q2.2
      let buf := (intRange y0 ymax).foldl
        (fun d y => (d.plot
          (truncToInt (F32.rnd (F32.rnd (F32.rnd (y : ℚ) * m) + b))) y prg.front_color).2)
        prg.buffer
      (0, { prg with buffer := buf })

/-- The float division a / b of raw_drawLine with the zero divisor made
explicit: none when b is zero. -/
def divChecked (a b : ℚ) : Option ℚ :=
  if b = 0 then none else some (a / b)

/-- RendererProgram::raw_drawLine with the slope division checked: none when
the divisor (float)dx or (float)dy of the branch taken is zero. -/
def raw_drawLine_checked (prg : RendererProgram) (p1 p2 : Int × Int) :
    Option (Int × RendererProgram) :=
  if p1 = p2 then some (prg.raw_drawPoint p1)
  else
    let dx : Int := p2.1 - p1.1
    let dy : Int := p2.2 - p1.2
    let abs_dx : Int := if dx ≥ 0 then dx else -dx
    let abs_dy : Int := if dy ≥ 0 then dy else -dy
    if abs_dx > abs_dy then
      let q1 := if p1.1 > p2.1 then p2 else p1
      let q2 := if p1.1 > p2.1 then p1 else p2
      (divChecked (dy : ℚ) (dx : ℚ)).map fun m =>
        let b : ℚ := (q1.2 : ℚ) - (q1.1 : ℚ) * m
        let x0 : Int := if q1.1 < 0 then 0 else q1.1
        let xmax : Int :=
          if q2.1 > prg.buffer.width then prg.buffer.width - 1 else q2.1
        let buf := (intRange x0 xmax).foldl
          (fun d x => (d.plot x (truncToInt ((x : ℚ) * m + b)) prg.front_color).2)
          prg.buffer
        (0, { prg with buffer := buf })
    else
      let q1 := if p1.2 > p2.2 then p2 else p1
      let q2 := if p1.2 > p2.2 then p1 else p2
      (divChecked (dx : ℚ) (dy : ℚ)).map fun m =>
        let b : ℚ := (q1.1 : ℚ) - (q1.2 : ℚ) * m
        let y0 : Int := if q1.2 < 0 then 0 else q1.2
        let ymax : Int :=
          if q2.2 > prg.buffer.height then prg.buffer.height - 1 else q2.2
        let buf := (intRange y0 ymax).foldl
          (fun d y => (d.plot (truncToInt ((y : ℚ) * m + b)) y prg.front_color).2)
          prg.buffer
        (0, { prg with buffer := buf })

/-- RendererProgram::transformPoint: the return code, the transformed point
and the pixel left in rp. -/
def transformPoint (prg : RendererProgram) (p : Vector4f) (rp : Int × Int) :
    Int × Vector4f × (Int × Int) :=
  let p1 := multiply p prg.modelview
  let p2 := multiply p1 prg.proj
  if p2.w = 0 then (1, p2, rp)
  else
    let p3 := p2.normalize
    if p3.z < -1 ∨ p3.z > 1 then
      (2, p3, (prg.viewport.posOf p3.x p3.y).2)
    else
      let r := prg.viewport.posOf p3.x p3.y
      (if r.1 then 0 else 1, p3, r.2)

/-- RendererProgram::drawPoint. -/
def drawPoint (prg : RendererProgram) (point : Vector4f) : Int × RendererProgram :=
  let t := prg.transformPoint point (-1, -1)
  if t.1 ≠ 0 then (0, prg)
  else (0, (prg.raw_drawPoint t.2.2).2)

/-- RendererProgram::drawBigPoint. -/
def drawBigPoint (prg : RendererProgram) (point : Vector4f) : Int × RendererProgram :=
  let t := prg.transformPoint point (-1, -1)
  if t.1 ≠ 0 then (0, prg)
  else (0, (prg.raw_drawBigPoint t.2.2).2)

/-- RendererProgram::drawLine. -/
def drawLine (prg : RendererProgram) (point1 point2 : Vector4f) : Int × RendererProgram :=
  let t1 := prg.transformPoint point1 (-1, -1)
  if t1.1 = 2 then (0, prg)
  else
    let t2 := prg.transformPoint point2 (-1, -1)
    if t2.1 = 2 then (0, prg)
    else prg.raw_drawLine t1.2.2 t2.2.2

end RendererProgram

/-! ## Renderer operations -/

namespace op

/-- The subclasses of op::RendererOperation with their data members. -/
inductive RendererOperation where
  | Terminate
  | ViewPort (viewport : Region2i)
  | Clear
  | RawPoint (point : Int × Int) (type : Int)
  | RawLine (point1 point2 : Int × Int)
  | Point (point : Vector4f) (type : Int)
  | Line (point1 point2 : Vector4f)
  | MatrixSet (mat : Mat4x4f) (type : Int)
  | Ortho (left right top bottom near far : ℚ)
  | Perspective (fovy near far ratio : ℚ)
  | MatrixTranslate (v : Vector4f) (matrix : Int)
  | MatrixRotate (ang : ℚ) (axis : Int) (matrix : Int)
  | MatrixScale (v : Vector4f) (matrix : Int)
  | ClearColor (color : Nat)
  | FrontColor (color : Nat)

/-- The virtual onDispatch of every operation class: the returned code and
the program after the call. -/
def RendererOperation.onDispatch (lm : LibM) :
    RendererOperation → RendererProgram → Int × RendererProgram
  | .Terminate, prg => (-1, prg)
  | .ViewPort viewport, prg => (0, { prg with viewport := viewport })
  | .Ortho left right top bottom near far, prg =>
    if near ≥ far ∨ top = bottom ∨ right = left then (1, prg)
    else
      let m0 := Mat4x4f.IDENTITY
      let m1 := scale4 m0 (2 / (right - left)) (2 / (top - bottom)) (-2 / (far - near)) 1
      let m2 := translate4 m1 (-(right + left) / (right - left))
        (-(top + bottom) / (top - bottom)) ((near + far) / (far - near)) 1
      (0, { prg with proj := m2 })
  | .Perspective fovy near far ratio, prg =>
    if near ≥ far ∨ fovy = 0 ∨ ratio ≤ 0 then (0, prg)
    else
      let ang := degrees2radians (fovy * (1 / 2))
      let f_len := far - near
      let y := 1 / lm.tan ang
      let x := y / ratio
      let l := -(far + near) / f_len
      let z := -2 * near * far / f_len
      let mat := Mat4x4f.ofList [x, 0, 0, 0,  0, y, 0, 0,  0, 0, l, -1,  0, 0, z, 0]
      (0, { prg with proj := mat })
  | .MatrixSet mat type, prg =>
    if type = 1 then (0, { prg with proj := mat })
    else (0, { prg with modelview := mat })
  | .MatrixTranslate v matrix, prg =>
    if matrix = 1 then (0, { prg with proj := translate prg.proj v })
    else (0, { prg with modelview := translate prg.modelview v })
  | .MatrixScale v matrix, prg =>
    if matrix = 1 then (0, { prg with proj := scale prg.proj v })
    else (0, { prg with modelview := scale prg.modelview v })
  | .MatrixRotate ang axis matrix, prg =>
    let rot : Mat4x4f → Mat4x4f := fun mat =>
      if axis = 0 then rotateAroundX lm mat ang
      else if axis = 1 then rotateAroundY lm mat ang
      else if axis = 2 then rotateAroundZ lm mat ang
      else mat
    if matrix = 1 then (0, { prg with proj := rot prg.proj })
    else (0, { prg with modelview := rot prg.modelview })
  | .Clear, prg => prg.raw_clear
  | .RawPoint point type, prg =>
    if type = 1 then prg.raw_drawBigPoint point else prg.raw_drawPoint point
  | .RawLine point1 point2, prg => prg.raw_drawLine point1 point2
  | .Line point1 point2, prg => prg.drawLine point1 point2
  | .Point point type, prg =>
    if type = 1 then prg.drawBigPoint point else prg.drawPoint point
  | .ClearColor color, prg => (0, { prg with clear_color := color })
  | .FrontColor color, prg => (0, { prg with front_color := color })

/-- RawLine::onDispatch in binary32: the call prg.raw_drawLine(point1,
point2) with the float operations of raw_drawLine. -/
def RawLine_onDispatch_f32 (point1 point2 : Int × Int) (prg : RendererProgram) :
    Int × RendererProgram :=
  prg.raw_drawLine_f32 point1 point2

end op

open op

/-! ## Renderer -/

/-- Where the rendering thread stands inside Renderer::run. Each
constructor is a point at which the thread holds no lock; one step of the
thread (Renderer.runStep) takes it to the next such point. -/
inductive ThreadState where
  /-- At the top of the loop body: about to lock, wait for an operation and
  pop it. -/
  | fetch
  /-- After q.pop() and q_lock.unlock(): the popped pointer op is held and
  has not been dispatched yet. -/
  | dispatch (op : Option RendererOperation)
  /-- After a dispatch that returned -1: about to lock and clear the queue. -/
  | terminating
  /-- About to lock and notify q_empty if the queue is empty; the argument is
  the local variable running. -/
  | signal (running : Bool)
  /-- The loop has been left and the thread function has returned. -/
  | finished

/-- True while the thread holds an operation it has popped from the queue
and not yet finished dispatching. -/
def ThreadState.holdsOp : ThreadState → Bool
  | .dispatch _ => true
  | _ => false

/-- Renderer, as built by Renderer(width, height, buffer): the program (with
the display buffer it points to), the operation queue (a null pointer in the
queue is none), the flag ok and the state of the rendering thread. -/
structure Renderer where
  program : RendererProgram
  q : List (Option RendererOperation)
  ok : Bool
  thread : ThreadState

/-- What a call of Renderer::flush does: return, or block on q_empty. -/
inductive FlushOutcome where
  | returned
  | waiting

namespace Renderer

/-- The member buffer, which program.p_buffer points to. -/
def buffer (r : Renderer) : DisplayBuffer := r.program.buffer

/-- Renderer(width, height, buffer): the thread is started on run. -/
def create (width height : Int) (ext_buffer : Option Mem) (uninit : Mem) : Renderer :=
  { program := RendererProgram.create (DisplayBuffer.create width height ext_buffer uninit),
    q := [],
    ok := true,
    thread := .fetch }

/-- Renderer::operator!. -/
def operatorNot (r : Renderer) : Bool :=
  r.buffer.operatorNot || !r.ok

/-- Renderer::bufferCopy: the return value and the destination afterwards.
memcpy copies the first width*height cells of the buffer data. -/
def bufferCopy (r : Renderer) (dest : Option Mem) : Int × Option Mem :=
  match dest with
  | none => (0, none)
  | some d =>
    if r.operatorNot then (0, some d)
    else
      match r.buffer.data with
      | none => (0, some d)
      | some src =>
        (1, some (fun i =>
          if i < (r.buffer.width * r.buffer.height).toNat then src i else d i))

/-- Renderer::operator>>. -/
def operatorShr (r : Renderer) (op : Option RendererOperation) : Renderer :=
  if r.operatorNot then r
  else { r with q := r.q ++ [op] }

/-- Renderer::flush: returns at once when the renderer is not ready or the
queue is empty, and waits for a notification of q_empty otherwise. -/
def flush (r : Renderer) : FlushOutcome :=
  if r.operatorNot then .returned
  else if r.q.isEmpty then .returned
  else .waiting

/-- One step of the rendering thread in Renderer::run, from one lock-free
point to the next; none when the thread cannot move (it waits on q_hasOp with
an empty queue, or it has finished). -/
def runStep (lm : LibM) (r : Renderer) : Option Renderer :=
  match r.thread with
  | .fetch =>
    match r.q with
    | [] => none
    | op :: rest => some { r with q := rest, thread := .dispatch op }
  | .dispatch none => some { r with thread := .fetch }
  | .dispatch (some op) =>
    let res := op.onDispatch lm r.program
    some { r with
      program := res.2,
      thread := if res.1 = -1 then .terminating else .signal true }
  | .terminating => some { r with q := [], ok := false, thread := .signal false }
  | .signal running => some { r with thread := if running then .fetch else .finished }
  | .finished => none

/-- The thread takes n steps in a row; none if it cannot. -/
def runSteps (lm : LibM) : Nat → Renderer → Option Renderer
  | 0, r => some r
  | n + 1, r =>
    match r.runStep lm with
    | none => none
    | some r1 => runSteps lm n r1

/-- The call thread.join(): the caller waits while the thread runs on its own
until it has finished; none when that does not happen within fuel steps. -/
def join (lm : LibM) : Nat → Renderer → Option Renderer
  | 0, r =>
    match r.thread with
    | .finished => some r
    | _ => none
  | fuel + 1, r =>
    match r.thread with
    | .finished => some r
    | _ =>
      match r.runStep lm with
      | none => none
      | some r1 => join lm fuel r1

/-- Renderer::terminate. -/
def terminate (lm : LibM) (fuel : Nat) (r : Renderer) : Option Renderer :=
  if r.operatorNot then some r
  else join lm fuel (r.operatorShr (some .Terminate))

/-- Renderer::clear. -/
def clear (r : Renderer) : Renderer := r.operatorShr (some .Clear)

/-- Renderer::drawRawPoint. -/
def drawRawPoint (r : Renderer) (p : Int × Int) : Renderer :=
  r.operatorShr (some (.RawPoint p 0))

/-- Renderer::drawRawBigPoint. -/
def drawRawBigPoint (r : Renderer) (p : Int × Int) : Renderer :=
  r.operatorShr (some (.RawPoint p 1))

/-- Renderer::drawRawLine. -/
def drawRawLine (r : Renderer) (point1 point2 : Int × Int) : Renderer :=
  r.operatorShr (some (.RawLine point1 point2))

/-- Renderer::drawPoint. -/
def drawPoint (r : Renderer) (p : Vector4f) : Renderer :=
  r.operatorShr (some (.Point p 0))

/-- Renderer::drawBigPoint. -/
def drawBigPoint (r : Renderer) (p : Vector4f) : Renderer :=
  r.operatorShr (some (.Point p 1))

/-- Renderer::drawLine. -/
def drawLine (r : Renderer) (point1 point2 : Vector4f) : Renderer :=
  r.operatorShr (some (.Line point1 point2))

/-- Renderer::orthoProjection. -/
def orthoProjection (r : Renderer) (left right bottom top near far : ℚ) : Renderer :=
  r.operatorShr (some (.Ortho left right top bottom near far))

/-- Renderer::perspectiveProjection. -/
def perspectiveProjection (r : Renderer) (fovy near far aspect_ratio : ℚ) : Renderer :=
  r.operatorShr (some (.Perspective fovy near far aspect_ratio))

/-- Renderer::setProjectionMatrix. -/
def setProjectionMatrix (r : Renderer) (mat : Mat4x4f) : Renderer :=
  r.operatorShr (some (.MatrixSet mat 1))

/-- Renderer::setModelViewMatrix. -/
def setModelViewMatrix (r : Renderer) (mat : Mat4x4f) : Renderer :=
  r.operatorShr (some (.MatrixSet mat 0))

/-- Renderer::translate. -/
def translate (r : Renderer) (v : Vector4f) (matrix : Int) : Renderer :=
  r.operatorShr (some (.MatrixTranslate v matrix))

/-- Renderer::rotateX. -/
def rotateX (r : Renderer) (x_angle : ℚ) (matrix : Int) : Renderer :=
  r.operatorShr (some (.MatrixRotate x_angle 0 matrix))

/-- Renderer::rotateY. -/
def rotateY (r : Renderer) (y_angle : ℚ) (matrix : Int) : Renderer :=
  r.operatorShr (some (.MatrixRotate y_angle 1 matrix))

/-- Renderer::rotateZ. -/
def rotateZ (r : Renderer) (z_angle : ℚ) (matrix : Int) : Renderer :=
  r.operatorShr (some (.MatrixRotate z_angle 2 matrix))

/-- Renderer::scale. -/
def scale (r : Renderer) (v : Vector4f) (matrix : Int) : Renderer :=
  r.operatorShr (some (.MatrixScale v matrix))

/-- Renderer::front_color. -/
def front_color (r : Renderer) (color : Nat) : Renderer :=
  r.operatorShr (some (.FrontColor color))

/-- Renderer::clear_color. -/
def clear_color (r : Renderer) (color : Nat) : Renderer :=
  r.operatorShr (some (.ClearColor color))

/-- Renderer::setViewPort. -/
def setViewPort (r : Renderer) (viewport : Region2i) : Renderer :=
  r.operatorShr (some (.ViewPort viewport))

end Renderer

/-! ## One producer and the rendering thread, interleaved -/

/-- A producer thread that still has the commands pending to submit, one
operator>> call each, next to the renderer it submits them to. -/
structure Session where
  pending : List RendererOperation
  renderer : Renderer

namespace Session

/-- One scheduling step: with producer = true the producer submits its next
command (nothing happens once it has none left), otherwise the rendering
thread takes its next step (nothing happens while it cannot move). -/
def step (lm : LibM) (s : Session) (producer : Bool) : Session :=
  if producer then
    match s.pending with
    | [] => s
    | c :: rest => { pending := rest, renderer := s.renderer.operatorShr (some c) }
  else
    match s.renderer.runStep lm with
    | none => s
    | some r => { s with renderer := r }

/-- The session after a schedule, a list of scheduling steps. -/
def run (lm : LibM) (sched : List Bool) (s : Session) : Session :=
  sched.foldl (step lm) s

/-- Every command has been submitted, the queue is empty and the thread holds
no popped operation. -/
def drained (s : Session) : Prop :=
  s.pending = [] ∧ s.renderer.q = [] ∧ s.renderer.thread.holdsOp = false

end Session

/-- The reference model: the commands applied one after another. -/
def applyAll (lm : LibM) (cmds : List RendererOperation) (prg : RendererProgram) :
    RendererProgram :=
  cmds.foldl (fun p c => (c.onDispatch lm p).2) prg

/-- The line of raw_drawLine through (a1, b1) and (a2, b2), with the slope
m = (b2 - b1) / (a2 - a1) and the intercept b = b1 - a1*m, evaluated at the
stepping coordinate t: t*m + b. For a horizontal-dominant line a is x and b
is y, for a vertical-dominant line a is y and b is x. -/
def lineAt (a1 b1 a2 b2 : Int) (t : Int) : ℚ :=
  (t : ℚ) * (((b2 - b1 : Int) : ℚ) / ((a2 - a1 : Int) : ℚ)) +
    ((b1 : ℚ) - (a1 : ℚ) * (((b2 - b1 : Int) : ℚ) / ((a2 - a1 : Int) : ℚ)))

/-- The slope m of raw_drawLine as the code computes it in binary32:
(float)(b2 - b1) / (float)(a2 - a1). -/
def slopeF32 (a1 b1 a2 b2 : Int) : ℚ :=
  F32.rnd (F32.rnd ((b2 - b1 : Int) : ℚ) / F32.rnd ((a2 - a1 : Int) : ℚ))

/-- The value x*m + b of raw_drawLine as the code computes it in binary32,
with m = slopeF32 and the intercept b = b1 - a1*m, at the stepping
coordinate t. -/
def lineAtF32 (a1 b1 a2 b2 : Int) (t : Int) : ℚ :=
  F32.rnd (F32.rnd (F32.rnd (t : ℚ) * slopeF32 a1 b1 a2 b2) +
    F32.rnd (F32.rnd (b1 : ℚ) - F32.rnd (F32.rnd (a1 : ℚ) * slopeF32 a1 b1 a2 b2)))

/-- Invariant of a session that started on the program p0 with the commands
cmds to submit: the renderer is usable, and cmds splits into the commands
already applied (their effect is the current program), the command the thread
holds, the queued commands and the commands not yet submitted. -/
def Session.Inv (lm : LibM) (cmds : List RendererOperation) (p0 : RendererProgram)
    (s : Session) : Prop :=
  s.renderer.ok = true ∧ s.renderer.buffer.operatorNot = false ∧
  ∃ applied fl qs, cmds = applied ++ fl ++ qs ++ s.pending ∧
    s.renderer.q = qs.map some ∧
    s.renderer.program = applyAll lm applied p0 ∧
    ((s.renderer.thread = ThreadState.fetch ∧ fl = []) ∨
     (s.renderer.thread = ThreadState.signal true ∧ fl = []) ∨
     (∃ c, s.renderer.thread = ThreadState.dispatch (some c) ∧ fl = [c]))


/-! ## Theorems: lemmas on the display buffer -/

namespace DisplayBuffer

theorem store_width (b : DisplayBuffer) (i v : Nat) : (b.store i v).width = b.width := by
  rcases b with ⟨w, h, _ | m, _ | m2⟩ <;> rfl

theorem store_height (b : DisplayBuffer) (i v : Nat) : (b.store i v).height = b.height := by
  rcases b with ⟨w, h, _ | m, _ | m2⟩ <;> rfl

theorem store_operatorNot (b : DisplayBuffer) (i v : Nat) :
    (b.store i v).operatorNot = b.operatorNot := by
  rcases b with ⟨w, h, _ | m, _ | m2⟩ <;> rfl

theorem store_data (b : DisplayBuffer) (i v : Nat) :
    (b.store i v).data = b.data.map (fun m => Function.update m i v) := by
  rcases b with ⟨w, h, _ | m, _ | m2⟩ <;> rfl

theorem data_isSome_of_ready (b : DisplayBuffer) (h : b.operatorNot = false) :
    ∃ m, b.data = some m := by
  rcases b with ⟨w, h, _ | m, _ | m2⟩ <;> simp_all [operatorNot, data]

theorem plot_width (b : DisplayBuffer) (x y : Int) (c : Nat) :
    (b.plot x y c).2.width = b.width := by
  unfold plot
  split_ifs
  · rfl
  · rfl
  · split
    · rfl
    · exact store_width _ _ _

theorem plot_height (b : DisplayBuffer) (x y : Int) (c : Nat) :
    (b.plot x y c).2.height = b.height := by
  unfold plot
  split_ifs
  · rfl
  · rfl
  · split
    · rfl
    · exact store_height _ _ _

theorem plot_operatorNot (b : DisplayBuffer) (x y : Int) (c : Nat) :
    (b.plot x y c).2.operatorNot = b.operatorNot := by
  unfold plot
  split_ifs
  · rfl
  · rfl
  · split
    · rfl
    · exact store_operatorNot _ _ _

/-- Claim C6. Bounds safety: for a buffer of any width and height, any color
and any integer coordinate with x < 0, y < 0, x >= width or y >= height, plot
returns false and the buffer object, storage included, is unchanged. -/
theorem plot_out_of_bounds (b : DisplayBuffer) (x y : Int) (color : Nat)
    (h : x < 0 ∨ y < 0 ∨ x ≥ b.width ∨ y ≥ b.height) :
    b.plot x y color = (false, b) := by
  unfold plot indexOf
  by_cases h1 : b.operatorNot = true
  · simp [h1]
  · by_cases h2 : x < 0 ∨ y < 0
    · simp [h1, h2]
    · have h3 : x ≥ b.width ∨ y ≥ b.height := by omega
      simp [h1, h2, h3]

theorem plot_out_of_bounds_witness :
    ((5 : Int) < 0 ∨ (-1 : Int) < 0 ∨
        (5 : Int) ≥ (DisplayBuffer.create 4 4 none (fun _ => 0)).width ∨
        (-1 : Int) ≥ (DisplayBuffer.create 4 4 none (fun _ => 0)).height) ∧
      (DisplayBuffer.create 4 4 none (fun _ => 0)).plot 5 (-1) 7 =
        (false, DisplayBuffer.create 4 4 none (fun _ => 0)) :=
  ⟨by decide, plot_out_of_bounds _ 5 (-1) 7 (by decide)⟩

/-- Claim C7. In-bounds plot: for a ready buffer and 0 <= x < width,
0 <= y < height, plot returns true, keeps the dimensions, and the storage
afterwards holds color at the row-major index y*width + x and the previous
content in every other cell. -/
theorem plot_in_bounds (b : DisplayBuffer) (x y : Int) (color : Nat)
    (hready : b.operatorNot = false)
    (hx0 : 0 ≤ x) (hxw : x < b.width) (hy0 : 0 ≤ y) (hyh : y < b.height) :
    (b.plot x y color).1 = true ∧
    (b.plot x y color).2.width = b.width ∧
    (b.plot x y color).2.height = b.height ∧
    ∃ m m2, b.data = some m ∧ (b.plot x y color).2.data = some m2 ∧
      m2 (y * b.width + x).toNat = color ∧
      ∀ i, i ≠ (y * b.width + x).toNat → m2 i = m i := by
  obtain ⟨m, hm⟩ := data_isSome_of_ready b hready
  have h2 : ¬ (x < 0 ∨ y < 0) := by omega
  have h3 : ¬ (x ≥ b.width ∨ y ≥ b.height) := by omega
  have hp : b.plot x y color = (true, b.store (b.width * y + x).toNat color) := by
    unfold plot indexOf
    simp [hready, h2, h3]
  rw [hp]
  refine ⟨rfl, store_width _ _ _, store_height _ _ _, m,
    Function.update m (b.width * y + x).toNat color, hm, ?_, ?_, ?_⟩
  · show (b.store (b.width * y + x).toNat color).data = _
    rw [store_data, hm]; rfl
  · rw [mul_comm]; simp
  · intro i hi
    rw [mul_comm] at hi
    simp [Function.update, hi]

theorem plot_in_bounds_witness :
    (DisplayBuffer.create 4 3 none (fun _ => 0)).operatorNot = false ∧
    (0 : Int) ≤ 2 ∧ (2 : Int) < (DisplayBuffer.create 4 3 none (fun _ => 0)).width ∧
    (0 : Int) ≤ 1 ∧ (1 : Int) < (DisplayBuffer.create 4 3 none (fun _ => 0)).height ∧
    (((DisplayBuffer.create 4 3 none (fun _ => 0)).plot 2 1 9).1 = true ∧
      ((DisplayBuffer.create 4 3 none (fun _ => 0)).plot 2 1 9).2.width = (DisplayBuffer.create 4 3 none (fun _ => 0)).width ∧
      ((DisplayBuffer.create 4 3 none (fun _ => 0)).plot 2 1 9).2.height = (DisplayBuffer.create 4 3 none (fun _ => 0)).height ∧
      ∃ m m2, (DisplayBuffer.create 4 3 none (fun _ => 0)).data = some m ∧
        ((DisplayBuffer.create 4 3 none (fun _ => 0)).plot 2 1 9).2.data = some m2 ∧
        m2 ((1 : Int) * (DisplayBuffer.create 4 3 none (fun _ => 0)).width + 2).toNat = 9 ∧
        ∀ i, i ≠ ((1 : Int) * (DisplayBuffer.create 4 3 none (fun _ => 0)).width + 2).toNat → m2 i = m i) :=
  ⟨by decide, by decide, by decide, by decide, by decide,
    plot_in_bounds (DisplayBuffer.create 4 3 none (fun _ => 0)) 2 1 9
      (by decide) (by decide) (by decide) (by decide) (by decide)⟩

/-- The loop of clear in closed form: the first n cells of the storage in use
hold the color, nothing else changes. -/
theorem foldl_store_range (c : Nat) (n : Nat) (b : DisplayBuffer) :
    (List.range n).foldl (fun d i => d.store i c) b =
      { b with
        buff := b.buff.map (fun m i => if i < n then c else m i),
        inner_buff :=
          if b.buff.isSome then b.inner_buff
          else b.inner_buff.map (fun m i => if i < n then c else m i) } := by
  induction n with
  | zero =>
    rcases b with ⟨w, h, _ | m, _ | m2⟩ <;> simp
  | succ k ih =>
    rw [List.range_succ, List.foldl_append, ih]
    rcases b with ⟨w, h, _ | m, _ | m2⟩ <;> simp [store]
    all_goals
      funext i
      by_cases hik : i = k
      · subst hik; simp
      · have : i < k + 1 ↔ i < k := by omega
        simp [Function.update, hik, this]

theorem clear_ready (b : DisplayBuffer) (c : Nat) (h : b.operatorNot = false) :
    b.clear c = (true,
      { b with
        buff := b.buff.map (fun m i => if i < (b.width * b.height).toNat then c else m i),
        inner_buff :=
          if b.buff.isSome then b.inner_buff
          else b.inner_buff.map
            (fun m i => if i < (b.width * b.height).toNat then c else m i) }) := by
  unfold clear
  rw [foldl_store_range]
  simp [h]

theorem clear_not_ready (b : DisplayBuffer) (c : Nat) (h : b.operatorNot = true) :
    b.clear c = (false, b) := by
  unfold clear
  simp [h]

theorem clear_operatorNot (b : DisplayBuffer) (c : Nat) :
    (b.clear c).2.operatorNot = b.operatorNot := by
  by_cases h : b.operatorNot = true
  · rw [clear_not_ready b c h]
  · have h2 : b.operatorNot = false := by simpa using h
    rw [clear_ready b c h2]
    rcases b with ⟨w, h, _ | m, _ | m2⟩ <;> simp [operatorNot]

theorem clear_clear (b : DisplayBuffer) (c : Nat) :
    (b.clear c).2.clear c = b.clear c := by
  by_cases h : b.operatorNot = true
  · rw [clear_not_ready b c h, clear_not_ready b c h]
  · have h2 : b.operatorNot = false := by simpa using h
    have h3 : (b.clear c).2.operatorNot = false := by rw [clear_operatorNot]; exact h2
    rw [clear_ready _ c h3, clear_ready b c h2]
    rcases b with ⟨w, ht, _ | m, _ | m2⟩ <;> simp
    all_goals
      funext i
      split_ifs <;> rfl

/-- Claim C10. Not-ready buffer: when operator! holds (no caller storage and
no owned storage), clear and plot return false for every argument and leave
the buffer object unchanged; the default constructor produces such a buffer
with zero dimensions, and so does a move in the object it moves from. -/
theorem not_ready_is_noop (b : DisplayBuffer) (h : b.operatorNot = true)
    (color : Nat) (x y : Int) (other : DisplayBuffer) :
    b.clear color = (false, b) ∧ b.plot x y color = (false, b) ∧
    DisplayBuffer.default.operatorNot = true ∧
    DisplayBuffer.default.width = 0 ∧ DisplayBuffer.default.height = 0 ∧
    (DisplayBuffer.move other).2.operatorNot = true ∧
    (DisplayBuffer.move other).2.width = 0 ∧ (DisplayBuffer.move other).2.height = 0 := by
  refine ⟨?_, ?_, rfl, rfl, rfl, rfl, rfl, rfl⟩
  · unfold clear; simp [h]
  · unfold plot; simp [h]

theorem not_ready_is_noop_witness :
    DisplayBuffer.default.operatorNot = true ∧
    (DisplayBuffer.default.clear 7 = (false, DisplayBuffer.default) ∧
      DisplayBuffer.default.plot 0 0 7 = (false, DisplayBuffer.default) ∧
      DisplayBuffer.default.operatorNot = true ∧
      DisplayBuffer.default.width = 0 ∧ DisplayBuffer.default.height = 0 ∧
      (DisplayBuffer.move (DisplayBuffer.create 2 2 none (fun _ => 0))).2.operatorNot = true ∧
      (DisplayBuffer.move (DisplayBuffer.create 2 2 none (fun _ => 0))).2.width = 0 ∧
      (DisplayBuffer.move (DisplayBuffer.create 2 2 none (fun _ => 0))).2.height = 0) :=
  ⟨by decide,
    not_ready_is_noop DisplayBuffer.default (by decide) 7 0 0
      (DisplayBuffer.create 2 2 none (fun _ => 0))⟩

end DisplayBuffer

/-! ## Lemmas on the render state machine -/

/-- A property of both branches of a conditional holds of the conditional. -/
theorem prop_of_ite {α : Type} (P : α → Prop) (c : Prop) [Decidable c] (a b : α)
    (ha : P a) (hb : P b) : P (if c then a else b) := by
  split_ifs <;> assumption

namespace RendererProgram

theorem foldl_plot_operatorNot (f : DisplayBuffer → Int → DisplayBuffer)
    (hf : ∀ d x, (f d x).operatorNot = d.operatorNot) (l : List Int) (b : DisplayBuffer) :
    (l.foldl f b).operatorNot = b.operatorNot := by
  induction l generalizing b with
  | nil => rfl
  | cons x xs ih => rw [List.foldl_cons, ih, hf]

theorem raw_clear_operatorNot (prg : RendererProgram) :
    prg.raw_clear.2.buffer.operatorNot = prg.buffer.operatorNot := by
  unfold raw_clear
  exact DisplayBuffer.clear_operatorNot _ _

theorem raw_clear_code (prg : RendererProgram) : prg.raw_clear.1 ≠ -1 := by
  unfold raw_clear
  dsimp only
  split_ifs <;> simp

theorem raw_drawPoint_operatorNot (prg : RendererProgram) (p : Int × Int) :
    (prg.raw_drawPoint p).2.buffer.operatorNot = prg.buffer.operatorNot := by
  unfold raw_drawPoint
  dsimp only
  apply prop_of_ite (fun r : Int × RendererProgram => r.2.buffer.operatorNot = prg.buffer.operatorNot)
  · rfl
  · exact DisplayBuffer.plot_operatorNot _ _ _ _

theorem raw_drawPoint_code (prg : RendererProgram) (p : Int × Int) :
    (prg.raw_drawPoint p).1 ≠ -1 := by
  unfold raw_drawPoint
  dsimp only
  split_ifs <;> simp

theorem raw_drawBigPoint_operatorNot (prg : RendererProgram) (p : Int × Int) :
    (prg.raw_drawBigPoint p).2.buffer.operatorNot = prg.buffer.operatorNot := by
  unfold raw_drawBigPoint
  dsimp only
  apply prop_of_ite (fun r : Int × RendererProgram => r.2.buffer.operatorNot = prg.buffer.operatorNot)
  · rfl
  · apply prop_of_ite (fun r : Int × RendererProgram => r.2.buffer.operatorNot = prg.buffer.operatorNot)
    · exact DisplayBuffer.plot_operatorNot _ _ _ _
    · simp only [DisplayBuffer.plot_operatorNot]

theorem raw_drawBigPoint_code (prg : RendererProgram) (p : Int × Int) :
    (prg.raw_drawBigPoint p).1 ≠ -1 := by
  unfold raw_drawBigPoint
  dsimp only
  split_ifs <;> simp

theorem raw_drawLine_operatorNot (prg : RendererProgram) (p1 p2 : Int × Int) :
    (prg.raw_drawLine p1 p2).2.buffer.operatorNot = prg.buffer.operatorNot := by
  unfold raw_drawLine
  apply prop_of_ite (fun r : Int × RendererProgram => r.2.buffer.operatorNot = prg.buffer.operatorNot)
  · exact raw_drawPoint_operatorNot _ _
  · dsimp only
    apply prop_of_ite (fun r : Int × RendererProgram => r.2.buffer.operatorNot = prg.buffer.operatorNot)
    · exact foldl_plot_operatorNot _ (fun _ _ => DisplayBuffer.plot_operatorNot _ _ _ _) _ _
    · exact foldl_plot_operatorNot _ (fun _ _ => DisplayBuffer.plot_operatorNot _ _ _ _) _ _

theorem raw_drawLine_code (prg : RendererProgram) (p1 p2 : Int × Int) :
    (prg.raw_drawLine p1 p2).1 ≠ -1 := by
  unfold raw_drawLine
  apply prop_of_ite (fun r : Int × RendererProgram => r.1 ≠ -1)
  · exact raw_drawPoint_code _ _
  · dsimp only
    apply prop_of_ite (fun r : Int × RendererProgram => r.1 ≠ -1) <;> simp

theorem drawPoint_operatorNot (prg : RendererProgram) (p : Vector4f) :
    (prg.drawPoint p).2.buffer.operatorNot = prg.buffer.operatorNot := by
  unfold drawPoint
  dsimp only
  split_ifs
  · rfl
  · exact raw_drawPoint_operatorNot _ _

theorem drawPoint_code (prg : RendererProgram) (p : Vector4f) :
    (prg.drawPoint p).1 ≠ -1 := by
  unfold drawPoint
  dsimp only
  split_ifs <;> simp

theorem drawBigPoint_operatorNot (prg : RendererProgram) (p : Vector4f) :
    (prg.drawBigPoint p).2.buffer.operatorNot = prg.buffer.operatorNot := by
  unfold drawBigPoint
  dsimp only
  split_ifs
  · rfl
  · exact raw_drawBigPoint_operatorNot _ _

theorem drawBigPoint_code (prg : RendererProgram) (p : Vector4f) :
    (prg.drawBigPoint p).1 ≠ -1 := by
  unfold drawBigPoint
  dsimp only
  split_ifs <;> simp

theorem drawLine_operatorNot (prg : RendererProgram) (p1 p2 : Vector4f) :
    (prg.drawLine p1 p2).2.buffer.operatorNot = prg.buffer.operatorNot := by
  unfold drawLine
  dsimp only
  split_ifs
  · rfl
  · rfl
  · exact raw_drawLine_operatorNot _ _ _

theorem drawLine_code (prg : RendererProgram) (p1 p2 : Vector4f) :
    (prg.drawLine p1 p2).1 ≠ -1 := by
  unfold drawLine
  dsimp only
  split_ifs
  · simp
  · simp
  · exact raw_drawLine_code _ _ _

end RendererProgram

namespace op

/-- No operation changes whether the display buffer is ready. -/
theorem onDispatch_operatorNot (lm : LibM) (c : RendererOperation) (prg : RendererProgram) :
    (c.onDispatch lm prg).2.buffer.operatorNot = prg.buffer.operatorNot := by
  cases c <;> simp only [RendererOperation.onDispatch]
  case Clear => exact RendererProgram.raw_clear_operatorNot _
  case RawPoint p t =>
    split_ifs
    · exact RendererProgram.raw_drawBigPoint_operatorNot _ _
    · exact RendererProgram.raw_drawPoint_operatorNot _ _
  case RawLine p1 p2 => exact RendererProgram.raw_drawLine_operatorNot _ _ _
  case Point p t =>
    split_ifs
    · exact RendererProgram.drawBigPoint_operatorNot _ _
    · exact RendererProgram.drawPoint_operatorNot _ _
  case Line p1 p2 => exact RendererProgram.drawLine_operatorNot _ _ _
  all_goals first
    | rfl
    | (split_ifs <;> rfl)

/-- Every operation other than Terminate returns a code other than -1. -/
theorem onDispatch_code_of_ne_Terminate (lm : LibM) (c : RendererOperation)
    (prg : RendererProgram) (h : c ≠ RendererOperation.Terminate) :
    (c.onDispatch lm prg).1 ≠ -1 := by
  cases c <;> simp only [RendererOperation.onDispatch]
  case Terminate => exact absurd rfl h
  case Clear => exact RendererProgram.raw_clear_code _
  case RawPoint p t =>
    split_ifs
    · exact RendererProgram.raw_drawBigPoint_code _ _
    · exact RendererProgram.raw_drawPoint_code _ _
  case RawLine p1 p2 => exact RendererProgram.raw_drawLine_code _ _ _
  case Point p t =>
    split_ifs
    · exact RendererProgram.drawBigPoint_code _ _
    · exact RendererProgram.drawPoint_code _ _
  case Line p1 p2 => exact RendererProgram.drawLine_code _ _ _
  all_goals ((try split_ifs) <;> simp)

end op

/-! ## The Clear command -/

/-- Claim C8. Clear fills the buffer: on a render state whose buffer is ready,
the Clear command returns 0 (so it does not request termination), leaves both
matrices, the viewport, both colors and the buffer dimensions unchanged, and
afterwards each of the width*height cells holds the clear color while the
storage beyond them is untouched. -/
theorem clear_fills_buffer (lm : LibM) (prg : RendererProgram)
    (hready : prg.buffer.operatorNot = false) :
    (RendererOperation.onDispatch lm .Clear prg).1 = 0 ∧
    (RendererOperation.onDispatch lm .Clear prg).1 ≠ -1 ∧
    (RendererOperation.onDispatch lm .Clear prg).2.modelview = prg.modelview ∧
    (RendererOperation.onDispatch lm .Clear prg).2.proj = prg.proj ∧
    (RendererOperation.onDispatch lm .Clear prg).2.viewport = prg.viewport ∧
    (RendererOperation.onDispatch lm .Clear prg).2.front_color = prg.front_color ∧
    (RendererOperation.onDispatch lm .Clear prg).2.clear_color = prg.clear_color ∧
    (RendererOperation.onDispatch lm .Clear prg).2.buffer.width = prg.buffer.width ∧
    (RendererOperation.onDispatch lm .Clear prg).2.buffer.height = prg.buffer.height ∧
    ∃ m m2, prg.buffer.data = some m ∧
      (RendererOperation.onDispatch lm .Clear prg).2.buffer.data = some m2 ∧
      (∀ i : Nat, (i : Int) < prg.buffer.width * prg.buffer.height → m2 i = prg.clear_color) ∧
      (∀ i : Nat, ¬ (i : Int) < prg.buffer.width * prg.buffer.height → m2 i = m i) := by
  obtain ⟨m, hm⟩ := DisplayBuffer.data_isSome_of_ready _ hready
  have hres : RendererOperation.onDispatch lm .Clear prg =
      (0, { prg with buffer := (prg.buffer.clear prg.clear_color).2 }) := by
    simp only [RendererOperation.onDispatch, RendererProgram.raw_clear,
      DisplayBuffer.clear_ready _ _ hready]
    rfl
  rw [hres, DisplayBuffer.clear_ready _ _ hready]
  refine ⟨rfl, by simp, rfl, rfl, rfl, rfl, rfl, rfl, rfl, m,
    fun i => if i < (prg.buffer.width * prg.buffer.height).toNat then prg.clear_color else m i,
    hm, ?_, ?_, ?_⟩
  · rcases prg with ⟨⟨w, ht, _ | ma, _ | mb⟩, mv, pj, vp, fc, cc⟩ <;>
      simp_all [DisplayBuffer.data, DisplayBuffer.operatorNot]
  · intro i hi
    have : i < (prg.buffer.width * prg.buffer.height).toNat := by omega
    simp [this]
  · intro i hi
    have : ¬ i < (prg.buffer.width * prg.buffer.height).toNat := by omega
    simp [this]

theorem clear_fills_buffer_witness :
    (RendererProgram.create (DisplayBuffer.create 2 2 none (fun _ => 5))).buffer.operatorNot
      = false ∧
    ((RendererOperation.onDispatch ⟨id, id, id⟩ RendererOperation.Clear (RendererProgram.create (DisplayBuffer.create 2 2 none (fun _ => 5)))).1 = 0 ∧
      (RendererOperation.onDispatch ⟨id, id, id⟩ RendererOperation.Clear (RendererProgram.create (DisplayBuffer.create 2 2 none (fun _ => 5)))).1 ≠ -1 ∧
      (RendererOperation.onDispatch ⟨id, id, id⟩ RendererOperation.Clear (RendererProgram.create (DisplayBuffer.create 2 2 none (fun _ => 5)))).2.modelview =
        (RendererProgram.create (DisplayBuffer.create 2 2 none (fun _ => 5))).modelview ∧
      (RendererOperation.onDispatch ⟨id, id, id⟩ RendererOperation.Clear (RendererProgram.create (DisplayBuffer.create 2 2 none (fun _ => 5)))).2.proj =
        (RendererProgram.create (DisplayBuffer.create 2 2 none (fun _ => 5))).proj ∧
      (RendererOperation.onDispatch ⟨id, id, id⟩ RendererOperation.Clear (RendererProgram.create (DisplayBuffer.create 2 2 none (fun _ => 5)))).2.viewport =
        (RendererProgram.create (DisplayBuffer.create 2 2 none (fun _ => 5))).viewport ∧
      (RendererOperation.onDispatch ⟨id, id, id⟩ RendererOperation.Clear (RendererProgram.create (DisplayBuffer.create 2 2 none (fun _ => 5)))).2.front_color =
        (RendererProgram.create (DisplayBuffer.create 2 2 none (fun _ => 5))).front_color ∧
      (RendererOperation.onDispatch ⟨id, id, id⟩ RendererOperation.Clear (RendererProgram.create (DisplayBuffer.create 2 2 none (fun _ => 5)))).2.clear_color =
        (RendererProgram.create (DisplayBuffer.create 2 2 none (fun _ => 5))).clear_color ∧
      (RendererOperation.onDispatch ⟨id, id, id⟩ RendererOperation.Clear (RendererProgram.create (DisplayBuffer.create 2 2 none (fun _ => 5)))).2.buffer.width =
        (RendererProgram.create (DisplayBuffer.create 2 2 none (fun _ => 5))).buffer.width ∧
      (RendererOperation.onDispatch ⟨id, id, id⟩ RendererOperation.Clear (RendererProgram.create (DisplayBuffer.create 2 2 none (fun _ => 5)))).2.buffer.height =
        (RendererProgram.create (DisplayBuffer.create 2 2 none (fun _ => 5))).buffer.height ∧
      ∃ m m2,
        (RendererProgram.create (DisplayBuffer.create 2 2 none (fun _ => 5))).buffer.data = some m ∧
        (RendererOperation.onDispatch ⟨id, id, id⟩ RendererOperation.Clear (RendererProgram.create (DisplayBuffer.create 2 2 none (fun _ => 5)))).2.buffer.data = some m2 ∧
        (∀ i : Nat, (i : Int) <
            (RendererProgram.create (DisplayBuffer.create 2 2 none (fun _ => 5))).buffer.width *
            (RendererProgram.create (DisplayBuffer.create 2 2 none (fun _ => 5))).buffer.height →
          m2 i = (RendererProgram.create (DisplayBuffer.create 2 2 none (fun _ => 5))).clear_color) ∧
        (∀ i : Nat, ¬ (i : Int) <
            (RendererProgram.create (DisplayBuffer.create 2 2 none (fun _ => 5))).buffer.width *
            (RendererProgram.create (DisplayBuffer.create 2 2 none (fun _ => 5))).buffer.height →
          m2 i = m i)) :=
  ⟨by decide,
    clear_fills_buffer ⟨id, id, id⟩
      (RendererProgram.create (DisplayBuffer.create 2 2 none (fun _ => 5))) (by decide)⟩

/-- Claim C9. Clear idempotence: on every render state, ready or not, a
second Clear right after a first one returns the same code and leaves exactly
the render state and buffer that the first one left. -/
theorem clear_idempotent (lm : LibM) (prg : RendererProgram) :
    RendererOperation.onDispatch lm .Clear (RendererOperation.onDispatch lm .Clear prg).2 =
      RendererOperation.onDispatch lm .Clear prg := by
  simp only [RendererOperation.onDispatch, RendererProgram.raw_clear,
    DisplayBuffer.clear_clear]

/-! ## The dispatch engine -/

namespace Renderer

theorem create_ready (width height : Int) (ext_buffer : Option Mem) (uninit : Mem) :
    (create width height ext_buffer uninit).buffer.operatorNot = false := by
  cases ext_buffer <;> rfl

theorem create_operatorNot (width height : Int) (ext_buffer : Option Mem) (uninit : Mem) :
    (create width height ext_buffer uninit).operatorNot = false := by
  cases ext_buffer <;> rfl

theorem operatorShr_of_not_ok (r : Renderer) (hok : r.ok = false)
    (op : Option RendererOperation) : r.operatorShr op = r := by
  unfold operatorShr operatorNot
  simp [hok]

theorem runStep_ok (lm : LibM) (r r1 : Renderer) (hok : r.ok = false)
    (h : r.runStep lm = some r1) : r1.ok = false := by
  rcases r with ⟨prg, q, ok, th⟩
  simp only at hok
  subst hok
  cases th with
  | fetch =>
    cases q with
    | nil => simp [runStep] at h
    | cons op rest => simp [runStep] at h; rw [← h]
  | dispatch op =>
    cases op with
    | none => simp [runStep] at h; rw [← h]
    | some c => simp [runStep] at h; rw [← h]
  | terminating => simp [runStep] at h; rw [← h]
  | signal running => simp [runStep] at h; rw [← h]
  | finished => simp [runStep] at h

end Renderer

theorem Session.step_ok (lm : LibM) (s : Session) (b : Bool)
    (hok : s.renderer.ok = false) : (Session.step lm s b).renderer.ok = false := by
  unfold Session.step
  cases b with
  | true =>
    cases hp : s.pending with
    | nil => simpa [hp] using hok
    | cons c rest =>
      simp only [hp, if_true]
      rw [Renderer.operatorShr_of_not_ok _ hok]
      exact hok
  | false =>
    cases hs : s.renderer.runStep lm with
    | none => simpa [hs] using hok
    | some r1 =>
      simp only [hs]
      exact Renderer.runStep_ok lm _ _ hok hs

theorem Session.run_ok (lm : LibM) (sched : List Bool) (s : Session)
    (hok : s.renderer.ok = false) : (Session.run lm sched s).renderer.ok = false := by
  induction sched generalizing s with
  | nil => exact hok
  | cons b bs ih =>
    unfold Session.run
    rw [List.foldl_cons]
    exact ih _ (Session.step_ok lm s b hok)

/-- Claim C2 (the code departs from it). A command is submitted to a fresh
engine and the rendering thread pops it and releases the lock; a call of flush
at that moment finds the queue empty and returns at once, although the popped
command is still held by the thread and the render state is still the initial
one: the command has not been dispatched. -/
theorem flush_returns_before_dispatch (lm : LibM) (width height : Int)
    (ext_buffer : Option Mem) (uninit : Mem) (c : RendererOperation) :
    ∃ r, ((Renderer.create width height ext_buffer uninit).operatorShr (some c)).runStep lm
        = some r ∧
      r.flush = FlushOutcome.returned ∧
      r.q = [] ∧
      r.thread = ThreadState.dispatch (some c) ∧
      r.thread.holdsOp = true ∧
      r.program = (Renderer.create width height ext_buffer uninit).program := by
  refine ⟨{ (Renderer.create width height ext_buffer uninit) with
    thread := ThreadState.dispatch (some c) }, ?_, ?_, rfl, rfl, rfl, rfl⟩
  · unfold Renderer.operatorShr
    rw [Renderer.create_operatorNot]
    rfl
  · cases ext_buffer <;> rfl

/-- Claim C4. Submit after shutdown: on an engine whose flag ok is false,
operator>> and every invocation function return the engine unchanged (queue,
render state and pixel buffer), flush returns at once, terminate returns
without doing anything, and ok is still false after any interleaving of
further submissions and steps of the rendering thread. -/
theorem submit_after_shutdown_is_noop (lm : LibM) (r : Renderer) (hok : r.ok = false) :
    (∀ op, r.operatorShr op = r) ∧
    r.clear = r ∧
    (∀ p, r.drawRawPoint p = r) ∧
    (∀ p, r.drawRawBigPoint p = r) ∧
    (∀ p1 p2, r.drawRawLine p1 p2 = r) ∧
    (∀ p, r.drawPoint p = r) ∧
    (∀ p, r.drawBigPoint p = r) ∧
    (∀ p1 p2, r.drawLine p1 p2 = r) ∧
    (∀ left right bottom top near far,
      r.orthoProjection left right bottom top near far = r) ∧
    (∀ fovy near far aspect, r.perspectiveProjection fovy near far aspect = r) ∧
    (∀ mat, r.setProjectionMatrix mat = r) ∧
    (∀ mat, r.setModelViewMatrix mat = r) ∧
    (∀ v matrix, r.translate v matrix = r) ∧
    (∀ ang matrix, r.rotateX ang matrix = r) ∧
    (∀ ang matrix, r.rotateY ang matrix = r) ∧
    (∀ ang matrix, r.rotateZ ang matrix = r) ∧
    (∀ v matrix, r.scale v matrix = r) ∧
    (∀ color, r.front_color color = r) ∧
    (∀ color, r.clear_color color = r) ∧
    (∀ viewport, r.setViewPort viewport = r) ∧
    r.flush = FlushOutcome.returned ∧
    (∀ fuel, r.terminate lm fuel = some r) ∧
    (∀ (sched : List Bool) (pending : List RendererOperation),
      (Session.run lm sched ⟨pending, r⟩).renderer.ok = false) := by
  have h := Renderer.operatorShr_of_not_ok r hok
  have hnot : r.operatorNot = true := by
    unfold Renderer.operatorNot
    simp [hok]
  refine ⟨h, h _, fun _ => h _, fun _ => h _, fun _ _ => h _, fun _ => h _, fun _ => h _,
    fun _ _ => h _, fun _ _ _ _ _ _ => h _, fun _ _ _ _ => h _, fun _ => h _, fun _ => h _,
    fun _ _ => h _, fun _ _ => h _, fun _ _ => h _, fun _ _ => h _, fun _ _ => h _,
    fun _ => h _, fun _ => h _, fun _ => h _, ?_, ?_, ?_⟩
  · unfold Renderer.flush
    simp [hnot]
  · intro fuel
    unfold Renderer.terminate
    simp [hnot]
  · intro sched pending
    exact Session.run_ok lm sched _ hok

theorem submit_after_shutdown_is_noop_witness :
    ({ (Renderer.create 2 2 none (fun _ => 0)) with ok := false, thread := ThreadState.finished } : Renderer).ok = false ∧
    (∀ op, ({ (Renderer.create 2 2 none (fun _ => 0)) with ok := false, thread := ThreadState.finished } : Renderer).operatorShr op =
      ({ (Renderer.create 2 2 none (fun _ => 0)) with ok := false, thread := ThreadState.finished } : Renderer)) ∧
    ({ (Renderer.create 2 2 none (fun _ => 0)) with ok := false, thread := ThreadState.finished } : Renderer).clear =
      ({ (Renderer.create 2 2 none (fun _ => 0)) with ok := false, thread := ThreadState.finished } : Renderer) ∧
    (∀ (sched : List Bool) (pending : List RendererOperation),
      (Session.run ⟨id, id, id⟩ sched ⟨pending,
        ({ (Renderer.create 2 2 none (fun _ => 0)) with ok := false, thread := ThreadState.finished } : Renderer)⟩).renderer.ok = false) :=
  ⟨rfl,
    (submit_after_shutdown_is_noop ⟨id, id, id⟩
      ({ (Renderer.create 2 2 none (fun _ => 0)) with ok := false, thread := ThreadState.finished } : Renderer) rfl).1,
    (submit_after_shutdown_is_noop ⟨id, id, id⟩
      ({ (Renderer.create 2 2 none (fun _ => 0)) with ok := false, thread := ThreadState.finished } : Renderer) rfl).2.1,
    (submit_after_shutdown_is_noop ⟨id, id, id⟩
      ({ (Renderer.create 2 2 none (fun _ => 0)) with ok := false, thread := ThreadState.finished } : Renderer) rfl).2.2.2.2.2.2.2.2.2.2.2.2.2.2.2.2.2.2.2.2.2.2⟩

/-- Claim C5 (the code departs from it). On a fresh engine bufferCopy into a
non-null destination succeeds: it returns 1. After terminate has returned
(the thread has finished, the buffer is still ready) the same call returns 0
and leaves the destination as it was: nothing is copied. -/
theorem bufferCopy_refused_after_terminate (lm : LibM) (width height : Int)
    (ext_buffer : Option Mem) (uninit : Mem) (d : Mem) :
    ((Renderer.create width height ext_buffer uninit).bufferCopy (some d)).1 = 1 ∧
    ∃ r, (Renderer.create width height ext_buffer uninit).terminate lm 4 = some r ∧
      r.thread = ThreadState.finished ∧
      r.buffer.operatorNot = false ∧
      r.bufferCopy (some d) = (0, some d) := by
  constructor
  · cases ext_buffer <;> rfl
  · refine ⟨{ (Renderer.create width height ext_buffer uninit) with
      ok := false, thread := ThreadState.finished }, ?_, rfl, ?_, ?_⟩
    · unfold Renderer.terminate Renderer.operatorShr
      rw [Renderer.create_operatorNot]
      rfl
    · exact Renderer.create_ready _ _ _ _
    · unfold Renderer.bufferCopy Renderer.operatorNot
      simp

namespace Renderer

theorem runSteps_add (lm : LibM) (a b : Nat) (r : Renderer) :
    runSteps lm (a + b) r = (runSteps lm a r).bind (runSteps lm b) := by
  induction a generalizing r with
  | zero => simp [runSteps]
  | succ k ih =>
    rw [Nat.succ_add]
    simp only [runSteps]
    cases h : r.runStep lm with
    | none => rfl
    | some r1 => exact ih r1

/-- Three steps of the thread pop, dispatch and complete a command that is not
Terminate. -/
theorem runSteps_command (lm : LibM) (r : Renderer) (c : RendererOperation)
    (rest : List (Option RendererOperation)) (hc : c ≠ RendererOperation.Terminate)
    (hth : r.thread = ThreadState.fetch) (hq : r.q = some c :: rest) :
    runSteps lm 3 r = some
      { program := (c.onDispatch lm r.program).2, q := rest, ok := r.ok,
        thread := ThreadState.fetch } := by
  rcases r with ⟨prg, q, ok, th⟩
  simp only at hth hq
  subst hth hq
  have h := onDispatch_code_of_ne_Terminate lm c prg hc
  simp [runSteps, runStep, h]

theorem runSteps_commands (lm : LibM) (cs : List RendererOperation) (r : Renderer)
    (rest : List (Option RendererOperation))
    (hT : ∀ c ∈ cs, c ≠ RendererOperation.Terminate)
    (hth : r.thread = ThreadState.fetch) (hq : r.q = cs.map some ++ rest) :
    runSteps lm (3 * cs.length) r = some
      { program := applyAll lm cs r.program, q := rest, ok := r.ok,
        thread := ThreadState.fetch } := by
  induction cs generalizing r with
  | nil =>
    rcases r with ⟨prg, q, ok, th⟩
    simp only at hth
    simp only [List.map_nil, List.nil_append] at hq
    subst hth hq
    rfl
  | cons c cs ih =>
    have hlen : 3 * (c :: cs).length = 3 + 3 * cs.length := by
      simp only [List.length_cons]; ring
    rw [hlen, runSteps_add,
      runSteps_command lm r c (cs.map some ++ rest) (hT c (List.mem_cons_self _ _)) hth
        (by simpa using hq)]
    simp only [Option.some_bind]
    rw [ih _ (fun x hx => hT x (List.mem_cons_of_mem _ hx)) rfl rfl]
    rfl

/-- Four steps of the thread pop and dispatch Terminate, clear the queue and
leave the loop. -/
theorem runSteps_Terminate (lm : LibM) (r : Renderer)
    (rest : List (Option RendererOperation))
    (hth : r.thread = ThreadState.fetch)
    (hq : r.q = some RendererOperation.Terminate :: rest) :
    runSteps lm 4 r = some
      { program := r.program, q := [], ok := false, thread := ThreadState.finished } := by
  rcases r with ⟨prg, q, ok, th⟩
  simp only at hth hq
  subst hth hq
  rfl

end Renderer

/-- Claim C3. Termination discards the rest of the queue: when the thread is
about to fetch and the queue holds c1..cN (none of them Terminate), then
Terminate, then anything d1..dM, the thread can take 3N+4 steps, after which
the render state is the one obtained by applying c1..cN in order and nothing
else, the queue is empty, ok is false and the thread has finished, so that it
takes no further step. -/
theorem terminate_discards_queue (lm : LibM) (r : Renderer)
    (cs : List RendererOperation) (ds : List (Option RendererOperation))
    (hT : ∀ c ∈ cs, c ≠ RendererOperation.Terminate)
    (hth : r.thread = ThreadState.fetch)
    (hq : r.q = cs.map some ++ some RendererOperation.Terminate :: ds) :
    Renderer.runSteps lm (3 * cs.length + 4) r = some
      { program := applyAll lm cs r.program, q := [], ok := false,
        thread := ThreadState.finished } ∧
    Renderer.runStep lm
      { program := applyAll lm cs r.program, q := [], ok := false,
        thread := ThreadState.finished } = none := by
  refine ⟨?_, rfl⟩
  rw [Renderer.runSteps_add, Renderer.runSteps_commands lm cs r _ hT hth hq]
  simp only [Option.some_bind]
  rw [Renderer.runSteps_Terminate lm _ ds rfl rfl]

theorem terminate_discards_queue_witness :
    (∀ c ∈ [RendererOperation.FrontColor 7, RendererOperation.Clear],
      c ≠ RendererOperation.Terminate) ∧
    (Renderer.runSteps ⟨id, id, id⟩
      (3 * [RendererOperation.FrontColor 7, RendererOperation.Clear].length + 4)
      (Renderer.mk (RendererProgram.create (DisplayBuffer.create 2 2 none (fun _ => 0)))
        [some (RendererOperation.FrontColor 7), some RendererOperation.Clear,
          some RendererOperation.Terminate, some (RendererOperation.FrontColor 9)]
        true ThreadState.fetch) = some
      (Renderer.mk
        (applyAll ⟨id, id, id⟩ [RendererOperation.FrontColor 7, RendererOperation.Clear]
          (RendererProgram.create (DisplayBuffer.create 2 2 none (fun _ => 0))))
        [] false ThreadState.finished) ∧
    Renderer.runStep ⟨id, id, id⟩
      (Renderer.mk
        (applyAll ⟨id, id, id⟩ [RendererOperation.FrontColor 7, RendererOperation.Clear]
          (RendererProgram.create (DisplayBuffer.create 2 2 none (fun _ => 0))))
        [] false ThreadState.finished) = none) :=
  ⟨by simp,
    terminate_discards_queue ⟨id, id, id⟩
      (Renderer.mk (RendererProgram.create (DisplayBuffer.create 2 2 none (fun _ => 0)))
        [some (RendererOperation.FrontColor 7), some RendererOperation.Clear,
          some RendererOperation.Terminate, some (RendererOperation.FrontColor 9)]
        true ThreadState.fetch)
      [RendererOperation.FrontColor 7, RendererOperation.Clear]
      [some (RendererOperation.FrontColor 9)] (by simp) rfl rfl⟩

namespace Session

theorem applyAll_append_singleton (lm : LibM) (applied : List RendererOperation)
    (c : RendererOperation) (p0 : RendererProgram) :
    applyAll lm (applied ++ [c]) p0 = (c.onDispatch lm (applyAll lm applied p0)).2 := by
  unfold applyAll
  rw [List.foldl_append]
  rfl

/-- The invariant holds of a fresh session. -/
theorem Inv_init (lm : LibM) (cmds : List RendererOperation) (width height : Int)
    (ext_buffer : Option Mem) (uninit : Mem) :
    Inv lm cmds (Renderer.create width height ext_buffer uninit).program
      ⟨cmds, Renderer.create width height ext_buffer uninit⟩ := by
  refine ⟨rfl, Renderer.create_ready _ _ _ _, [], [], [], by simp, rfl, rfl, Or.inl ⟨rfl, rfl⟩⟩

/-- Every scheduling step keeps the invariant. -/
theorem Inv_step (lm : LibM) (cmds : List RendererOperation) (p0 : RendererProgram)
    (hT : ∀ c ∈ cmds, c ≠ RendererOperation.Terminate) (s : Session) (b : Bool)
    (h : Inv lm cmds p0 s) : Inv lm cmds p0 (step lm s b) := by
  obtain ⟨hok, hready, applied, fl, qs, hcmds, hq, hprg, hth⟩ := h
  rcases s with ⟨pending, ⟨prg, q, ok, th⟩⟩
  simp only at hok hready hcmds hq hprg hth
  subst hok hq hprg
  have hnot : (Renderer.mk (applyAll lm applied p0) (qs.map some) true th).operatorNot
      = false := by
    unfold Renderer.operatorNot
    rw [hready]; rfl
  cases b with
  | true =>
    cases pending with
    | nil =>
      exact ⟨rfl, hready, applied, fl, qs, hcmds, rfl, rfl, hth⟩
    | cons c rest =>
      have hstep : step lm ⟨c :: rest, ⟨applyAll lm applied p0, qs.map some, true, th⟩⟩ true
          = ⟨rest, ⟨applyAll lm applied p0, qs.map some ++ [some c], true, th⟩⟩ := by
        simp [step, Renderer.operatorShr, hnot]
      rw [hstep]
      exact ⟨rfl, hready, applied, fl, qs ++ [c], by simp [hcmds], by simp, rfl, hth⟩
  | false =>
    rcases hth with ⟨hth, hfl⟩ | ⟨hth, hfl⟩ | ⟨c, hth, hfl⟩
    · subst hth hfl
      cases qs with
      | nil => exact ⟨rfl, hready, applied, [], [], hcmds, rfl, rfl, Or.inl ⟨rfl, rfl⟩⟩
      | cons c qs1 =>
        have hstep : step lm ⟨pending, ⟨applyAll lm applied p0, (c :: qs1).map some, true,
            ThreadState.fetch⟩⟩ false
            = ⟨pending, ⟨applyAll lm applied p0, qs1.map some, true,
                ThreadState.dispatch (some c)⟩⟩ := rfl
        rw [hstep]
        exact ⟨rfl, hready, applied, [c], qs1, by simp [hcmds], rfl, rfl,
          Or.inr (Or.inr ⟨c, rfl, rfl⟩)⟩
    · subst hth hfl
      exact ⟨rfl, hready, applied, [], qs, hcmds, rfl, rfl, Or.inl ⟨rfl, rfl⟩⟩
    · subst hth hfl
      have hc : c ≠ RendererOperation.Terminate := by
        apply hT
        rw [hcmds]
        simp
      have hcode := onDispatch_code_of_ne_Terminate lm c (applyAll lm applied p0) hc
      have hstep : step lm ⟨pending, ⟨applyAll lm applied p0, qs.map some, true,
          ThreadState.dispatch (some c)⟩⟩ false
          = ⟨pending, ⟨(c.onDispatch lm (applyAll lm applied p0)).2, qs.map some, true,
              ThreadState.signal true⟩⟩ := by
        simp [step, Renderer.runStep, hcode]
      rw [hstep]
      refine ⟨rfl, ?_, applied ++ [c], [], qs, by simp [hcmds], rfl, ?_, Or.inr (Or.inl ⟨rfl, rfl⟩)⟩
      · show (c.onDispatch lm (applyAll lm applied p0)).2.buffer.operatorNot = false
        rw [onDispatch_operatorNot]
        exact hready
      · show (c.onDispatch lm (applyAll lm applied p0)).2 = _
        rw [applyAll_append_singleton]

theorem Inv_run (lm : LibM) (cmds : List RendererOperation) (p0 : RendererProgram)
    (hT : ∀ c ∈ cmds, c ≠ RendererOperation.Terminate) (sched : List Bool) (s : Session)
    (h : Inv lm cmds p0 s) : Inv lm cmds p0 (run lm sched s) := by
  induction sched generalizing s with
  | nil => exact h
  | cons b bs ih =>
    unfold run
    rw [List.foldl_cons]
    exact ih _ (Inv_step lm cmds p0 hT s b h)

/-- In a drained session that satisfies the invariant every command has been
applied. -/
theorem Inv_drained (lm : LibM) (cmds : List RendererOperation) (p0 : RendererProgram)
    (s : Session) (h : Inv lm cmds p0 s) (hd : s.drained) :
    s.renderer.program = applyAll lm cmds p0 := by
  obtain ⟨_, _, applied, fl, qs, hcmds, hq, hprg, hth⟩ := h
  obtain ⟨hp, hq0, hhold⟩ := hd
  have hqs : qs = [] := by
    rw [hq0] at hq
    cases qs with
    | nil => rfl
    | cons a l => simp at hq
  have hfl : fl = [] := by
    rcases hth with ⟨_, hfl⟩ | ⟨_, hfl⟩ | ⟨c, hth, _⟩
    · exact hfl
    · exact hfl
    · rw [hth] at hhold
      simp [ThreadState.holdsOp] at hhold
  rw [hprg, hcmds, hp, hqs, hfl]
  simp

/-- The producer submits all its commands in a row. -/
theorem run_producer (lm : LibM) (cmds : List RendererOperation) (r : Renderer)
    (hnot : r.operatorNot = false) :
    run lm (List.replicate cmds.length true) ⟨cmds, r⟩ =
      ⟨[], { r with q := r.q ++ cmds.map some }⟩ := by
  induction cmds generalizing r with
  | nil => simp [run]
  | cons c cs ih =>
    have hstep : step lm ⟨c :: cs, r⟩ true = ⟨cs, { r with q := r.q ++ [some c] }⟩ := by
      simp [step, Renderer.operatorShr, hnot]
    simp only [List.length_cons, List.replicate_succ, run, List.foldl_cons, hstep]
    have := ih { r with q := r.q ++ [some c] } (by simpa [Renderer.operatorNot] using hnot)
    unfold run at this
    rw [this]
    simp

/-- The thread alone takes n steps. -/
theorem run_thread (lm : LibM) (n : Nat) (pending : List RendererOperation)
    (r r1 : Renderer) (h : Renderer.runSteps lm n r = some r1) :
    run lm (List.replicate n false) ⟨pending, r⟩ = ⟨pending, r1⟩ := by
  induction n generalizing r with
  | zero =>
    simp only [Renderer.runSteps, Option.some.injEq] at h
    subst h
    rfl
  | succ k ih =>
    simp only [Renderer.runSteps] at h
    cases hs : r.runStep lm with
    | none => simp [hs] at h
    | some r2 =>
      simp only [hs] at h
      simp only [List.replicate_succ, run, List.foldl_cons, step, hs]
      exact ih r2 h

end Session

/-- Claim C1. Order preservation: a single producer submits the commands
cmds (none of them Terminate) one by one to a fresh engine while the
rendering thread runs. Whatever the interleaving of submissions and thread
steps, once all commands are submitted, the queue is empty and the thread
holds no popped command, the render state with its pixel buffer equals the
commands applied one after another to the initial render state (applyAll, the
left fold of onDispatch); and there is an interleaving that reaches such a
drained state. -/
theorem order_preservation (lm : LibM) (width height : Int) (ext_buffer : Option Mem)
    (uninit : Mem) (cmds : List RendererOperation)
    (hT : ∀ c ∈ cmds, c ≠ RendererOperation.Terminate) :
    (∀ sched : List Bool,
      (Session.run lm sched ⟨cmds, Renderer.create width height ext_buffer uninit⟩).drained →
      (Session.run lm sched
          ⟨cmds, Renderer.create width height ext_buffer uninit⟩).renderer.program =
        applyAll lm cmds (Renderer.create width height ext_buffer uninit).program) ∧
    (∃ sched : List Bool,
      (Session.run lm sched
        ⟨cmds, Renderer.create width height ext_buffer uninit⟩).drained) := by
  constructor
  · intro sched hd
    exact Session.Inv_drained lm cmds _ _
      (Session.Inv_run lm cmds _ hT sched _ (Session.Inv_init lm cmds _ _ _ _)) hd
  · refine ⟨List.replicate cmds.length true ++ List.replicate (3 * cmds.length) false, ?_⟩
    have h1 := Session.run_producer lm cmds (Renderer.create width height ext_buffer uninit)
      (Renderer.create_operatorNot _ _ _ _)
    have h2 := Renderer.runSteps_commands lm cmds
      { (Renderer.create width height ext_buffer uninit) with
        q := (Renderer.create width height ext_buffer uninit).q ++ cmds.map some } [] hT rfl
      (by simp [Renderer.create])
    have h3 := Session.run_thread lm _ [] _ _ h2
    unfold Session.run at h1 h3 ⊢
    rw [List.foldl_append, h1, h3]
    exact ⟨rfl, rfl, rfl⟩

theorem order_preservation_witness :
    (∀ c ∈ [RendererOperation.FrontColor 7, RendererOperation.RawPoint (1, 1) 0],
      c ≠ RendererOperation.Terminate) ∧
    ((∀ sched : List Bool,
      (Session.run ⟨id, id, id⟩ sched
        ⟨[RendererOperation.FrontColor 7, RendererOperation.RawPoint (1, 1) 0],
          Renderer.create 2 2 none (fun _ => 0)⟩).drained →
      (Session.run ⟨id, id, id⟩ sched
        ⟨[RendererOperation.FrontColor 7, RendererOperation.RawPoint (1, 1) 0],
          Renderer.create 2 2 none (fun _ => 0)⟩).renderer.program =
        applyAll ⟨id, id, id⟩ [RendererOperation.FrontColor 7, RendererOperation.RawPoint (1, 1) 0]
          (Renderer.create 2 2 none (fun _ => 0)).program) ∧
    (∃ sched : List Bool,
      (Session.run ⟨id, id, id⟩ sched
        ⟨[RendererOperation.FrontColor 7, RendererOperation.RawPoint (1, 1) 0],
          Renderer.create 2 2 none (fun _ => 0)⟩).drained)) :=
  ⟨by simp,
    order_preservation ⟨id, id, id⟩ 2 2 none (fun _ => 0)
      [RendererOperation.FrontColor 7, RendererOperation.RawPoint (1, 1) 0] (by simp)⟩

/-! ## Truncation -/

/-- On a non-negative value the conversion to int is the floor. -/
theorem truncToInt_of_nonneg (q : ℚ) (h : 0 ≤ q) : truncToInt q = ⌊q⌋ := by
  unfold truncToInt
  rw [Rat.floor_def, Int.tdiv_eq_ediv (Rat.num_nonneg.mpr h) (by positivity)]

/-- The conversion to int of an integral value is that integer. -/
theorem truncToInt_intCast (n : Int) : truncToInt (n : ℚ) = n := by
  unfold truncToInt
  simp

/-! ## Regions -/

namespace math

theorem Region2i.create_eq (x_min x_max y_min y_max : Int) :
    Region2i.create x_min x_max y_min y_max =
      { x_min := x_min, x_max := max x_min x_max, y_min := y_min,
        y_max := max y_min y_max } := by
  unfold Region2i.create Region2i.fix
  by_cases h1 : x_max < x_min <;> by_cases h2 : y_max < y_min <;>
    simp [h1, h2, max_eq_left, max_eq_right, le_of_lt, not_lt.mp]

/-- Claim C16. Region construction clamps max to min: the main constructor
keeps x_min and y_min and stores max(x_min, x_max) and max(y_min, y_max), so
that x_max < x_min yields x_max = x_min; and min <= max on both axes holds
after the main, the origin cornered, the default and the copy constructor,
after an assignment from a region that satisfies it and after set on a region
that satisfies it. -/
theorem region_invariant (x_min x_max y_min y_max : Int) (r other : Region2i)
    (hr : r.valid) (ho : other.valid) :
    (Region2i.create x_min x_max y_min y_max).x_min = x_min ∧
    (Region2i.create x_min x_max y_min y_max).y_min = y_min ∧
    (Region2i.create x_min x_max y_min y_max).x_max = max x_min x_max ∧
    (Region2i.create x_min x_max y_min y_max).y_max = max y_min y_max ∧
    (x_max < x_min → (Region2i.create x_min x_max y_min y_max).x_max = x_min) ∧
    (y_max < y_min → (Region2i.create x_min x_max y_min y_max).y_max = y_min) ∧
    (Region2i.create x_min x_max y_min y_max).valid ∧
    (Region2i.createOrigin x_max y_max).valid ∧
    Region2i.default.valid ∧
    (Region2i.copy other).valid ∧
    (r.operatorAssign other).valid ∧
    (r.set x_min x_max y_min y_max).2.valid := by
  rw [Region2i.create_eq]
  have hc : Region2i.createOrigin x_max y_max = Region2i.create 0 x_max 0 y_max := rfl
  rw [hc, Region2i.create_eq]
  refine ⟨rfl, rfl, rfl, rfl, ?_, ?_, ?_, ?_, ?_, ho, ho, ?_⟩
  · intro h; exact max_eq_left (le_of_lt h)
  · intro h; exact max_eq_left (le_of_lt h)
  · exact ⟨le_max_left _ _, le_max_left _ _⟩
  · exact ⟨le_max_left _ _, le_max_left _ _⟩
  · exact ⟨le_refl _, le_refl _⟩
  · unfold Region2i.set
    by_cases h : x_max < x_min ∨ y_max < y_min
    · simpa [h] using hr
    · simp only [h, if_false]
      unfold Region2i.valid
      simp only
      omega

theorem region_invariant_witness :
    (Region2i.create 0 4 0 4).valid ∧ (Region2i.create 1 2 3 5).valid ∧
    (Region2i.create 5 2 7 3).x_max = max 5 2 ∧
    ((2 : Int) < 5 → (Region2i.create 5 2 7 3).x_max = 5) ∧
    ((Region2i.create 0 4 0 4).set 5 2 7 3).2.valid :=
  ⟨by decide, by decide,
    (region_invariant 5 2 7 3 (Region2i.create 0 4 0 4) (Region2i.create 1 2 3 5)
      (by decide) (by decide)).2.2.1,
    (region_invariant 5 2 7 3 (Region2i.create 0 4 0 4) (Region2i.create 1 2 3 5)
      (by decide) (by decide)).2.2.2.2.1,
    (region_invariant 5 2 7 3 (Region2i.create 0 4 0 4) (Region2i.create 1 2 3 5)
      (by decide) (by decide)).2.2.2.2.2.2.2.2.2.2.2⟩

/-- Claim C18. Region2i::set is atomic: with x_max < x_min or y_max < y_min
it returns false and the region keeps its four bounds; otherwise it returns
true and the region holds exactly the four given bounds. -/
theorem set_is_atomic (r : Region2i) (x_min x_max y_min y_max : Int) :
    (x_max < x_min ∨ y_max < y_min →
      (r.set x_min x_max y_min y_max).1 = false ∧
      (r.set x_min x_max y_min y_max).2 = r) ∧
    (¬ (x_max < x_min ∨ y_max < y_min) →
      (r.set x_min x_max y_min y_max).1 = true ∧
      (r.set x_min x_max y_min y_max).2.x_min = x_min ∧
      (r.set x_min x_max y_min y_max).2.x_max = x_max ∧
      (r.set x_min x_max y_min y_max).2.y_min = y_min ∧
      (r.set x_min x_max y_min y_max).2.y_max = y_max) := by
  unfold Region2i.set
  constructor
  · intro h
    simp [h]
  · intro h
    simp [h]

theorem set_is_atomic_witness :
    (((Region2i.create 0 4 0 4).set 3 1 0 2).1 = false ∧
      ((Region2i.create 0 4 0 4).set 3 1 0 2).2 = Region2i.create 0 4 0 4) ∧
    (((Region2i.create 0 4 0 4).set 1 3 0 2).1 = true ∧
      ((Region2i.create 0 4 0 4).set 1 3 0 2).2.x_min = 1 ∧
      ((Region2i.create 0 4 0 4).set 1 3 0 2).2.x_max = 3 ∧
      ((Region2i.create 0 4 0 4).set 1 3 0 2).2.y_min = 0 ∧
      ((Region2i.create 0 4 0 4).set 1 3 0 2).2.y_max = 2) :=
  ⟨(set_is_atomic (Region2i.create 0 4 0 4) 3 1 0 2).1 (by decide),
    (set_is_atomic (Region2i.create 0 4 0 4) 1 3 0 2).2 (by decide)⟩

theorem wrapInt32_of_fits (n : Int) (h0 : 0 ≤ n) (h1 : n < 2147483648) :
    wrapInt32 n = n := by
  unfold wrapInt32
  omega

/-- Claim C17, as amended. For a region that satisfies the class invariant
(every region built by a constructor or by set does) and whose extents have a
product below 2^31, area computed in 32-bit int arithmetic is that product
and is not negative. -/
theorem area_nonneg_of_fits (r : Region2i) (hr : r.valid)
    (hfit : (r.x_max - r.x_min) * (r.y_max - r.y_min) < 2147483648) :
    r.area = (r.x_max - r.x_min) * (r.y_max - r.y_min) ∧ 0 ≤ r.area := by
  obtain ⟨hx, hy⟩ := hr
  have hx0 : 0 ≤ r.x_max - r.x_min := by omega
  have hy0 : 0 ≤ r.y_max - r.y_min := by omega
  have hp0 : 0 ≤ (r.x_max - r.x_min) * (r.y_max - r.y_min) := mul_nonneg hx0 hy0
  have harea : r.area = (r.x_max - r.x_min) * (r.y_max - r.y_min) := by
    unfold Region2i.area
    rcases eq_or_lt_of_le hx0 with hxz | hxpos
    · rw [← hxz]
      simp [wrapInt32]
    · rcases eq_or_lt_of_le hy0 with hyz | hypos
      · rw [← hyz]
        simp [wrapInt32]
      · have hxle : r.x_max - r.x_min ≤ (r.x_max - r.x_min) * (r.y_max - r.y_min) :=
          le_mul_of_one_le_right hx0 (by omega)
        have hyle : r.y_max - r.y_min ≤ (r.x_max - r.x_min) * (r.y_max - r.y_min) :=
          le_mul_of_one_le_left hy0 (by omega)
        rw [wrapInt32_of_fits _ hx0 (by omega), wrapInt32_of_fits _ hy0 (by omega),
          wrapInt32_of_fits _ hp0 hfit]
  exact ⟨harea, by rw [harea]; exact hp0⟩

theorem area_nonneg_of_fits_witness :
    (Region2i.create 1 4 2 7).valid ∧
    ((Region2i.create 1 4 2 7).x_max - (Region2i.create 1 4 2 7).x_min) *
      ((Region2i.create 1 4 2 7).y_max - (Region2i.create 1 4 2 7).y_min) < 2147483648 ∧
    ((Region2i.create 1 4 2 7).area =
      ((Region2i.create 1 4 2 7).x_max - (Region2i.create 1 4 2 7).x_min) *
        ((Region2i.create 1 4 2 7).y_max - (Region2i.create 1 4 2 7).y_min) ∧
      0 ≤ (Region2i.create 1 4 2 7).area) :=
  ⟨by decide, by decide, area_nonneg_of_fits (Region2i.create 1 4 2 7) (by decide) (by decide)⟩

/-- Claim C17, as stated, fails: the region built by Region2i(0, 65536, 0,
32768) has all bounds within a 32-bit int and extents whose product is 2^31,
and its area in 32-bit int arithmetic is -2147483648. -/
theorem area_negative_counterexample :
    (Region2i.create 0 65536 0 32768).valid ∧
    (Region2i.create 0 65536 0 32768).x_max < 2147483648 ∧
    (Region2i.create 0 65536 0 32768).y_max < 2147483648 ∧
    (Region2i.create 0 65536 0 32768).area = -2147483648 ∧
    ¬ 0 ≤ (Region2i.create 0 65536 0 32768).area := by
  decide

/-- The flag returned by posOf. -/
theorem Region2i.posOf_flag (r : Region2i) (x y : ℚ) :
    (r.posOf x y).1 = true ↔ 0 ≤ x ∧ x < 1 ∧ 0 ≤ y ∧ y < 1 := by
  unfold Region2i.posOf
  simp only [Bool.not_eq_true', Bool.or_eq_false_iff, decide_eq_false_iff_not, not_lt, ge_iff_le,
    not_le]
  tauto

/-- Claim C15 (the code departs from it). posOf returns true exactly when
0 <= x < 1 and 0 <= y < 1; for the normalized point (-1/2, 0), which lies in
[-1,1) x [-1,1), it returns false, in every region. -/
theorem posOf_rejects_negative_half (r : Region2i) :
    (∀ x y : ℚ, (r.posOf x y).1 = true ↔ 0 ≤ x ∧ x < 1 ∧ 0 ≤ y ∧ y < 1) ∧
    (r.posOf (-1 / 2) 0).1 = false ∧
    ((-1 : ℚ) ≤ -1 / 2 ∧ (-1 / 2 : ℚ) < 1 ∧ (-1 : ℚ) ≤ 0 ∧ (0 : ℚ) < 1) := by
  refine ⟨Region2i.posOf_flag r, ?_, by norm_num⟩
  have h := Region2i.posOf_flag r (-1 / 2) 0
  cases hb : (r.posOf (-1 / 2) 0).1 with
  | false => rfl
  | true =>
    rw [hb] at h
    have := h.mp rfl
    norm_num at this

end math

/-- Claim C11. Degenerate line: on every render state and for every pixel p,
inside the buffer or not, DrawRawLine(p, p) returns the same code and leaves
the same render state and buffer as PlotRawPoint(p) with the size flag 0. -/
theorem degenerate_line_is_point (lm : LibM) (prg : RendererProgram) (p : Int × Int) :
    RendererOperation.onDispatch lm (RendererOperation.RawLine p p) prg =
      RendererOperation.onDispatch lm (RendererOperation.RawPoint p 0) prg := by
  simp [RendererOperation.onDispatch, RendererProgram.raw_drawLine]

/-! ## Pixels written by a sequence of plots -/

theorem mem_intRange (lo hi x : Int) : x ∈ intRange lo hi ↔ lo ≤ x ∧ x ≤ hi := by
  unfold intRange
  simp only [List.mem_map]
  simp
  constructor
  · rintro ⟨k, ⟨a, ha, rfl⟩, rfl⟩
    omega
  · rintro ⟨h1, h2⟩
    exact ⟨(x - lo).toNat, ⟨(x - lo).toNat, by omega, rfl⟩, by omega⟩

namespace DisplayBuffer

theorem data_none_of_not_ready (b : DisplayBuffer) (h : b.operatorNot = true) :
    b.data = none := by
  rcases b with ⟨w, ht, _ | m, _ | m2⟩ <;> simp_all [operatorNot, data]

/-- The flag returned by plot. -/
theorem plot_fst (b : DisplayBuffer) (x y : Int) (c : Nat) :
    (b.plot x y c).1 = true ↔ b.operatorNot = false ∧ b.inside x y := by
  unfold plot indexOf inside
  by_cases h1 : b.operatorNot = true
  · rw [if_pos h1]
    simp [h1]
  · have h1f : b.operatorNot = false := by simpa using h1
    by_cases h2 : x < 0 ∨ y < 0
    · rw [if_neg h1, if_pos h2]
      constructor
      · intro h; exact absurd h (by simp)
      · rintro ⟨_, h3⟩; omega
    · by_cases h3 : x ≥ b.width ∨ y ≥ b.height
      · rw [if_neg h1, if_neg h2, if_pos h3]
        constructor
        · intro h; exact absurd h (by simp)
        · rintro ⟨_, h4⟩; omega
      · rw [if_neg h1, if_neg h2, if_neg h3]
        constructor
        · intro _
          exact ⟨h1f, by omega⟩
        · intro _; rfl

/-- The storage after plot: the cell of the pixel updated when the pixel lies
inside the buffer, nothing changed otherwise. -/
theorem plot_data (b : DisplayBuffer) (x y : Int) (c : Nat) :
    (b.plot x y c).2.data =
      if b.inside x y then b.data.map (fun m => Function.update m (b.offset x y) c)
      else b.data := by
  unfold plot indexOf inside offset
  by_cases h1 : b.operatorNot = true
  · have hd := data_none_of_not_ready b h1
    simp [h1, hd]
  · by_cases h2 : x < 0 ∨ y < 0
    · have h4 : ¬ (0 ≤ x ∧ x < b.width ∧ 0 ≤ y ∧ y < b.height) := by omega
      rw [if_neg h1, if_pos h2, if_neg h4]
    · by_cases h3 : x ≥ b.width ∨ y ≥ b.height
      · have h4 : ¬ (0 ≤ x ∧ x < b.width ∧ 0 ≤ y ∧ y < b.height) := by omega
        rw [if_neg h1, if_neg h2, if_pos h3, if_neg h4]
      · have h4 : 0 ≤ x ∧ x < b.width ∧ 0 ≤ y ∧ y < b.height := by omega
        rw [if_neg h1, if_neg h2, if_neg h3, if_pos h4]
        exact store_data _ _ _

theorem foldl_plot_width (c : Nat) (ps : List (Int × Int)) (b : DisplayBuffer) :
    (ps.foldl (fun d p => (d.plot p.1 p.2 c).2) b).width = b.width := by
  induction ps generalizing b with
  | nil => rfl
  | cons p ps ih => rw [List.foldl_cons, ih, plot_width]

theorem foldl_plot_height (c : Nat) (ps : List (Int × Int)) (b : DisplayBuffer) :
    (ps.foldl (fun d p => (d.plot p.1 p.2 c).2) b).height = b.height := by
  induction ps generalizing b with
  | nil => rfl
  | cons p ps ih => rw [List.foldl_cons, ih, plot_height]

/-- The storage after plotting the pixels of a list in turn: a cell holds the
color when it is the cell of a listed pixel that lies inside the buffer, and
its previous content otherwise. -/
theorem foldl_plot_cells (c : Nat) (ps : List (Int × Int)) (b : DisplayBuffer) (m : Mem)
    (hm : b.data = some m) :
    ∃ m2, (ps.foldl (fun d p => (d.plot p.1 p.2 c).2) b).data = some m2 ∧
      ∀ i, ((∃ p ∈ ps, b.inside p.1 p.2 ∧ i = b.offset p.1 p.2) → m2 i = c) ∧
        ((¬ ∃ p ∈ ps, b.inside p.1 p.2 ∧ i = b.offset p.1 p.2) → m2 i = m i) := by
  induction ps generalizing b m with
  | nil =>
    exact ⟨m, hm, fun i => ⟨fun ⟨p, hp, _⟩ => absurd hp (List.not_mem_nil p), fun _ => rfl⟩⟩
  | cons p ps ih =>
    have hw := plot_width b p.1 p.2 c
    have hh := plot_height b p.1 p.2 c
    have hin : ∀ x y, (b.plot p.1 p.2 c).2.inside x y ↔ b.inside x y := by
      intro x y; unfold inside; rw [hw, hh]
    have hoff : ∀ x y, (b.plot p.1 p.2 c).2.offset x y = b.offset x y := by
      intro x y; unfold offset; rw [hw]
    have hd := plot_data b p.1 p.2 c
    rw [hm] at hd
    by_cases hp : b.inside p.1 p.2
    · rw [if_pos hp, Option.map_some'] at hd
      obtain ⟨m2, hm2, hcells⟩ := ih _ _ hd
      refine ⟨m2, by rw [List.foldl_cons]; exact hm2, fun i => ⟨?_, ?_⟩⟩
      · rintro ⟨q, hq, hqin, hqi⟩
        by_cases hex : ∃ q ∈ ps, b.inside q.1 q.2 ∧ i = b.offset q.1 q.2
        · obtain ⟨q2, hq2, hq2in, hq2i⟩ := hex
          exact (hcells i).1 ⟨q2, hq2, (hin _ _).mpr hq2in, by rw [hoff]; exact hq2i⟩
        · have hqp : q = p := by
            rcases List.mem_cons.mp hq with h | h
            · exact h
            · exact absurd ⟨q, h, hqin, hqi⟩ hex
          subst hqp
          have hno : ¬ ∃ q2 ∈ ps, (b.plot q.1 q.2 c).2.inside q2.1 q2.2 ∧
              i = (b.plot q.1 q.2 c).2.offset q2.1 q2.2 := by
            rintro ⟨q2, hq2, hq2in, hq2i⟩
            exact hex ⟨q2, hq2, (hin _ _).mp hq2in, by rw [← hoff]; exact hq2i⟩
          rw [(hcells i).2 hno, hqi]
          simp
      · intro hnone
        have hno : ¬ ∃ q2 ∈ ps, (b.plot p.1 p.2 c).2.inside q2.1 q2.2 ∧
            i = (b.plot p.1 p.2 c).2.offset q2.1 q2.2 := by
          rintro ⟨q2, hq2, hq2in, hq2i⟩
          exact hnone ⟨q2, List.mem_cons_of_mem _ hq2, (hin _ _).mp hq2in,
            by rw [← hoff]; exact hq2i⟩
        rw [(hcells i).2 hno]
        have hne : i ≠ b.offset p.1 p.2 := by
          intro h
          exact hnone ⟨p, List.mem_cons_self _ _, hp, h⟩
        simp [Function.update, hne]
    · rw [if_neg hp] at hd
      obtain ⟨m2, hm2, hcells⟩ := ih _ _ hd
      refine ⟨m2, by rw [List.foldl_cons]; exact hm2, fun i => ⟨?_, ?_⟩⟩
      · rintro ⟨q, hq, hqin, hqi⟩
        rcases List.mem_cons.mp hq with h | h
        · subst h; exact absurd hqin hp
        · exact (hcells i).1 ⟨q, h, (hin _ _).mpr hqin, by rw [hoff]; exact hqi⟩
      · intro hnone
        have hno : ¬ ∃ q2 ∈ ps, (b.plot p.1 p.2 c).2.inside q2.1 q2.2 ∧
            i = (b.plot p.1 p.2 c).2.offset q2.1 q2.2 := by
          rintro ⟨q2, hq2, hq2in, hq2i⟩
          exact hnone ⟨q2, List.mem_cons_of_mem _ hq2, (hin _ _).mp hq2in,
            by rw [← hoff]; exact hq2i⟩
        exact (hcells i).2 hno

end DisplayBuffer

/-! ## Raw drawing in closed form -/

theorem ite_nonneg_eq_abs (a : Int) : (if a ≥ 0 then a else -a) = |a| := by
  split_ifs with h
  · exact (abs_of_nonneg h).symm
  · exact (abs_of_neg (by omega)).symm

namespace DisplayBuffer

theorem plot_of_not_inside (b : DisplayBuffer) (x y : Int) (c : Nat) (h : ¬ b.inside x y) :
    b.plot x y c = (false, b) := by
  unfold plot indexOf
  unfold inside at h
  by_cases h1 : b.operatorNot = true
  · rw [if_pos h1]
  · by_cases h2 : x < 0 ∨ y < 0
    · rw [if_neg h1, if_pos h2]
    · have h3 : x ≥ b.width ∨ y ≥ b.height := by omega
      rw [if_neg h1, if_neg h2, if_pos h3]

end DisplayBuffer

namespace RendererProgram

/-- The big point with its centre inside a ready buffer: the five plots in
turn. -/
theorem raw_drawBigPoint_of_inside (prg : RendererProgram) (x y : Int)
    (hready : prg.buffer.operatorNot = false) (hin : prg.buffer.inside x y) :
    prg.raw_drawBigPoint (x, y) =
      (0, RendererProgram.mk
        ([(x, y), (x - 1, y), (x + 1, y), (x, y - 1), (x, y + 1)].foldl
          (fun d p => (d.plot p.1 p.2 prg.front_color).2) prg.buffer)
        prg.modelview prg.proj prg.viewport prg.front_color prg.clear_color) := by
  have h1 : ¬ (x < 0 ∨ y < 0) := by unfold DisplayBuffer.inside at hin; omega
  have h2 : (prg.buffer.plot x y prg.front_color).1 = true :=
    (DisplayBuffer.plot_fst _ _ _ _).mpr ⟨hready, hin⟩
  unfold raw_drawBigPoint
  dsimp only
  rw [if_neg h1, h2]
  rfl

/-- The big point with its centre outside the buffer: nothing is written. -/
theorem raw_drawBigPoint_of_not_inside (prg : RendererProgram) (x y : Int)
    (hin : ¬ prg.buffer.inside x y) :
    prg.raw_drawBigPoint (x, y) = (1, prg) := by
  unfold raw_drawBigPoint
  dsimp only
  by_cases h1 : x < 0 ∨ y < 0
  · rw [if_pos h1]
  · rw [if_neg h1, DisplayBuffer.plot_of_not_inside _ _ _ _ hin]
    rfl

end RendererProgram

/-- Claim C20, as amended. Big raw point: on a ready buffer, when the centre
(x, y) lies inside the buffer PlotRawPoint with the size flag set returns 0,
writes the front color to each of the five pixels (x,y), (x-1,y), (x+1,y),
(x,y-1), (x,y+1) that lies inside the buffer and changes no other cell nor
any other field of the render state; when the centre lies outside the buffer
it returns 1 and changes nothing, neighbours inside the buffer included. -/
theorem big_point_needs_centre_inside (lm : LibM) (prg : RendererProgram) (x y : Int)
    (hready : prg.buffer.operatorNot = false) :
    (prg.buffer.inside x y →
      (RendererOperation.onDispatch lm (RendererOperation.RawPoint (x, y) 1) prg).1 = 0 ∧
      (RendererOperation.onDispatch lm (RendererOperation.RawPoint (x, y) 1) prg).2.modelview
        = prg.modelview ∧
      (RendererOperation.onDispatch lm (RendererOperation.RawPoint (x, y) 1) prg).2.proj
        = prg.proj ∧
      (RendererOperation.onDispatch lm (RendererOperation.RawPoint (x, y) 1) prg).2.viewport
        = prg.viewport ∧
      (RendererOperation.onDispatch lm (RendererOperation.RawPoint (x, y) 1) prg).2.front_color
        = prg.front_color ∧
      (RendererOperation.onDispatch lm (RendererOperation.RawPoint (x, y) 1) prg).2.clear_color
        = prg.clear_color ∧
      (RendererOperation.onDispatch lm (RendererOperation.RawPoint (x, y) 1) prg).2.buffer.width
        = prg.buffer.width ∧
      (RendererOperation.onDispatch lm (RendererOperation.RawPoint (x, y) 1) prg).2.buffer.height
        = prg.buffer.height ∧
      ∃ m m2, prg.buffer.data = some m ∧
        (RendererOperation.onDispatch lm (RendererOperation.RawPoint (x, y) 1) prg).2.buffer.data
          = some m2 ∧
        ∀ i,
          ((∃ p ∈ [(x, y), (x - 1, y), (x + 1, y), (x, y - 1), (x, y + 1)],
              prg.buffer.inside p.1 p.2 ∧ i = prg.buffer.offset p.1 p.2) →
            m2 i = prg.front_color) ∧
          ((¬ ∃ p ∈ [(x, y), (x - 1, y), (x + 1, y), (x, y - 1), (x, y + 1)],
              prg.buffer.inside p.1 p.2 ∧ i = prg.buffer.offset p.1 p.2) →
            m2 i = m i)) ∧
    (¬ prg.buffer.inside x y →
      RendererOperation.onDispatch lm (RendererOperation.RawPoint (x, y) 1) prg = (1, prg)) := by
  have hres : RendererOperation.onDispatch lm (RendererOperation.RawPoint (x, y) 1) prg =
      prg.raw_drawBigPoint (x, y) := by
    simp [RendererOperation.onDispatch]
  rw [hres]
  constructor
  · intro hin
    obtain ⟨m, hm⟩ := DisplayBuffer.data_isSome_of_ready _ hready
    rw [RendererProgram.raw_drawBigPoint_of_inside prg x y hready hin]
    obtain ⟨m2, hm2, hcells⟩ := DisplayBuffer.foldl_plot_cells prg.front_color
      [(x, y), (x - 1, y), (x + 1, y), (x, y - 1), (x, y + 1)] prg.buffer m hm
    exact ⟨rfl, rfl, rfl, rfl, rfl, rfl, DisplayBuffer.foldl_plot_width _ _ _,
      DisplayBuffer.foldl_plot_height _ _ _, m, m2, hm, hm2, hcells⟩
  · intro hout
    exact RendererProgram.raw_drawBigPoint_of_not_inside prg x y hout

theorem big_point_needs_centre_inside_witness :
    (RendererProgram.create (DisplayBuffer.create 2 2 none (fun _ => 0))).buffer.operatorNot
      = false ∧
    (RendererProgram.create (DisplayBuffer.create 2 2 none (fun _ => 0))).buffer.inside 0 1 ∧
    (RendererOperation.onDispatch ⟨id, id, id⟩ (RendererOperation.RawPoint (0, 1) 1)
      (RendererProgram.create (DisplayBuffer.create 2 2 none (fun _ => 0)))).1 = 0 ∧
    ¬ (RendererProgram.create (DisplayBuffer.create 2 2 none (fun _ => 0))).buffer.inside 2 1 ∧
    RendererOperation.onDispatch ⟨id, id, id⟩ (RendererOperation.RawPoint (2, 1) 1)
      (RendererProgram.create (DisplayBuffer.create 2 2 none (fun _ => 0))) =
      (1, RendererProgram.create (DisplayBuffer.create 2 2 none (fun _ => 0))) :=
  ⟨by decide, by decide,
    ((big_point_needs_centre_inside ⟨id, id, id⟩
      (RendererProgram.create (DisplayBuffer.create 2 2 none (fun _ => 0))) 0 1
      (by decide)).1 (by decide)).1,
    by decide,
    (big_point_needs_centre_inside ⟨id, id, id⟩
      (RendererProgram.create (DisplayBuffer.create 2 2 none (fun _ => 0))) 2 1
      (by decide)).2 (by decide)⟩

/-- Claim C20, as stated, fails: on a ready 2x2 buffer whose cells hold 0,
the big point with centre (-1, 0) has its right neighbour (0, 0) inside the
buffer, and that pixel does not receive the front color. -/
theorem big_point_counterexample :
    (RendererProgram.create (DisplayBuffer.create 2 2 none (fun _ => 0))).buffer.operatorNot
      = false ∧
    (RendererProgram.create (DisplayBuffer.create 2 2 none (fun _ => 0))).buffer.inside
      (-1 + 1) 0 ∧
    ¬ ∃ m2,
      (RendererOperation.onDispatch ⟨id, id, id⟩ (RendererOperation.RawPoint (-1, 0) 1)
        (RendererProgram.create (DisplayBuffer.create 2 2 none (fun _ => 0)))).2.buffer.data
        = some m2 ∧
      m2 ((RendererProgram.create (DisplayBuffer.create 2 2 none (fun _ => 0))).buffer.offset
          (-1 + 1) 0) =
        (RendererProgram.create (DisplayBuffer.create 2 2 none (fun _ => 0))).front_color := by
  refine ⟨by decide, by decide, ?_⟩
  have hres : RendererOperation.onDispatch ⟨id, id, id⟩ (RendererOperation.RawPoint (-1, 0) 1)
      (RendererProgram.create (DisplayBuffer.create 2 2 none (fun _ => 0))) =
      (1, RendererProgram.create (DisplayBuffer.create 2 2 none (fun _ => 0))) := by
    have h : RendererOperation.onDispatch ⟨id, id, id⟩ (RendererOperation.RawPoint (-1, 0) 1)
        (RendererProgram.create (DisplayBuffer.create 2 2 none (fun _ => 0))) =
        (RendererProgram.create (DisplayBuffer.create 2 2 none (fun _ => 0))).raw_drawBigPoint
          (-1, 0) := by
      simp [RendererOperation.onDispatch]
    rw [h]
    exact RendererProgram.raw_drawBigPoint_of_not_inside _ _ _ (by decide)
  rw [hres]
  rintro ⟨m2, hm2, hcell⟩
  have hdata : (RendererProgram.create (DisplayBuffer.create 2 2 none (fun _ => 0))).buffer.data
      = some (fun _ => 0) := rfl
  simp only at hm2
  rw [hdata] at hm2
  have hm : m2 = fun _ => 0 := (Option.some.inj hm2).symm
  rw [hm] at hcell
  exact absurd hcell (by decide)

namespace RendererProgram

theorem lineAt_swap_slope (x1 y1 x2 y2 : Int) :
    ((y1 - y2 : Int) : ℚ) / ((x1 - x2 : Int) : ℚ) =
      ((y2 - y1 : Int) : ℚ) / ((x2 - x1 : Int) : ℚ) := by
  push_cast
  rw [← neg_sub (y2 : ℚ) (y1 : ℚ), ← neg_sub (x2 : ℚ) (x1 : ℚ), neg_div_neg_eq]

/-- The horizontal-dominant branch of raw_drawLine in closed form: with the
endpoints named so that x1 < x2, whichever was passed first, the loop plots
(x, (int)(x*m + b)) for x from max(0, x1) up to x2, or up to width - 1 when
x2 > width. -/
theorem raw_drawLine_horizontal_eq (prg : RendererProgram) (p1 p2 : Int × Int)
    (x1 y1 x2 y2 : Int)
    (hends : (p1 = (x1, y1) ∧ p2 = (x2, y2)) ∨ (p1 = (x2, y2) ∧ p2 = (x1, y1)))
    (hord : x1 < x2) (hdom : |x2 - x1| > |y2 - y1|) :
    prg.raw_drawLine p1 p2 =
      (0, RendererProgram.mk
        ((intRange (if x1 < 0 then 0 else x1)
            (if x2 > prg.buffer.width then prg.buffer.width - 1 else x2)).foldl
          (fun d x => (d.plot x (truncToInt (lineAt x1 y1 x2 y2 x)) prg.front_color).2)
          prg.buffer)
        prg.modelview prg.proj prg.viewport prg.front_color prg.clear_color) := by
  rcases hends with ⟨h1, h2⟩ | ⟨h1, h2⟩
  · subst h1 h2
    have hne : ¬ ((x1, y1) = (x2, y2)) := by
      intro h
      have := (Prod.mk.inj h).1
      omega
    have hgt : ¬ (x1 > x2) := by omega
    unfold raw_drawLine
    rw [if_neg hne]
    dsimp only
    rw [ite_nonneg_eq_abs, ite_nonneg_eq_abs, if_pos hdom]
    simp only [if_neg hgt]
    rfl
  · subst h1 h2
    have hne : ¬ ((x2, y2) = (x1, y1)) := by
      intro h
      have := (Prod.mk.inj h).1
      omega
    have hgt : x2 > x1 := by omega
    have hdom2 : |x1 - x2| > |y1 - y2| := by
      rw [abs_sub_comm x1 x2, abs_sub_comm y1 y2]
      exact hdom
    unfold raw_drawLine
    rw [if_neg hne]
    dsimp only
    rw [ite_nonneg_eq_abs, ite_nonneg_eq_abs, if_pos hdom2]
    simp only [if_pos hgt]
    unfold lineAt
    rw [lineAt_swap_slope]

/-- The cells after a horizontal-dominant raw line on a ready buffer. -/
theorem raw_drawLine_horizontal_cells (prg : RendererProgram) (p1 p2 : Int × Int)
    (x1 y1 x2 y2 : Int) (m : Mem) (hm : prg.buffer.data = some m)
    (hends : (p1 = (x1, y1) ∧ p2 = (x2, y2)) ∨ (p1 = (x2, y2) ∧ p2 = (x1, y1)))
    (hord : x1 < x2) (hdom : |x2 - x1| > |y2 - y1|) :
    (prg.raw_drawLine p1 p2).1 = 0 ∧
    (prg.raw_drawLine p1 p2).2.modelview = prg.modelview ∧
    (prg.raw_drawLine p1 p2).2.proj = prg.proj ∧
    (prg.raw_drawLine p1 p2).2.viewport = prg.viewport ∧
    (prg.raw_drawLine p1 p2).2.front_color = prg.front_color ∧
    (prg.raw_drawLine p1 p2).2.clear_color = prg.clear_color ∧
    (prg.raw_drawLine p1 p2).2.buffer.width = prg.buffer.width ∧
    (prg.raw_drawLine p1 p2).2.buffer.height = prg.buffer.height ∧
    ∃ m2, (prg.raw_drawLine p1 p2).2.buffer.data = some m2 ∧
      ∀ i,
        ((∃ x, max 0 x1 ≤ x ∧ x ≤ min prg.buffer.width x2 ∧
            prg.buffer.inside x (truncToInt (lineAt x1 y1 x2 y2 x)) ∧
            i = prg.buffer.offset x (truncToInt (lineAt x1 y1 x2 y2 x))) →
          m2 i = prg.front_color) ∧
        ((¬ ∃ x, max 0 x1 ≤ x ∧ x ≤ min prg.buffer.width x2 ∧
            prg.buffer.inside x (truncToInt (lineAt x1 y1 x2 y2 x)) ∧
            i = prg.buffer.offset x (truncToInt (lineAt x1 y1 x2 y2 x))) →
          m2 i = m i) := by
  rw [raw_drawLine_horizontal_eq prg p1 p2 x1 y1 x2 y2 hends hord hdom]
  have hfold : ∀ (l : List Int) (b : DisplayBuffer),
      l.foldl (fun d x => (d.plot x (truncToInt (lineAt x1 y1 x2 y2 x)) prg.front_color).2) b =
      (l.map (fun x => (x, truncToInt (lineAt x1 y1 x2 y2 x)))).foldl
        (fun d p => (d.plot p.1 p.2 prg.front_color).2) b := by
    intro l b
    rw [List.foldl_map]
  rw [hfold]
  obtain ⟨m2, hm2, hcells⟩ := DisplayBuffer.foldl_plot_cells prg.front_color
    ((intRange (if x1 < 0 then 0 else x1)
      (if x2 > prg.buffer.width then prg.buffer.width - 1 else x2)).map
      (fun x => (x, truncToInt (lineAt x1 y1 x2 y2 x)))) prg.buffer m hm
  have hiff : ∀ i, (∃ p ∈ (intRange (if x1 < 0 then 0 else x1)
        (if x2 > prg.buffer.width then prg.buffer.width - 1 else x2)).map
        (fun x => (x, truncToInt (lineAt x1 y1 x2 y2 x))),
        prg.buffer.inside p.1 p.2 ∧ i = prg.buffer.offset p.1 p.2) ↔
      (∃ x, max 0 x1 ≤ x ∧ x ≤ min prg.buffer.width x2 ∧
        prg.buffer.inside x (truncToInt (lineAt x1 y1 x2 y2 x)) ∧
        i = prg.buffer.offset x (truncToInt (lineAt x1 y1 x2 y2 x))) := by
    intro i
    constructor
    · rintro ⟨p, hp, hin, hi⟩
      obtain ⟨x, hx, rfl⟩ := List.mem_map.mp hp
      have hx2 := (mem_intRange _ _ _).mp hx
      refine ⟨x, ?_, ?_, hin, hi⟩
      · split_ifs at hx2 <;> omega
      · split_ifs at hx2 <;> omega
    · rintro ⟨x, h1, h2, hin, hi⟩
      refine ⟨(x, truncToInt (lineAt x1 y1 x2 y2 x)), List.mem_map.mpr ⟨x, ?_, rfl⟩, hin, hi⟩
      apply (mem_intRange _ _ _).mpr
      have hxw : x < prg.buffer.width := hin.2.1
      split_ifs <;> omega
  refine ⟨rfl, rfl, rfl, rfl, rfl, rfl, DisplayBuffer.foldl_plot_width _ _ _,
    DisplayBuffer.foldl_plot_height _ _ _, m2, hm2, fun i => ⟨?_, ?_⟩⟩
  · intro h
    exact (hcells i).1 ((hiff i).mpr h)
  · intro h
    exact (hcells i).2 (fun h2 => h ((hiff i).mp h2))

end RendererProgram

/-- Claim C19, as stated, fails: on a ready 4x4 buffer whose cells hold 0,
for the line from (0,0) to (3,2) the cells are not the ones the claim gives
with rounding to the nearest integer: at x = 1 the line is at 2/3, which
rounds to 1, and the code writes the pixel (1, 0). -/
theorem raw_line_round_counterexample :
    ¬ ∃ m m2,
      (RendererProgram.create (DisplayBuffer.create 4 4 none (fun _ => 0))).buffer.data
        = some m ∧
      (RendererOperation.onDispatch ⟨id, id, id⟩ (RendererOperation.RawLine (0, 0) (3, 2))
        (RendererProgram.create (DisplayBuffer.create 4 4 none (fun _ => 0)))).2.buffer.data
        = some m2 ∧
      ∀ i,
        ((∃ x, max 0 0 ≤ x ∧
            x ≤ min (RendererProgram.create
              (DisplayBuffer.create 4 4 none (fun _ => 0))).buffer.width 3 ∧
            (RendererProgram.create (DisplayBuffer.create 4 4 none (fun _ => 0))).buffer.inside
              x (round (lineAt 0 0 3 2 x)) ∧
            i = (RendererProgram.create
              (DisplayBuffer.create 4 4 none (fun _ => 0))).buffer.offset
              x (round (lineAt 0 0 3 2 x))) →
          m2 i = (RendererProgram.create
            (DisplayBuffer.create 4 4 none (fun _ => 0))).front_color) ∧
        ((¬ ∃ x, max 0 0 ≤ x ∧
            x ≤ min (RendererProgram.create
              (DisplayBuffer.create 4 4 none (fun _ => 0))).buffer.width 3 ∧
            (RendererProgram.create (DisplayBuffer.create 4 4 none (fun _ => 0))).buffer.inside
              x (round (lineAt 0 0 3 2 x)) ∧
            i = (RendererProgram.create
              (DisplayBuffer.create 4 4 none (fun _ => 0))).buffer.offset
              x (round (lineAt 0 0 3 2 x))) →
          m2 i = m i) := by
  rintro ⟨m, m2, hm, hm2, hclaim⟩
  have hdata : (RendererProgram.create (DisplayBuffer.create 4 4 none (fun _ => 0))).buffer.data
      = some (fun _ => 0) := rfl
  have hmz : m = fun _ => 0 := by
    rw [hdata] at hm
    exact (Option.some.inj hm).symm
  obtain ⟨_, _, _, _, _, _, _, _, m3, hm3, hcells⟩ :=
    RendererProgram.raw_drawLine_horizontal_cells
      (RendererProgram.create (DisplayBuffer.create 4 4 none (fun _ => 0)))
      (0, 0) (3, 2) 0 0 3 2 (fun _ => 0) hdata (Or.inl ⟨rfl, rfl⟩) (by decide) (by decide)
  have hsame : m2 = m3 := by
    have hres : RendererOperation.onDispatch ⟨id, id, id⟩ (RendererOperation.RawLine (0, 0) (3, 2))
        (RendererProgram.create (DisplayBuffer.create 4 4 none (fun _ => 0))) =
        (RendererProgram.create (DisplayBuffer.create 4 4 none (fun _ => 0))).raw_drawLine
          (0, 0) (3, 2) := rfl
    rw [hres, hm3] at hm2
    exact (Option.some.inj hm2).symm
  -- the code writes the cell of the pixel (1, 0)
  have htrunc : truncToInt (lineAt 0 0 3 2 1) = 0 := by
    rw [truncToInt_of_nonneg _ (by unfold lineAt; norm_num)]
    unfold lineAt
    norm_num [Int.floor_eq_iff]
  have hcode : m3 1 = 4294967295 := by
    apply (hcells 1).1
    refine ⟨1, by decide, by decide, ?_, ?_⟩
    · rw [htrunc]; decide
    · rw [htrunc]; decide
  -- the claim leaves that cell alone
  have hr0 : round (lineAt 0 0 3 2 0) = 0 := by
    unfold lineAt; norm_num [round_eq, Int.floor_eq_iff]
  have hr1 : round (lineAt 0 0 3 2 1) = 1 := by
    unfold lineAt; norm_num [round_eq, Int.floor_eq_iff]
  have hr2 : round (lineAt 0 0 3 2 2) = 1 := by
    unfold lineAt; norm_num [round_eq, Int.floor_eq_iff]
  have hr3 : round (lineAt 0 0 3 2 3) = 2 := by
    unfold lineAt; norm_num [round_eq, Int.floor_eq_iff]
  have hclaim1 : m2 1 = m 1 := by
    apply (hclaim 1).2
    rintro ⟨x, hx0, hx3, _, hoff⟩
    have hx0b : 0 ≤ x := by simpa using hx0
    have hx3b : x ≤ 3 := le_trans hx3 (min_le_right _ _)
    interval_cases x
    · rw [hr0] at hoff; exact absurd hoff (by decide)
    · rw [hr1] at hoff; exact absurd hoff (by decide)
    · rw [hr2] at hoff; exact absurd hoff (by decide)
    · rw [hr3] at hoff; exact absurd hoff (by decide)
  rw [hsame, hcode, hmz] at hclaim1
  exact absurd hclaim1 (by decide)

/-! ## The transform pipeline with identity matrices -/

namespace math

theorem Mat4x4f.IDENTITY_get (row col : Nat) (hr : row < 4) (hc : col < 4) :
    Mat4x4f.IDENTITY.get row col = if row = col then 1 else 0 := by
  interval_cases row <;> interval_cases col <;> rfl

theorem multiply_IDENTITY (v : Vector4f) : multiply v Mat4x4f.IDENTITY = v := by
  rcases v with ⟨x, y, z, w⟩
  unfold multiply
  simp [Mat4x4f.IDENTITY_get]

theorem Vector4f.normalize_of_w_one (v : Vector4f) (hw : v.w = 1) : v.normalize = v := by
  rcases v with ⟨x, y, z, w⟩
  simp only at hw
  subst hw
  simp [Vector4f.normalize]

end math

namespace RendererProgram

/-- With identity matrices a point with w = 1 reaches the viewport mapping
unchanged. -/
theorem transformPoint_identity (prg : RendererProgram) (v : Vector4f) (rp : Int × Int)
    (hmv : prg.modelview = Mat4x4f.IDENTITY) (hpj : prg.proj = Mat4x4f.IDENTITY)
    (hw : v.w = 1) :
    prg.transformPoint v rp =
      if v.z < -1 ∨ v.z > 1 then (2, v, (prg.viewport.posOf v.x v.y).2)
      else (if (prg.viewport.posOf v.x v.y).1 then 0 else 1, v,
        (prg.viewport.posOf v.x v.y).2) := by
  unfold transformPoint
  have hw0 : ¬ (v.w = 0) := by rw [hw]; norm_num
  dsimp only
  rw [hmv, hpj, multiply_IDENTITY, multiply_IDENTITY, if_neg hw0,
    Vector4f.normalize_of_w_one v hw]

end RendererProgram

theorem truncToInt_half (n : Int) (hn : 0 ≤ n) :
    truncToInt ((n : ℚ) * (0 + 1) * (1 / 2)) = n / 2 := by
  have hq : (0 : ℚ) ≤ (n : ℚ) := by exact_mod_cast hn
  rw [truncToInt_of_nonneg _ (by positivity)]
  have h : (n : ℚ) * (0 + 1) * (1 / 2) = (n : ℚ) / ((2 : ℕ) : ℚ) := by
    push_cast; ring
  rw [h, Rat.floor_intCast_div_natCast]
  norm_num

namespace math

/-- The viewport that covers a buffer maps the normalized origin to the pixel
(W / 2, H - H / 2), with integer division, and reports it as inside. -/
theorem Region2i.posOf_origin_full (W H : Int) (hW : 0 ≤ W) (hH : 0 ≤ H) :
    (Region2i.create 0 W 0 H).posOf 0 0 = (true, (W / 2, H - H / 2)) := by
  rw [Region2i.create_eq, max_eq_right hW, max_eq_right hH]
  unfold Region2i.posOf
  simp only [sub_zero, zero_add]
  have h1 := truncToInt_half W hW
  have h2 := truncToInt_half H hH
  simp only [zero_add] at h1 h2
  rw [h1, h2]
  simp

end math

namespace RendererProgram

end RendererProgram

namespace RendererProgram

/-- The vertical-dominant branch of raw_drawLine, taken when |dx| <= |dy|, in
closed form: with the endpoints named so that y1 < y2, whichever was passed
first, the loop plots ((int)(y*m + b), y) for y from max(0, y1) up to y2, or
up to height - 1 when y2 > height. -/
theorem raw_drawLine_vertical_eq (prg : RendererProgram) (p1 p2 : Int × Int)
    (x1 y1 x2 y2 : Int)
    (hends : (p1 = (x1, y1) ∧ p2 = (x2, y2)) ∨ (p1 = (x2, y2) ∧ p2 = (x1, y1)))
    (hord : y1 < y2) (hdom : ¬ |x2 - x1| > |y2 - y1|) :
    prg.raw_drawLine p1 p2 =
      (0, RendererProgram.mk
        ((intRange (if y1 < 0 then 0 else y1)
            (if y2 > prg.buffer.height then prg.buffer.height - 1 else y2)).foldl
          (fun d y => (d.plot (truncToInt (lineAt y1 x1 y2 x2 y)) y prg.front_color).2)
          prg.buffer)
        prg.modelview prg.proj prg.viewport prg.front_color prg.clear_color) := by
  rcases hends with ⟨h1, h2⟩ | ⟨h1, h2⟩
  · subst h1 h2
    have hne : ¬ ((x1, y1) = (x2, y2)) := by
      intro h
      have := (Prod.mk.inj h).2
      omega
    have hgt : ¬ (y1 > y2) := by omega
    unfold raw_drawLine
    rw [if_neg hne]
    dsimp only
    rw [ite_nonneg_eq_abs, ite_nonneg_eq_abs, if_neg hdom]
    simp only [if_neg hgt]
    rfl
  · subst h1 h2
    have hne : ¬ ((x2, y2) = (x1, y1)) := by
      intro h
      have := (Prod.mk.inj h).2
      omega
    have hgt : y2 > y1 := by omega
    have hdom2 : ¬ |x1 - x2| > |y1 - y2| := by
      rw [abs_sub_comm x1 x2, abs_sub_comm y1 y2]
      exact hdom
    unfold raw_drawLine
    rw [if_neg hne]
    dsimp only
    rw [ite_nonneg_eq_abs, ite_nonneg_eq_abs, if_neg hdom2]
    simp only [if_pos hgt]
    unfold lineAt
    rw [lineAt_swap_slope]

/-- The cells after a vertical-dominant raw line on a ready buffer. -/
theorem raw_drawLine_vertical_cells (prg : RendererProgram) (p1 p2 : Int × Int)
    (x1 y1 x2 y2 : Int) (m : Mem) (hm : prg.buffer.data = some m)
    (hends : (p1 = (x1, y1) ∧ p2 = (x2, y2)) ∨ (p1 = (x2, y2) ∧ p2 = (x1, y1)))
    (hord : y1 < y2) (hdom : ¬ |x2 - x1| > |y2 - y1|) :
    (prg.raw_drawLine p1 p2).1 = 0 ∧
    (prg.raw_drawLine p1 p2).2.modelview = prg.modelview ∧
    (prg.raw_drawLine p1 p2).2.proj = prg.proj ∧
    (prg.raw_drawLine p1 p2).2.viewport = prg.viewport ∧
    (prg.raw_drawLine p1 p2).2.front_color = prg.front_color ∧
    (prg.raw_drawLine p1 p2).2.clear_color = prg.clear_color ∧
    (prg.raw_drawLine p1 p2).2.buffer.width = prg.buffer.width ∧
    (prg.raw_drawLine p1 p2).2.buffer.height = prg.buffer.height ∧
    ∃ m2, (prg.raw_drawLine p1 p2).2.buffer.data = some m2 ∧
      ∀ i,
        ((∃ y, max 0 y1 ≤ y ∧ y ≤ min prg.buffer.height y2 ∧
            prg.buffer.inside (truncToInt (lineAt y1 x1 y2 x2 y)) y ∧
            i = prg.buffer.offset (truncToInt (lineAt y1 x1 y2 x2 y)) y) →
          m2 i = prg.front_color) ∧
        ((¬ ∃ y, max 0 y1 ≤ y ∧ y ≤ min prg.buffer.height y2 ∧
            prg.buffer.inside (truncToInt (lineAt y1 x1 y2 x2 y)) y ∧
            i = prg.buffer.offset (truncToInt (lineAt y1 x1 y2 x2 y)) y) →
          m2 i = m i) := by
  rw [raw_drawLine_vertical_eq prg p1 p2 x1 y1 x2 y2 hends hord hdom]
  have hfold : ∀ (l : List Int) (b : DisplayBuffer),
      l.foldl (fun d y => (d.plot (truncToInt (lineAt y1 x1 y2 x2 y)) y prg.front_color).2) b =
      (l.map (fun y => (truncToInt (lineAt y1 x1 y2 x2 y), y))).foldl
        (fun d p => (d.plot p.1 p.2 prg.front_color).2) b := by
    intro l b
    rw [List.foldl_map]
  rw [hfold]
  obtain ⟨m2, hm2, hcells⟩ := DisplayBuffer.foldl_plot_cells prg.front_color
    ((intRange (if y1 < 0 then 0 else y1)
      (if y2 > prg.buffer.height then prg.buffer.height - 1 else y2)).map
      (fun y => (truncToInt (lineAt y1 x1 y2 x2 y), y))) prg.buffer m hm
  have hiff : ∀ i, (∃ p ∈ (intRange (if y1 < 0 then 0 else y1)
        (if y2 > prg.buffer.height then prg.buffer.height - 1 else y2)).map
        (fun y => (truncToInt (lineAt y1 x1 y2 x2 y), y)),
        prg.buffer.inside p.1 p.2 ∧ i = prg.buffer.offset p.1 p.2) ↔
      (∃ y, max 0 y1 ≤ y ∧ y ≤ min prg.buffer.height y2 ∧
        prg.buffer.inside (truncToInt (lineAt y1 x1 y2 x2 y)) y ∧
        i = prg.buffer.offset (truncToInt (lineAt y1 x1 y2 x2 y)) y) := by
    intro i
    constructor
    · rintro ⟨p, hp, hin, hi⟩
      obtain ⟨y, hy, rfl⟩ := List.mem_map.mp hp
      have hy2 := (mem_intRange _ _ _).mp hy
      refine ⟨y, ?_, ?_, hin, hi⟩
      · split_ifs at hy2 <;> omega
      · split_ifs at hy2 <;> omega
    · rintro ⟨y, h1, h2, hin, hi⟩
      refine ⟨(truncToInt (lineAt y1 x1 y2 x2 y), y), List.mem_map.mpr ⟨y, ?_, rfl⟩, hin, hi⟩
      apply (mem_intRange _ _ _).mpr
      have hyh : y < prg.buffer.height := hin.2.2.2
      split_ifs <;> omega
  refine ⟨rfl, rfl, rfl, rfl, rfl, rfl, DisplayBuffer.foldl_plot_width _ _ _,
    DisplayBuffer.foldl_plot_height _ _ _, m2, hm2, fun i => ⟨?_, ?_⟩⟩
  · intro h
    exact (hcells i).1 ((hiff i).mpr h)
  · intro h
    exact (hcells i).2 (fun h2 => h ((hiff i).mp h2))

end RendererProgram

namespace DisplayBuffer

/-- The storage after clear on a ready buffer. -/
theorem clear_data (b : DisplayBuffer) (c : Nat) (m : Mem) (hm : b.data = some m) :
    (b.clear c).2.data =
      some (fun i => if i < (b.width * b.height).toNat then c else m i) := by
  have hready : b.operatorNot = false := by
    rcases b with ⟨w, ht, _ | ma, _ | mb⟩ <;> simp_all [operatorNot, data]
  rw [clear_ready b c hready]
  rcases b with ⟨w, ht, _ | ma, _ | mb⟩ <;> simp_all [data]

end DisplayBuffer

namespace DisplayBuffer

theorem clear_width (b : DisplayBuffer) (c : Nat) : (b.clear c).2.width = b.width := by
  by_cases h : b.operatorNot = true
  · rw [clear_not_ready b c h]
  · rw [clear_ready b c (by simpa using h)]

theorem clear_height (b : DisplayBuffer) (c : Nat) : (b.clear c).2.height = b.height := by
  by_cases h : b.operatorNot = true
  · rw [clear_not_ready b c h]
  · rw [clear_ready b c (by simpa using h)]

end DisplayBuffer

namespace math

theorem Region2i.posOf_full4_low :
    (Region2i.create 0 4 0 4).posOf (-1) (-1) = (false, (0, 4)) := by
  have e : (((4 : Int) - 0 : Int) : ℚ) * (-1 + 1) * (1 / 2) = ((0 : Int) : ℚ) := by norm_num
  rw [Region2i.create_eq]
  unfold Region2i.posOf
  simp only [max_eq_right (by decide : (0 : Int) ≤ 4)]
  rw [e, truncToInt_intCast]
  norm_num

theorem Region2i.posOf_full4_high :
    (Region2i.create 0 4 0 4).posOf 1 1 = (false, (4, 0)) := by
  have e : (((4 : Int) - 0 : Int) : ℚ) * (1 + 1) * (1 / 2) = ((4 : Int) : ℚ) := by norm_num
  rw [Region2i.create_eq]
  unfold Region2i.posOf
  simp only [max_eq_right (by decide : (0 : Int) ≤ 4)]
  rw [e, truncToInt_intCast]
  norm_num

end math

theorem lineAt_diagonal4 (y : Int) : truncToInt (lineAt 0 4 4 0 y) = 4 - y := by
  have e : lineAt 0 4 4 0 y = ((4 - y : Int) : ℚ) := by
    unfold lineAt
    push_cast
    ring
  rw [e, truncToInt_intCast]

/-- The end-to-end scenario on a fresh 4x4 engine, step by step. -/
theorem end_to_end_run (lm : LibM) (ext_buffer : Option Mem) (uninit : Mem) :
    (RendererOperation.onDispatch lm RendererOperation.Clear
        (Renderer.create 4 4 ext_buffer uninit).program).2.transformPoint
        ⟨-1, -1, 0, 1⟩ (-1, -1) = (1, ⟨-1, -1, 0, 1⟩, (0, 4)) ∧
    (RendererOperation.onDispatch lm RendererOperation.Clear
        (Renderer.create 4 4 ext_buffer uninit).program).2.transformPoint
        ⟨1, 1, 0, 1⟩ (-1, -1) = (1, ⟨1, 1, 0, 1⟩, (4, 0)) ∧
    ∃ m, (applyAll lm
        [RendererOperation.Clear, RendererOperation.Line ⟨-1, -1, 0, 1⟩ ⟨1, 1, 0, 1⟩]
        (Renderer.create 4 4 ext_buffer uninit).program).buffer.data = some m ∧
      ∀ x y : Int, 0 ≤ x ∧ x < 4 ∧ 0 ≤ y ∧ y < 4 →
        m (4 * y + x).toNat =
          if (x = 3 ∧ y = 1) ∨ (x = 2 ∧ y = 2) ∨ (x = 1 ∧ y = 3) then 4294967295
          else 4278190080 := by
  obtain ⟨m0, hm0⟩ := DisplayBuffer.data_isSome_of_ready _
    (Renderer.create_ready 4 4 ext_buffer uninit)
  have hclear : RendererOperation.onDispatch lm RendererOperation.Clear
      (Renderer.create 4 4 ext_buffer uninit).program =
      (Renderer.create 4 4 ext_buffer uninit).program.raw_clear := rfl
  rw [hclear]
  have hmv : (Renderer.create 4 4 ext_buffer uninit).program.raw_clear.2.modelview
      = Mat4x4f.IDENTITY := rfl
  have hpj : (Renderer.create 4 4 ext_buffer uninit).program.raw_clear.2.proj
      = Mat4x4f.IDENTITY := rfl
  have hvp : (Renderer.create 4 4 ext_buffer uninit).program.raw_clear.2.viewport
      = Region2i.create 0 4 0 4 := rfl
  have hfc : (Renderer.create 4 4 ext_buffer uninit).program.raw_clear.2.front_color
      = 4294967295 := rfl
  have hw : (Renderer.create 4 4 ext_buffer uninit).program.raw_clear.2.buffer.width = 4 := by
    show ((DisplayBuffer.create 4 4 ext_buffer uninit).clear _).2.width = 4
    rw [DisplayBuffer.clear_width]; rfl
  have hh : (Renderer.create 4 4 ext_buffer uninit).program.raw_clear.2.buffer.height = 4 := by
    show ((DisplayBuffer.create 4 4 ext_buffer uninit).clear _).2.height = 4
    rw [DisplayBuffer.clear_height]; rfl
  have hd : (Renderer.create 4 4 ext_buffer uninit).program.raw_clear.2.buffer.data
      = some (fun i => if i < 16 then 4278190080 else m0 i) := by
    have hm1 : (DisplayBuffer.create 4 4 ext_buffer uninit).data = some m0 := hm0
    show ((DisplayBuffer.create 4 4 ext_buffer uninit).clear _).2.data = _
    rw [DisplayBuffer.clear_data _ _ m0 hm1]
    rfl
  have ht1 : (Renderer.create 4 4 ext_buffer uninit).program.raw_clear.2.transformPoint
      ⟨-1, -1, 0, 1⟩ (-1, -1) = (1, ⟨-1, -1, 0, 1⟩, (0, 4)) := by
    rw [RendererProgram.transformPoint_identity _ _ _ hmv hpj rfl, hvp,
      Region2i.posOf_full4_low]
    norm_num
  have ht2 : (Renderer.create 4 4 ext_buffer uninit).program.raw_clear.2.transformPoint
      ⟨1, 1, 0, 1⟩ (-1, -1) = (1, ⟨1, 1, 0, 1⟩, (4, 0)) := by
    rw [RendererProgram.transformPoint_identity _ _ _ hmv hpj rfl, hvp,
      Region2i.posOf_full4_high]
    norm_num
  refine ⟨ht1, ht2, ?_⟩
  have hrun : applyAll lm
      [RendererOperation.Clear, RendererOperation.Line ⟨-1, -1, 0, 1⟩ ⟨1, 1, 0, 1⟩]
      (Renderer.create 4 4 ext_buffer uninit).program =
      ((Renderer.create 4 4 ext_buffer uninit).program.raw_clear.2.raw_drawLine
        (0, 4) (4, 0)).2 := by
    show ((Renderer.create 4 4 ext_buffer uninit).program.raw_clear.2.drawLine
      ⟨-1, -1, 0, 1⟩ ⟨1, 1, 0, 1⟩).2 = _
    unfold RendererProgram.drawLine
    dsimp only
    rw [ht1, ht2]
    simp
  rw [hrun]
  obtain ⟨_, _, _, _, _, _, _, _, m2, hm2, hcells⟩ :=
    RendererProgram.raw_drawLine_vertical_cells
      (Renderer.create 4 4 ext_buffer uninit).program.raw_clear.2 (0, 4) (4, 0) 4 0 0 4
      _ hd (Or.inr ⟨rfl, rfl⟩) (by decide) (by decide)
  refine ⟨m2, hm2, ?_⟩
  intro x y hxy
  simp only [lineAt_diagonal4, hw, hh, hfc, DisplayBuffer.inside, DisplayBuffer.offset]
    at hcells
  by_cases hc : (x = 3 ∧ y = 1) ∨ (x = 2 ∧ y = 2) ∨ (x = 1 ∧ y = 3)
  · rw [if_pos hc]
    apply (hcells _).1
    refine ⟨y, ?_⟩
    omega
  · have hno : ¬ ∃ y2 : Int, max 0 0 ≤ y2 ∧ y2 ≤ min 4 4 ∧
        (0 ≤ 4 - y2 ∧ 4 - y2 < 4 ∧ 0 ≤ y2 ∧ y2 < 4) ∧
        (4 * y + x).toNat = (4 * y2 + (4 - y2)).toNat := by
      rintro ⟨y2, _, _, hin, hoff⟩
      have hy : y2 = 1 ∨ y2 = 2 ∨ y2 = 3 := by omega
      rcases hy with rfl | rfl | rfl <;> omega
    rw [if_neg hc, (hcells _).2 hno]
    have hlt : (4 * y + x).toNat < 16 := by omega
    simp [hlt]

/-- Claim C12, as amended. End-to-end scenario: on a fresh 4x4 engine (full
viewport, identity matrices, front color 0xFFFFFFFF, clear color 0xFF000000),
after Clear the endpoints of DrawLine((-1,-1,0,1),(1,1,0,1)) are mapped to
the pixels (0,4) and (4,0), both outside the buffer, and after Clear and that
DrawLine the buffer has the pixels (3,1), (2,2) and (1,3) of the diagonal
between them equal to 0xFFFFFFFF and every other pixel, (0,3) and (3,0)
included, equal to 0xFF000000. -/
theorem end_to_end_diagonal (lm : LibM) (ext_buffer : Option Mem) (uninit : Mem) :
    ((RendererOperation.onDispatch lm RendererOperation.Clear
        (Renderer.create 4 4 ext_buffer uninit).program).2.transformPoint
        ⟨-1, -1, 0, 1⟩ (-1, -1)).2.2 = (0, 4) ∧
    ((RendererOperation.onDispatch lm RendererOperation.Clear
        (Renderer.create 4 4 ext_buffer uninit).program).2.transformPoint
        ⟨1, 1, 0, 1⟩ (-1, -1)).2.2 = (4, 0) ∧
    (Renderer.create 4 4 ext_buffer uninit).program.front_color = 0xFFFFFFFF ∧
    (Renderer.create 4 4 ext_buffer uninit).program.clear_color = 0xFF000000 ∧
    (Renderer.create 4 4 ext_buffer uninit).program.modelview = Mat4x4f.IDENTITY ∧
    (Renderer.create 4 4 ext_buffer uninit).program.proj = Mat4x4f.IDENTITY ∧
    (Renderer.create 4 4 ext_buffer uninit).program.viewport = Region2i.create 0 4 0 4 ∧
    ∃ m, (applyAll lm
        [RendererOperation.Clear, RendererOperation.Line ⟨-1, -1, 0, 1⟩ ⟨1, 1, 0, 1⟩]
        (Renderer.create 4 4 ext_buffer uninit).program).buffer.data = some m ∧
      ∀ x y : Int, 0 ≤ x ∧ x < 4 ∧ 0 ≤ y ∧ y < 4 →
        m (4 * y + x).toNat =
          if (x = 3 ∧ y = 1) ∨ (x = 2 ∧ y = 2) ∨ (x = 1 ∧ y = 3) then 0xFFFFFFFF
          else 0xFF000000 := by
  obtain ⟨h1, h2, m, hm, hcells⟩ := end_to_end_run lm ext_buffer uninit
  refine ⟨?_, ?_, rfl, rfl, rfl, rfl, rfl, m, hm, hcells⟩
  · rw [h1]
  · rw [h2]

/-- Claim C12, as stated, fails: on the fresh 4x4 engine with its own buffer,
the endpoint (-1,-1,0,1) is not mapped to the pixel (0,3), the endpoint
(1,1,0,1) is not mapped to (3,0), and after Clear and the DrawLine the pixels
(0,3) and (3,0) do not hold 0xFFFFFFFF. -/
theorem end_to_end_counterexample :
    ¬ ((RendererOperation.onDispatch ⟨id, id, id⟩ RendererOperation.Clear
        (Renderer.create 4 4 none (fun _ => 0)).program).2.transformPoint
        ⟨-1, -1, 0, 1⟩ (-1, -1)).2.2 = (0, 3) ∧
    ¬ ((RendererOperation.onDispatch ⟨id, id, id⟩ RendererOperation.Clear
        (Renderer.create 4 4 none (fun _ => 0)).program).2.transformPoint
        ⟨1, 1, 0, 1⟩ (-1, -1)).2.2 = (3, 0) ∧
    (¬ ∃ m, (applyAll ⟨id, id, id⟩
        [RendererOperation.Clear, RendererOperation.Line ⟨-1, -1, 0, 1⟩ ⟨1, 1, 0, 1⟩]
        (Renderer.create 4 4 none (fun _ => 0)).program).buffer.data = some m ∧
      m ((4 : Int) * 3 + 0).toNat = 0xFFFFFFFF) ∧
    (¬ ∃ m, (applyAll ⟨id, id, id⟩
        [RendererOperation.Clear, RendererOperation.Line ⟨-1, -1, 0, 1⟩ ⟨1, 1, 0, 1⟩]
        (Renderer.create 4 4 none (fun _ => 0)).program).buffer.data = some m ∧
      m ((4 : Int) * 0 + 3).toNat = 0xFFFFFFFF) := by
  obtain ⟨h1, h2, m, hm, hcells⟩ := end_to_end_run ⟨id, id, id⟩ none (fun _ => 0)
  refine ⟨?_, ?_, ?_, ?_⟩
  · rw [h1]; decide
  · rw [h2]; decide
  · rintro ⟨m2, hm2, hcell⟩
    rw [hm] at hm2
    have hsame : m = m2 := Option.some.inj hm2
    have h := hcells 0 3 (by decide)
    rw [hsame, hcell] at h
    exact absurd h (by decide)
  · rintro ⟨m2, hm2, hcell⟩
    rw [hm] at hm2
    have hsame : m = m2 := Option.some.inj hm2
    have h := hcells 3 0 (by decide)
    rw [hsame, hcell] at h
    exact absurd h (by decide)
/-! ## Theorems: matrices and projections -/

namespace math

theorem Mat4x4f.ext_m (a b : Mat4x4f) (h : a.m = b.m) : a = b := by
  cases a; cases b; simp only at h; rw [h]

theorem Mat4x4f.IDENTITY_m (k : Nat) (h : k < 16) :
    Mat4x4f.IDENTITY.m ⟨k, h⟩ = if k % 5 = 0 then 1 else 0 := by
  interval_cases k <;> rfl

theorem Mat4x4f.operatorMulAssign_IDENTITY (a : Mat4x4f) :
    a.operatorMulAssign Mat4x4f.IDENTITY = a := by
  apply Mat4x4f.ext_m
  funext i
  rcases i with ⟨n, hn⟩
  interval_cases n <;> simp only [Mat4x4f.operatorMulAssign, Mat4x4f.IDENTITY_m] <;> simp

theorem Mat4x4f.IDENTITY_operatorMulAssign (a : Mat4x4f) :
    Mat4x4f.IDENTITY.operatorMulAssign a = a := by
  apply Mat4x4f.ext_m
  funext i
  rcases i with ⟨n, hn⟩
  interval_cases n <;> simp only [Mat4x4f.operatorMulAssign, Mat4x4f.IDENTITY_m] <;> simp

/-- Entry (row, col) of the product left by operator*= is the usual sum over
k of a(row, k) * b(k, col). -/
theorem Mat4x4f.get_operatorMulAssign (a b : Mat4x4f) (row col : Nat)
    (hr : row < 4) (hc : col < 4) :
    (a.operatorMulAssign b).get row col =
      a.get row 0 * b.get 0 col + a.get row 1 * b.get 1 col +
      a.get row 2 * b.get 2 col + a.get row 3 * b.get 3 col := by
  interval_cases row <;> interval_cases col <;> rfl

theorem Mat4x4f.ofList_get (l : List ℚ) (row col : Nat) (hr : row < 4) (hc : col < 4) :
    (Mat4x4f.ofList l).get row col = l.getD (row + col * 4) 0 := by
  simp [Mat4x4f.get, Mat4x4f.ofList, hr, hc]

/-- The matrix multiplied in last is applied to the vector first. -/
theorem multiply_operatorMulAssign (a b : Mat4x4f) (p : Vector4f) :
    multiply p (a.operatorMulAssign b) = multiply (multiply p b) a := by
  unfold multiply
  simp only [Mat4x4f.get_operatorMulAssign, Nat.lt_add_one, Nat.zero_lt_succ,
    Nat.reduceLT, Vector4f.mk.injEq]
  refine ⟨?_, ?_, ?_, ?_⟩ <;> ring

theorem multiply_translation (x y z w : ℚ) (p : Vector4f) :
    multiply p (Mat4x4f.ofList [1, 0, 0, 0,  0, 1, 0, 0,  0, 0, 1, 0,  x, y, z, w]) =
      ⟨p.x + x * p.w, p.y + y * p.w, p.z + z * p.w, w * p.w⟩ := by
  unfold multiply
  simp [Mat4x4f.ofList_get]

theorem multiply_scaling (x y z w : ℚ) (p : Vector4f) :
    multiply p (Mat4x4f.ofList [x, 0, 0, 0,  0, y, 0, 0,  0, 0, z, 0,  0, 0, 0, w]) =
      ⟨x * p.x, y * p.y, z * p.z, w * p.w⟩ := by
  unfold multiply
  simp [Mat4x4f.ofList_get]

theorem multiply_translate (M : Mat4x4f) (v p : Vector4f) :
    multiply p (translate M v) =
      multiply ⟨p.x + v.x * p.w, p.y + v.y * p.w, p.z + v.z * p.w, v.w * p.w⟩ M := by
  unfold translate
  rw [multiply_operatorMulAssign, multiply_translation]

/-- The matrix built by scale and then translate on the identity applies the
translation to the vector first and the scale after it. -/
theorem multiply_scale4_translate4_IDENTITY (sx sy sz sw tx ty tz tw : ℚ) (p : Vector4f) :
    multiply p (translate4 (scale4 Mat4x4f.IDENTITY sx sy sz sw) tx ty tz tw) =
      ⟨sx * (p.x + tx * p.w), sy * (p.y + ty * p.w), sz * (p.z + tz * p.w),
        sw * (tw * p.w)⟩ := by
  unfold translate4 scale4
  rw [multiply_operatorMulAssign, multiply_operatorMulAssign, multiply_translation,
    multiply_scaling, multiply_IDENTITY]

end math

namespace op

/-- For valid parameters SetOrtho returns 0 and stores a projection that sends
(x, y, z, 1) to sx*(x + tx), sy*(y + ty), sz*(z + tz), 1 with the scale
factors and offsets passed to scale and translate. -/
theorem onDispatch_Ortho_multiply (lm : LibM) (prg : RendererProgram)
    (left right top bottom near far x y z : ℚ)
    (h : ¬ (near ≥ far ∨ top = bottom ∨ right = left)) :
    (RendererOperation.onDispatch lm (.Ortho left right top bottom near far) prg).1 = 0 ∧
    multiply ⟨x, y, z, 1⟩
        (RendererOperation.onDispatch lm (.Ortho left right top bottom near far) prg).2.proj =
      ⟨2 / (right - left) * (x + -(right + left) / (right - left)),
       2 / (top - bottom) * (y + -(top + bottom) / (top - bottom)),
       -2 / (far - near) * (z + (near + far) / (far - near)), 1⟩ := by
  simp only [RendererOperation.onDispatch]
  rw [if_neg h]
  dsimp only
  rw [multiply_scale4_translate4_IDENTITY]
  simp

end op

/-- Claim C26. Projection builders reject invalid input without effect:
SetOrtho with near >= far, top == bottom or right == left returns 1, and
SetPerspective with near >= far, fovy == 0 or ratio <= 0 returns 0; in both
cases the program, its projection matrix included, is left as it was, and
the code returned is not the termination code -1, so the renderer keeps
running. -/
theorem projection_rejects_invalid (lm : LibM) (prg : RendererProgram)
    (left right top bottom near far fovy ratio : ℚ) :
    ((near ≥ far ∨ top = bottom ∨ right = left) →
      RendererOperation.onDispatch lm (.Ortho left right top bottom near far) prg =
        (1, prg)) ∧
    ((near ≥ far ∨ fovy = 0 ∨ ratio ≤ 0) →
      RendererOperation.onDispatch lm (.Perspective fovy near far ratio) prg = (0, prg)) := by
  refine ⟨fun h => ?_, fun h => ?_⟩
  · simp only [RendererOperation.onDispatch]
    rw [if_pos h]
  · simp only [RendererOperation.onDispatch]
    rw [if_pos h]

/-- Claim C27 (the code diverges). SetOrtho(left 0, right 4, bottom 0, top 4,
near 1, far 3) is accepted, and the projection it stores sends the corner
(left, bottom, -near, 1) to (-1/2, -1/2, -1, 1) and the corner (right, top,
-far, 1) to (3/2, 3/2, 1, 1): x = left and y = bottom do not go to -1, and
x = right and y = top do not go to +1. -/
theorem ortho_misplaces_planes (lm : LibM) (prg : RendererProgram) :
    (RendererOperation.onDispatch lm (.Ortho 0 4 4 0 1 3) prg).1 = 0 ∧
    multiply ⟨0, 0, -1, 1⟩
        (RendererOperation.onDispatch lm (.Ortho 0 4 4 0 1 3) prg).2.proj =
      ⟨-1 / 2, -1 / 2, -1, 1⟩ ∧
    multiply ⟨4, 4, -3, 1⟩
        (RendererOperation.onDispatch lm (.Ortho 0 4 4 0 1 3) prg).2.proj =
      ⟨3 / 2, 3 / 2, 1, 1⟩ := by
  have h : ¬ ((1 : ℚ) ≥ 3 ∨ (4 : ℚ) = 0 ∨ (4 : ℚ) = 0) := by norm_num
  refine ⟨(op.onDispatch_Ortho_multiply lm prg 0 4 4 0 1 3 0 0 0 h).1, ?_, ?_⟩
  · rw [(op.onDispatch_Ortho_multiply lm prg 0 4 4 0 1 3 0 0 (-1) h).2]
    norm_num
  · rw [(op.onDispatch_Ortho_multiply lm prg 0 4 4 0 1 3 4 4 (-3) h).2]
    norm_num

/-- Claim C28 (the code diverges). With the matrix identifier 2, which is
neither 0 (modelview) nor 1 (projection), the translate, scale and rotate
commands are not ignored: each applies its transformation to the modelview
matrix. On a new program TranslateMatrix((1,0,0,1), 2) changes the image of
the origin under the modelview from (0,0,0,1) to (1,0,0,1). -/
theorem invalid_matrix_id_changes_modelview (lm : LibM) (prg : RendererProgram)
    (v : Vector4f) (ang : ℚ) (buffer : DisplayBuffer) :
    RendererOperation.onDispatch lm (.MatrixTranslate v 2) prg =
      (0, RendererProgram.mk prg.buffer (translate prg.modelview v) prg.proj prg.viewport
        prg.front_color prg.clear_color) ∧
    RendererOperation.onDispatch lm (.MatrixScale v 2) prg =
      (0, RendererProgram.mk prg.buffer (scale prg.modelview v) prg.proj prg.viewport
        prg.front_color prg.clear_color) ∧
    RendererOperation.onDispatch lm (.MatrixRotate ang 0 2) prg =
      (0, RendererProgram.mk prg.buffer (rotateAroundX lm prg.modelview ang) prg.proj
        prg.viewport prg.front_color prg.clear_color) ∧
    RendererOperation.onDispatch lm (.MatrixRotate ang 1 2) prg =
      (0, RendererProgram.mk prg.buffer (rotateAroundY lm prg.modelview ang) prg.proj
        prg.viewport prg.front_color prg.clear_color) ∧
    RendererOperation.onDispatch lm (.MatrixRotate ang 2 2) prg =
      (0, RendererProgram.mk prg.buffer (rotateAroundZ lm prg.modelview ang) prg.proj
        prg.viewport prg.front_color prg.clear_color) ∧
    multiply ⟨0, 0, 0, 1⟩ (RendererProgram.create buffer).modelview = ⟨0, 0, 0, 1⟩ ∧
    multiply ⟨0, 0, 0, 1⟩
        (RendererOperation.onDispatch lm (.MatrixTranslate ⟨1, 0, 0, 1⟩ 2)
          (RendererProgram.create buffer)).2.modelview = ⟨1, 0, 0, 1⟩ := by
  refine ⟨rfl, rfl, rfl, rfl, rfl, ?_, ?_⟩
  · show multiply ⟨0, 0, 0, 1⟩ Mat4x4f.IDENTITY = ⟨0, 0, 0, 1⟩
    rw [multiply_IDENTITY]
  · show multiply ⟨0, 0, 0, 1⟩ (translate Mat4x4f.IDENTITY ⟨1, 0, 0, 1⟩) = ⟨1, 0, 0, 1⟩
    rw [multiply_translate, multiply_IDENTITY]
    norm_num

/-- Claim C29. TranslateMatrix post-multiplies: for a matrix identifier 0
(modelview) or 1 (projection) naming the target M, and a vector v with
v.w = 1, the command returns 0, leaves every other field of the program as
it was, and replaces M by a matrix M2 such that for every point p,
multiply(p, M2) = multiply((p.x + v.x*p.w, p.y + v.y*p.w, p.z + v.z*p.w, p.w), M). -/
theorem translate_post_multiplies (lm : LibM) (prg : RendererProgram) (v : Vector4f)
    (hw : v.w = 1) :
    (∃ M2, RendererOperation.onDispatch lm (.MatrixTranslate v 0) prg =
        (0, RendererProgram.mk prg.buffer M2 prg.proj prg.viewport
          prg.front_color prg.clear_color) ∧
      ∀ p : Vector4f, multiply p M2 =
        multiply ⟨p.x + v.x * p.w, p.y + v.y * p.w, p.z + v.z * p.w, p.w⟩ prg.modelview) ∧
    (∃ M2, RendererOperation.onDispatch lm (.MatrixTranslate v 1) prg =
        (0, RendererProgram.mk prg.buffer prg.modelview M2 prg.viewport
          prg.front_color prg.clear_color) ∧
      ∀ p : Vector4f, multiply p M2 =
        multiply ⟨p.x + v.x * p.w, p.y + v.y * p.w, p.z + v.z * p.w, p.w⟩ prg.proj) := by
  refine ⟨⟨translate prg.modelview v, rfl, fun p => ?_⟩,
    ⟨translate prg.proj v, rfl, fun p => ?_⟩⟩
  · rw [multiply_translate, hw, one_mul]
  · rw [multiply_translate, hw, one_mul]

theorem translate_post_multiplies_witness :
    (⟨2, 3, 5, 1⟩ : Vector4f).w = 1 ∧
    ((∃ M2, RendererOperation.onDispatch ⟨fun _ => 0, fun _ => 1, fun _ => 0⟩
          (.MatrixTranslate ⟨2, 3, 5, 1⟩ 0)
          (RendererProgram.create (DisplayBuffer.create 4 4 none (fun _ => 0))) =
        (0, RendererProgram.mk (DisplayBuffer.create 4 4 none (fun _ => 0)) M2
          Mat4x4f.IDENTITY (Region2i.create 0 4 0 4)
          RendererProgram.DEFAULT_FRONT_COLOR RendererProgram.DEFAULT_CLEAR_COLOR) ∧
      multiply ⟨1, 1, 1, 1⟩ M2 = ⟨3, 4, 6, 1⟩)) := by
  refine ⟨rfl, ?_⟩
  obtain ⟨M2, h1, h2⟩ := (translate_post_multiplies ⟨fun _ => 0, fun _ => 1, fun _ => 0⟩
    (RendererProgram.create (DisplayBuffer.create 4 4 none (fun _ => 0)))
    ⟨2, 3, 5, 1⟩ rfl).1
  refine ⟨M2, h1, ?_⟩
  rw [h2]
  show multiply _ Mat4x4f.IDENTITY = _
  rw [multiply_IDENTITY]
  norm_num

/-! ## Theorems: the transformed drawing commands -/

namespace RendererProgram

/-- The return code of transformPoint: 1 when w is zero after the two
multiplications; otherwise 2 when the normalized z is outside [-1, 1];
otherwise 0 or 1 as posOf reports the normalized (x, y) inside or not. -/
theorem transformPoint_code (prg : RendererProgram) (p : Vector4f) (rp : Int × Int) :
    (prg.transformPoint p rp).1 =
      if (multiply (multiply p prg.modelview) prg.proj).w = 0 then 1
      else if (multiply (multiply p prg.modelview) prg.proj).normalize.z < -1 ∨
          (multiply (multiply p prg.modelview) prg.proj).normalize.z > 1 then 2
      else if (prg.viewport.posOf
          (multiply (multiply p prg.modelview) prg.proj).normalize.x
          (multiply (multiply p prg.modelview) prg.proj).normalize.y).1 then 0
      else 1 := by
  unfold transformPoint
  dsimp only
  split_ifs <;> rfl

/-- The pixel left in rp by transformPoint when w is not zero: the one posOf
computes from the normalized (x, y), whatever the return code. -/
theorem transformPoint_pixel (prg : RendererProgram) (p : Vector4f) (rp : Int × Int)
    (hw : (multiply (multiply p prg.modelview) prg.proj).w ≠ 0) :
    (prg.transformPoint p rp).2.2 =
      (prg.viewport.posOf
        (multiply (multiply p prg.modelview) prg.proj).normalize.x
        (multiply (multiply p prg.modelview) prg.proj).normalize.y).2 := by
  unfold transformPoint
  dsimp only
  rw [if_neg hw]
  split_ifs <;> rfl

/-- When w is zero after the two multiplications transformPoint returns 1 and
leaves rp as passed. -/
theorem transformPoint_of_w_zero (prg : RendererProgram) (p : Vector4f) (rp : Int × Int)
    (hw : (multiply (multiply p prg.modelview) prg.proj).w = 0) :
    (prg.transformPoint p rp).1 = 1 ∧ (prg.transformPoint p rp).2.2 = rp := by
  unfold transformPoint
  dsimp only
  rw [if_pos hw]
  exact ⟨rfl, rfl⟩

/-- Swapping the endpoints of raw_drawLine changes nothing. -/
theorem raw_drawLine_comm (prg : RendererProgram) (p1 p2 : Int × Int) :
    prg.raw_drawLine p1 p2 = prg.raw_drawLine p2 p1 := by
  rcases p1 with ⟨a, b⟩
  rcases p2 with ⟨c, d⟩
  by_cases heq : (a, b) = (c, d)
  · rw [heq]
  · by_cases hdom : |c - a| > |d - b|
    · have hac : a ≠ c := by
        intro h
        rw [h, sub_self, abs_zero] at hdom
        exact absurd hdom (not_lt.mpr (abs_nonneg _))
      rcases lt_or_gt_of_ne hac with hlt | hgt
      · rw [raw_drawLine_horizontal_eq prg (a, b) (c, d) a b c d (Or.inl ⟨rfl, rfl⟩) hlt hdom,
          raw_drawLine_horizontal_eq prg (c, d) (a, b) a b c d (Or.inr ⟨rfl, rfl⟩) hlt hdom]
      · have hdom2 : |a - c| > |b - d| := by
          rw [abs_sub_comm a c, abs_sub_comm b d]; exact hdom
        rw [raw_drawLine_horizontal_eq prg (a, b) (c, d) c d a b (Or.inr ⟨rfl, rfl⟩) hgt hdom2,
          raw_drawLine_horizontal_eq prg (c, d) (a, b) c d a b (Or.inl ⟨rfl, rfl⟩) hgt hdom2]
    · have hbd : b ≠ d := by
        intro h
        apply heq
        rw [h, sub_self, abs_zero, gt_iff_lt, not_lt, abs_nonpos_iff, sub_eq_zero] at hdom
        rw [h, hdom]
      rcases lt_or_gt_of_ne hbd with hlt | hgt
      · rw [raw_drawLine_vertical_eq prg (a, b) (c, d) a b c d (Or.inl ⟨rfl, rfl⟩) hlt hdom,
          raw_drawLine_vertical_eq prg (c, d) (a, b) a b c d (Or.inr ⟨rfl, rfl⟩) hlt hdom]
      · have hdom2 : ¬ |a - c| > |b - d| := by
          rw [abs_sub_comm a c, abs_sub_comm b d]; exact hdom
        rw [raw_drawLine_vertical_eq prg (a, b) (c, d) c d a b (Or.inr ⟨rfl, rfl⟩) hgt hdom2,
          raw_drawLine_vertical_eq prg (c, d) (a, b) c d a b (Or.inl ⟨rfl, rfl⟩) hgt hdom2]

end RendererProgram

/-- Claim C21. Raw line is symmetric in its endpoints: for every program and
all pixel pairs p1, p2, DrawRawLine(p1, p2) and DrawRawLine(p2, p1) return the
same code and leave the same program, hence the same buffer. -/
theorem raw_line_symmetric (lm : LibM) (prg : RendererProgram) (p1 p2 : Int × Int) :
    RendererOperation.onDispatch lm (.RawLine p1 p2) prg =
      RendererOperation.onDispatch lm (.RawLine p2 p1) prg := by
  simp only [RendererOperation.onDispatch]
  exact RendererProgram.raw_drawLine_comm prg p1 p2

/-- Claim C22. Point draw is skipped on any pipeline failure: if, for the
point PlotPoint is given, w is 0 after the modelview and projection
multiplications, or the normalized z is below -1 or above 1, or posOf reports
the normalized (x, y) as outside, then PlotPoint, with either size flag,
returns 0 (no termination) and leaves the program and its buffer unchanged. -/
theorem point_skipped_on_failure (lm : LibM) (prg : RendererProgram) (point : Vector4f)
    (type : Int)
    (h : (multiply (multiply point prg.modelview) prg.proj).w = 0 ∨
      (multiply (multiply point prg.modelview) prg.proj).normalize.z < -1 ∨
      (multiply (multiply point prg.modelview) prg.proj).normalize.z > 1 ∨
      (prg.viewport.posOf
        (multiply (multiply point prg.modelview) prg.proj).normalize.x
        (multiply (multiply point prg.modelview) prg.proj).normalize.y).1 = false) :
    RendererOperation.onDispatch lm (.Point point type) prg = (0, prg) := by
  have hc : (prg.transformPoint point (-1, -1)).1 ≠ 0 := by
    rw [RendererProgram.transformPoint_code]
    split_ifs with h1 h2 h3
    · decide
    · decide
    · rcases h with h | h | h | h
      · exact absurd h h1
      · exact absurd (Or.inl h) h2
      · exact absurd (Or.inr h) h2
      · rw [h3] at h; exact absurd h (by decide)
    · decide
  simp only [RendererOperation.onDispatch]
  split_ifs
  · unfold RendererProgram.drawBigPoint
    dsimp only
    rw [if_pos hc]
  · unfold RendererProgram.drawPoint
    dsimp only
    rw [if_pos hc]

/-- Claim C24. Hard skip on depth clip: if both endpoints of DrawLine have a
non-zero w after the modelview and projection multiplications and the
normalized z of either one is below -1 or above 1, DrawLine returns 0 and
leaves the program and its buffer unchanged. -/
theorem line_skipped_on_depth_clip (lm : LibM) (prg : RendererProgram)
    (point1 point2 : Vector4f)
    (hw1 : (multiply (multiply point1 prg.modelview) prg.proj).w ≠ 0)
    (hw2 : (multiply (multiply point2 prg.modelview) prg.proj).w ≠ 0)
    (hz : ((multiply (multiply point1 prg.modelview) prg.proj).normalize.z < -1 ∨
        (multiply (multiply point1 prg.modelview) prg.proj).normalize.z > 1) ∨
      ((multiply (multiply point2 prg.modelview) prg.proj).normalize.z < -1 ∨
        (multiply (multiply point2 prg.modelview) prg.proj).normalize.z > 1)) :
    RendererOperation.onDispatch lm (.Line point1 point2) prg = (0, prg) := by
  simp only [RendererOperation.onDispatch]
  unfold RendererProgram.drawLine
  dsimp only
  by_cases h1 : (prg.transformPoint point1 (-1, -1)).1 = 2
  · rw [if_pos h1]
  · rw [if_neg h1]
    have hz1 : ¬ ((multiply (multiply point1 prg.modelview) prg.proj).normalize.z < -1 ∨
        (multiply (multiply point1 prg.modelview) prg.proj).normalize.z > 1) := by
      intro hz1
      apply h1
      rw [RendererProgram.transformPoint_code, if_neg hw1, if_pos hz1]
    have hz2 := hz.resolve_left hz1
    have h2 : (prg.transformPoint point2 (-1, -1)).1 = 2 := by
      rw [RendererProgram.transformPoint_code, if_neg hw2, if_pos hz2]
    rw [if_pos h2]

/-- Claim C25. Soft pass on viewport miss: if both endpoints of DrawLine have
a non-zero w after the modelview and projection multiplications and a
normalized z within [-1, 1], DrawLine does exactly what DrawRawLine does on
the two pixels posOf computes from the normalized (x, y) of the endpoints,
whether or not posOf reports either of them inside the viewport. -/
theorem line_soft_pass (lm : LibM) (prg : RendererProgram) (point1 point2 : Vector4f)
    (hw1 : (multiply (multiply point1 prg.modelview) prg.proj).w ≠ 0)
    (hw2 : (multiply (multiply point2 prg.modelview) prg.proj).w ≠ 0)
    (hz1 : -1 ≤ (multiply (multiply point1 prg.modelview) prg.proj).normalize.z ∧
      (multiply (multiply point1 prg.modelview) prg.proj).normalize.z ≤ 1)
    (hz2 : -1 ≤ (multiply (multiply point2 prg.modelview) prg.proj).normalize.z ∧
      (multiply (multiply point2 prg.modelview) prg.proj).normalize.z ≤ 1) :
    RendererOperation.onDispatch lm (.Line point1 point2) prg =
      RendererOperation.onDispatch lm
        (.RawLine
          (prg.viewport.posOf
            (multiply (multiply point1 prg.modelview) prg.proj).normalize.x
            (multiply (multiply point1 prg.modelview) prg.proj).normalize.y).2
          (prg.viewport.posOf
            (multiply (multiply point2 prg.modelview) prg.proj).normalize.x
            (multiply (multiply point2 prg.modelview) prg.proj).normalize.y).2) prg := by
  have hn1 : ¬ ((multiply (multiply point1 prg.modelview) prg.proj).normalize.z < -1 ∨
      (multiply (multiply point1 prg.modelview) prg.proj).normalize.z > 1) := by
    rintro (h | h) <;> linarith [hz1.1, hz1.2]
  have hn2 : ¬ ((multiply (multiply point2 prg.modelview) prg.proj).normalize.z < -1 ∨
      (multiply (multiply point2 prg.modelview) prg.proj).normalize.z > 1) := by
    rintro (h | h) <;> linarith [hz2.1, hz2.2]
  have h1 : ¬ (prg.transformPoint point1 (-1, -1)).1 = 2 := by
    rw [RendererProgram.transformPoint_code, if_neg hw1, if_neg hn1]
    split_ifs <;> decide
  have h2 : ¬ (prg.transformPoint point2 (-1, -1)).1 = 2 := by
    rw [RendererProgram.transformPoint_code, if_neg hw2, if_neg hn2]
    split_ifs <;> decide
  simp only [RendererOperation.onDispatch]
  unfold RendererProgram.drawLine
  dsimp only
  rw [if_neg h1, if_neg h2, RendererProgram.transformPoint_pixel prg point1 _ hw1,
    RendererProgram.transformPoint_pixel prg point2 _ hw2]

/-- On a new program both matrices are the identity: the two multiplications
of transformPoint leave the point as it is. -/
theorem RendererProgram.create_multiply (buffer : DisplayBuffer) (p : Vector4f) :
    multiply (multiply p (RendererProgram.create buffer).modelview)
      (RendererProgram.create buffer).proj = p := by
  show multiply (multiply p Mat4x4f.IDENTITY) Mat4x4f.IDENTITY = p
  rw [multiply_IDENTITY, multiply_IDENTITY]

theorem point_skipped_on_failure_witness :
    ((multiply (multiply ⟨0, 0, 2, 1⟩
          (RendererProgram.create (DisplayBuffer.create 4 4 none (fun _ => 0))).modelview)
        (RendererProgram.create (DisplayBuffer.create 4 4 none (fun _ => 0))).proj).normalize.z
      > 1) ∧
    RendererOperation.onDispatch ⟨fun _ => 0, fun _ => 1, fun _ => 0⟩
        (.Point ⟨0, 0, 2, 1⟩ 0)
        (RendererProgram.create (DisplayBuffer.create 4 4 none (fun _ => 0))) =
      (0, RendererProgram.create (DisplayBuffer.create 4 4 none (fun _ => 0))) := by
  have hz : (multiply (multiply ⟨0, 0, 2, 1⟩
          (RendererProgram.create (DisplayBuffer.create 4 4 none (fun _ => 0))).modelview)
        (RendererProgram.create (DisplayBuffer.create 4 4 none (fun _ => 0))).proj).normalize.z
      > 1 := by
    rw [RendererProgram.create_multiply]
    norm_num [Vector4f.normalize]
  exact ⟨hz, point_skipped_on_failure _ _ _ 0 (Or.inr (Or.inr (Or.inl hz)))⟩

theorem line_skipped_on_depth_clip_witness :
    ((multiply (multiply ⟨0, 0, 0, 1⟩
          (RendererProgram.create (DisplayBuffer.create 4 4 none (fun _ => 0))).modelview)
        (RendererProgram.create (DisplayBuffer.create 4 4 none (fun _ => 0))).proj).w ≠ 0) ∧
    ((multiply (multiply ⟨0, 0, 2, 1⟩
          (RendererProgram.create (DisplayBuffer.create 4 4 none (fun _ => 0))).modelview)
        (RendererProgram.create (DisplayBuffer.create 4 4 none (fun _ => 0))).proj).w ≠ 0) ∧
    ((multiply (multiply ⟨0, 0, 2, 1⟩
          (RendererProgram.create (DisplayBuffer.create 4 4 none (fun _ => 0))).modelview)
        (RendererProgram.create (DisplayBuffer.create 4 4 none (fun _ => 0))).proj).normalize.z
      > 1) ∧
    RendererOperation.onDispatch ⟨fun _ => 0, fun _ => 1, fun _ => 0⟩
        (.Line ⟨0, 0, 0, 1⟩ ⟨0, 0, 2, 1⟩)
        (RendererProgram.create (DisplayBuffer.create 4 4 none (fun _ => 0))) =
      (0, RendererProgram.create (DisplayBuffer.create 4 4 none (fun _ => 0))) := by
  have hw1 : (multiply (multiply ⟨0, 0, 0, 1⟩
          (RendererProgram.create (DisplayBuffer.create 4 4 none (fun _ => 0))).modelview)
        (RendererProgram.create (DisplayBuffer.create 4 4 none (fun _ => 0))).proj).w ≠ 0 := by
    rw [RendererProgram.create_multiply]
    norm_num
  have hw2 : (multiply (multiply ⟨0, 0, 2, 1⟩
          (RendererProgram.create (DisplayBuffer.create 4 4 none (fun _ => 0))).modelview)
        (RendererProgram.create (DisplayBuffer.create 4 4 none (fun _ => 0))).proj).w ≠ 0 := by
    rw [RendererProgram.create_multiply]
    norm_num
  have hz : (multiply (multiply ⟨0, 0, 2, 1⟩
          (RendererProgram.create (DisplayBuffer.create 4 4 none (fun _ => 0))).modelview)
        (RendererProgram.create (DisplayBuffer.create 4 4 none (fun _ => 0))).proj).normalize.z
      > 1 := by
    rw [RendererProgram.create_multiply]
    norm_num [Vector4f.normalize]
  exact ⟨hw1, hw2, hz,
    line_skipped_on_depth_clip _ _ _ _ hw1 hw2 (Or.inr (Or.inr hz))⟩

theorem line_soft_pass_witness :
    RendererOperation.onDispatch ⟨fun _ => 0, fun _ => 1, fun _ => 0⟩
        (.Line ⟨0, 0, 0, 1⟩ ⟨-1, 0, 1, 1⟩)
        (RendererProgram.create (DisplayBuffer.create 4 4 none (fun _ => 0))) =
      RendererOperation.onDispatch ⟨fun _ => 0, fun _ => 1, fun _ => 0⟩
        (.RawLine (2, 2) (0, 2))
        (RendererProgram.create (DisplayBuffer.create 4 4 none (fun _ => 0))) := by
  have e1 := RendererProgram.create_multiply (DisplayBuffer.create 4 4 none (fun _ => 0))
    ⟨0, 0, 0, 1⟩
  have e2 := RendererProgram.create_multiply (DisplayBuffer.create 4 4 none (fun _ => 0))
    ⟨-1, 0, 1, 1⟩
  have h := line_soft_pass ⟨fun _ => 0, fun _ => 1, fun _ => 0⟩
    (RendererProgram.create (DisplayBuffer.create 4 4 none (fun _ => 0)))
    ⟨0, 0, 0, 1⟩ ⟨-1, 0, 1, 1⟩
    (by rw [e1]; norm_num) (by rw [e2]; norm_num)
    (by rw [e1]; norm_num [Vector4f.normalize])
    (by rw [e2]; norm_num [Vector4f.normalize])
  rw [h, e1, e2]
  have p1 : (RendererProgram.create (DisplayBuffer.create 4 4 none (fun _ => 0))).viewport.posOf
      (Vector4f.normalize ⟨0, 0, 0, 1⟩).x (Vector4f.normalize ⟨0, 0, 0, 1⟩).y = (true, (2, 2)) := by
    show (Region2i.create 0 4 0 4).posOf (0 / 1) (0 / 1) = (true, (2, 2))
    rw [zero_div, Region2i.posOf_origin_full 4 4 (by decide) (by decide)]
    rfl
  have p2 : ((RendererProgram.create (DisplayBuffer.create 4 4 none (fun _ => 0))).viewport.posOf
      (Vector4f.normalize ⟨-1, 0, 1, 1⟩).x (Vector4f.normalize ⟨-1, 0, 1, 1⟩).y).2 = (0, 2) := by
    show ((Region2i.create 0 4 0 4).posOf (-1 / 1) (0 / 1)).2 = (0, 2)
    rw [Region2i.create_eq]
    unfold Region2i.posOf
    norm_num [truncToInt]
  rw [p1, p2]

theorem lineAt_diagonal_from_corner (y : Int) :
    truncToInt (lineAt (-1) (-1) 2 2 y) = y := by
  have e : lineAt (-1) (-1) 2 2 y = ((y : Int) : ℚ) := by
    unfold lineAt
    push_cast
    ring
  rw [e, truncToInt_intCast]

/-- Claim C23 (the code diverges). On a new 4x4 program over a caller buffer
of zeros, DrawLine((0,0,0,0), (0,0,0,1)) is not skipped although the first
endpoint has w == 0: transformPoint returns 1 for it and leaves the pixel at
(-1,-1), the second endpoint goes to the pixel (2,2), and DrawLine does what
DrawRawLine((-1,-1), (2,2)) does, which writes the front color 0xFFFFFFFF to
the pixels (0,0), (1,1) and (2,2) of the buffer. -/
theorem line_with_zero_w_is_drawn (lm : LibM) :
    (RendererProgram.create (DisplayBuffer.create 4 4 (some (fun _ => 0)) (fun _ => 0))).transformPoint
        ⟨0, 0, 0, 0⟩ (-1, -1) = (1, ⟨0, 0, 0, 0⟩, (-1, -1)) ∧
    RendererOperation.onDispatch lm (.Line ⟨0, 0, 0, 0⟩ ⟨0, 0, 0, 1⟩)
        (RendererProgram.create (DisplayBuffer.create 4 4 (some (fun _ => 0)) (fun _ => 0))) =
      RendererOperation.onDispatch lm (.RawLine (-1, -1) (2, 2))
        (RendererProgram.create (DisplayBuffer.create 4 4 (some (fun _ => 0)) (fun _ => 0))) ∧
    (RendererProgram.create
      (DisplayBuffer.create 4 4 (some (fun _ => 0)) (fun _ => 0))).buffer.data =
        some (fun _ => 0) ∧
    ∃ m, (RendererOperation.onDispatch lm (.Line ⟨0, 0, 0, 0⟩ ⟨0, 0, 0, 1⟩)
        (RendererProgram.create
          (DisplayBuffer.create 4 4 (some (fun _ => 0)) (fun _ => 0)))).2.buffer.data = some m ∧
      m 0 = 4294967295 ∧ m 5 = 4294967295 ∧ m 10 = 4294967295 := by
  have hm : (RendererProgram.create
      (DisplayBuffer.create 4 4 (some (fun _ => 0)) (fun _ => 0))).buffer.data =
        some (fun _ => 0) := rfl
  have ht1 : (RendererProgram.create
      (DisplayBuffer.create 4 4 (some (fun _ => 0)) (fun _ => 0))).transformPoint
        ⟨0, 0, 0, 0⟩ (-1, -1) = (1, ⟨0, 0, 0, 0⟩, (-1, -1)) := by
    unfold RendererProgram.transformPoint
    dsimp only
    rw [RendererProgram.create_multiply, if_pos rfl]
  have ht2 : (RendererProgram.create
      (DisplayBuffer.create 4 4 (some (fun _ => 0)) (fun _ => 0))).transformPoint
        ⟨0, 0, 0, 1⟩ (-1, -1) = (0, ⟨0, 0, 0, 1⟩, (2, 2)) := by
    rw [RendererProgram.transformPoint_identity _ _ _ rfl rfl rfl]
    have hv : (RendererProgram.create
        (DisplayBuffer.create 4 4 (some (fun _ => 0)) (fun _ => 0))).viewport =
          Region2i.create 0 4 0 4 := rfl
    rw [hv]
    dsimp only
    rw [Region2i.posOf_origin_full 4 4 (by decide) (by decide)]
    norm_num
  have hline : RendererOperation.onDispatch lm (.Line ⟨0, 0, 0, 0⟩ ⟨0, 0, 0, 1⟩)
        (RendererProgram.create (DisplayBuffer.create 4 4 (some (fun _ => 0)) (fun _ => 0))) =
      RendererOperation.onDispatch lm (.RawLine (-1, -1) (2, 2))
        (RendererProgram.create (DisplayBuffer.create 4 4 (some (fun _ => 0)) (fun _ => 0))) := by
    simp only [RendererOperation.onDispatch]
    unfold RendererProgram.drawLine
    dsimp only
    rw [ht1, ht2]
    rfl
  refine ⟨ht1, hline, hm, ?_⟩
  rw [hline]
  simp only [RendererOperation.onDispatch]
  obtain ⟨_, _, _, _, _, _, _, _, m2, hm2, hcells⟩ :=
    RendererProgram.raw_drawLine_vertical_cells
      (RendererProgram.create (DisplayBuffer.create 4 4 (some (fun _ => 0)) (fun _ => 0)))
      (-1, -1) (2, 2) (-1) (-1) 2 2 (fun _ => 0) hm (Or.inl ⟨rfl, rfl⟩)
      (by decide) (by decide)
  refine ⟨m2, hm2, ?_, ?_, ?_⟩
  · refine (hcells 0).1 ⟨0, by decide, by decide, ?_, ?_⟩
    · rw [lineAt_diagonal_from_corner]
      exact ⟨le_refl _, by decide, le_refl _, by decide⟩
    · rw [lineAt_diagonal_from_corner]
      rfl
  · refine (hcells 5).1 ⟨1, by decide, by decide, ?_, ?_⟩
    · rw [lineAt_diagonal_from_corner]
      exact ⟨by decide, by decide, by decide, by decide⟩
    · rw [lineAt_diagonal_from_corner]
      rfl
  · refine (hcells 10).1 ⟨2, by decide, by decide, ?_, ?_⟩
    · rw [lineAt_diagonal_from_corner]
      exact ⟨by decide, by decide, by decide, by decide⟩
    · rw [lineAt_diagonal_from_corner]
      rfl

/-! ## Theorems: algebra of the transforms, frames of the commands -/

/-- Claim C35. Only Terminate ends the executor loop: Terminate returns -1
from onDispatch, and every other command, whatever its parameters and the
program it runs on, returns a value different from -1. -/
theorem only_terminate_returns_minus_one (lm : LibM) (prg : RendererProgram) :
    (RendererOperation.onDispatch lm RendererOperation.Terminate prg).1 = -1 ∧
    ∀ c : RendererOperation, c ≠ RendererOperation.Terminate →
      (RendererOperation.onDispatch lm c prg).1 ≠ -1 :=
  ⟨rfl, fun c h => onDispatch_code_of_ne_Terminate lm c prg h⟩

namespace RendererProgram

theorem raw_drawLine_checked_eq (prg : RendererProgram) (p1 p2 : Int × Int) :
    prg.raw_drawLine_checked p1 p2 = some (prg.raw_drawLine p1 p2) := by
  unfold raw_drawLine_checked raw_drawLine
  by_cases h : p1 = p2
  · rw [if_pos h, if_pos h]
  · rw [if_neg h, if_neg h]
    dsimp only
    rw [ite_nonneg_eq_abs, ite_nonneg_eq_abs]
    by_cases hdom : |p2.1 - p1.1| > |p2.2 - p1.2|
    · rw [if_pos hdom, if_pos hdom]
      have hdx : ((p2.1 - p1.1 : Int) : ℚ) ≠ 0 := by
        intro h0
        have h1 : p2.1 - p1.1 = 0 := by exact_mod_cast h0
        rw [h1, abs_zero] at hdom
        exact absurd hdom (not_lt.mpr (abs_nonneg _))
      unfold divChecked
      rw [if_neg hdx]
      rfl
    · rw [if_neg hdom, if_neg hdom]
      have hdy : ((p2.2 - p1.2 : Int) : ℚ) ≠ 0 := by
        intro h0
        have h1 : p2.2 - p1.2 = 0 := by exact_mod_cast h0
        apply h
        rw [h1, abs_zero, gt_iff_lt, not_lt, abs_nonpos_iff] at hdom
        exact Prod.ext (by omega) (by omega)
      unfold divChecked
      rw [if_neg hdy]
      rfl

end RendererProgram

/-- Claim C40. The slope division in raw_drawLine is always defined: for
distinct pixels p1 and p2, dx is not zero when |dx| > |dy| and dy is not zero
otherwise, and raw_drawLine with the division checked never fails: on every
program and every pair of pixels it returns the result of raw_drawLine. -/
theorem slope_division_defined (prg : RendererProgram) (p1 p2 : Int × Int) :
    prg.raw_drawLine_checked p1 p2 = some (prg.raw_drawLine p1 p2) ∧
    (p1 ≠ p2 →
      (|p2.1 - p1.1| > |p2.2 - p1.2| → p2.1 - p1.1 ≠ 0) ∧
      (¬ |p2.1 - p1.1| > |p2.2 - p1.2| → p2.2 - p1.2 ≠ 0)) := by
  refine ⟨RendererProgram.raw_drawLine_checked_eq prg p1 p2, fun hne => ⟨?_, ?_⟩⟩
  · intro hdom h0
    rw [h0, abs_zero] at hdom
    exact absurd hdom (not_lt.mpr (abs_nonneg _))
  · intro hdom h0
    apply hne
    rw [h0, abs_zero, gt_iff_lt, not_lt, abs_nonpos_iff] at hdom
    exact Prod.ext (by omega) (by omega)

namespace RendererProgram

theorem raw_clear_frame (prg : RendererProgram) :
    prg.raw_clear.2 = RendererProgram.mk prg.raw_clear.2.buffer prg.modelview prg.proj
      prg.viewport prg.front_color prg.clear_color := rfl

theorem raw_drawPoint_frame (prg : RendererProgram) (p : Int × Int) :
    (prg.raw_drawPoint p).2 = RendererProgram.mk (prg.raw_drawPoint p).2.buffer
      prg.modelview prg.proj prg.viewport prg.front_color prg.clear_color := by
  unfold raw_drawPoint
  dsimp only
  split_ifs <;> rfl

theorem raw_drawBigPoint_frame (prg : RendererProgram) (p : Int × Int) :
    (prg.raw_drawBigPoint p).2 = RendererProgram.mk (prg.raw_drawBigPoint p).2.buffer
      prg.modelview prg.proj prg.viewport prg.front_color prg.clear_color := by
  unfold raw_drawBigPoint
  dsimp only
  split_ifs <;> rfl

theorem raw_drawLine_frame (prg : RendererProgram) (p1 p2 : Int × Int) :
    (prg.raw_drawLine p1 p2).2 = RendererProgram.mk (prg.raw_drawLine p1 p2).2.buffer
      prg.modelview prg.proj prg.viewport prg.front_color prg.clear_color := by
  unfold raw_drawLine
  apply prop_of_ite (fun r : Int × RendererProgram =>
    r.2 = RendererProgram.mk r.2.buffer prg.modelview prg.proj prg.viewport
      prg.front_color prg.clear_color)
  · exact raw_drawPoint_frame _ _
  · dsimp only
    apply prop_of_ite (fun r : Int × RendererProgram =>
      r.2 = RendererProgram.mk r.2.buffer prg.modelview prg.proj prg.viewport
        prg.front_color prg.clear_color) <;> rfl

theorem drawPoint_frame (prg : RendererProgram) (p : Vector4f) :
    (prg.drawPoint p).2 = RendererProgram.mk (prg.drawPoint p).2.buffer
      prg.modelview prg.proj prg.viewport prg.front_color prg.clear_color := by
  unfold drawPoint
  dsimp only
  split_ifs
  · rfl
  · exact raw_drawPoint_frame _ _

theorem drawBigPoint_frame (prg : RendererProgram) (p : Vector4f) :
    (prg.drawBigPoint p).2 = RendererProgram.mk (prg.drawBigPoint p).2.buffer
      prg.modelview prg.proj prg.viewport prg.front_color prg.clear_color := by
  unfold drawBigPoint
  dsimp only
  split_ifs
  · rfl
  · exact raw_drawBigPoint_frame _ _

theorem drawLine_frame (prg : RendererProgram) (p1 p2 : Vector4f) :
    (prg.drawLine p1 p2).2 = RendererProgram.mk (prg.drawLine p1 p2).2.buffer
      prg.modelview prg.proj prg.viewport prg.front_color prg.clear_color := by
  unfold drawLine
  dsimp only
  split_ifs
  · rfl
  · rfl
  · exact raw_drawLine_frame _ _ _

end RendererProgram

/-- Claim C36. Configuration commands never touch pixels and drawing
commands never touch configuration: on every program, ViewPort, MatrixSet,
Ortho, Perspective, MatrixTranslate, MatrixRotate, MatrixScale, ClearColor
and FrontColor leave the display buffer, hence every cell of it, as it was,
and after Clear, RawPoint, RawLine, Point and Line the modelview matrix, the
projection matrix, the viewport, the front color and the clear color are the
ones the program had before. -/
theorem configuration_and_drawing_frames (lm : LibM) (prg : RendererProgram) :
    (∀ viewport, (RendererOperation.onDispatch lm (.ViewPort viewport) prg).2.buffer
      = prg.buffer) ∧
    (∀ mat type, (RendererOperation.onDispatch lm (.MatrixSet mat type) prg).2.buffer
      = prg.buffer) ∧
    (∀ left right top bottom near far,
      (RendererOperation.onDispatch lm (.Ortho left right top bottom near far) prg).2.buffer
        = prg.buffer) ∧
    (∀ fovy near far ratio,
      (RendererOperation.onDispatch lm (.Perspective fovy near far ratio) prg).2.buffer
        = prg.buffer) ∧
    (∀ v matrix, (RendererOperation.onDispatch lm (.MatrixTranslate v matrix) prg).2.buffer
      = prg.buffer) ∧
    (∀ ang axis matrix,
      (RendererOperation.onDispatch lm (.MatrixRotate ang axis matrix) prg).2.buffer
        = prg.buffer) ∧
    (∀ v matrix, (RendererOperation.onDispatch lm (.MatrixScale v matrix) prg).2.buffer
      = prg.buffer) ∧
    (∀ color, (RendererOperation.onDispatch lm (.ClearColor color) prg).2.buffer
      = prg.buffer) ∧
    (∀ color, (RendererOperation.onDispatch lm (.FrontColor color) prg).2.buffer
      = prg.buffer) ∧
    (∀ c : RendererOperation,
      (c = .Clear ∨ (∃ p type, c = .RawPoint p type) ∨ (∃ p1 p2, c = .RawLine p1 p2) ∨
        (∃ p type, c = .Point p type) ∨ (∃ p1 p2, c = .Line p1 p2)) →
      (RendererOperation.onDispatch lm c prg).2.modelview = prg.modelview ∧
      (RendererOperation.onDispatch lm c prg).2.proj = prg.proj ∧
      (RendererOperation.onDispatch lm c prg).2.viewport = prg.viewport ∧
      (RendererOperation.onDispatch lm c prg).2.front_color = prg.front_color ∧
      (RendererOperation.onDispatch lm c prg).2.clear_color = prg.clear_color) := by
  refine ⟨fun _ => rfl, ?_, ?_, ?_, ?_, ?_, ?_, fun _ => rfl, fun _ => rfl, ?_⟩
  · intro mat type
    simp only [RendererOperation.onDispatch]
    split_ifs <;> rfl
  · intro left right top bottom near far
    simp only [RendererOperation.onDispatch]
    split_ifs <;> rfl
  · intro fovy near far ratio
    simp only [RendererOperation.onDispatch]
    split_ifs <;> rfl
  · intro v matrix
    simp only [RendererOperation.onDispatch]
    split_ifs <;> rfl
  · intro ang axis matrix
    simp only [RendererOperation.onDispatch]
    split_ifs <;> rfl
  · intro v matrix
    simp only [RendererOperation.onDispatch]
    split_ifs <;> rfl
  · intro c hc
    have key : (RendererOperation.onDispatch lm c prg).2 =
        RendererProgram.mk (RendererOperation.onDispatch lm c prg).2.buffer
          prg.modelview prg.proj prg.viewport prg.front_color prg.clear_color := by
      rcases hc with rfl | ⟨p, type, rfl⟩ | ⟨p1, p2, rfl⟩ | ⟨p, type, rfl⟩ | ⟨p1, p2, rfl⟩
      · exact RendererProgram.raw_clear_frame prg
      · simp only [RendererOperation.onDispatch]
        split_ifs
        · exact RendererProgram.raw_drawBigPoint_frame _ _
        · exact RendererProgram.raw_drawPoint_frame _ _
      · exact RendererProgram.raw_drawLine_frame _ _ _
      · simp only [RendererOperation.onDispatch]
        split_ifs
        · exact RendererProgram.drawBigPoint_frame _ _
        · exact RendererProgram.drawPoint_frame _ _
      · exact RendererProgram.drawLine_frame _ _ _
    rw [key]
    exact ⟨rfl, rfl, rfl, rfl, rfl⟩

/-! ## Theorems: the viewport mapping and the raw shapes -/

namespace DisplayBuffer

theorem ready_of_data (b : DisplayBuffer) (m : Mem) (hm : b.data = some m) :
    b.operatorNot = false := by
  cases h : b.operatorNot
  · rfl
  · rw [data_none_of_not_ready b h] at hm
    exact absurd hm (by simp)

end DisplayBuffer

/-- Claim C33. Big raw point with its centre inside the buffer: on a ready
W x H buffer, for every centre (x, y) with 0 <= x < W and 0 <= y < H,
drawRawBigPoint returns 0, leaves the rest of the program and the size of the
buffer as they were, and the resulting storage holds the front color at
(x, y) and at each of (x-1, y), (x+1, y), (x, y-1), (x, y+1) that lies inside
the buffer, every other cell being unchanged. -/
theorem big_point_inside_cross (lm : LibM) (prg : RendererProgram) (x y : Int) (m : Mem)
    (hm : prg.buffer.data = some m) (hin : prg.buffer.inside x y) :
    (RendererOperation.onDispatch lm (.RawPoint (x, y) 1) prg).1 = 0 ∧
    (RendererOperation.onDispatch lm (.RawPoint (x, y) 1) prg).2 =
      RendererProgram.mk (RendererOperation.onDispatch lm (.RawPoint (x, y) 1) prg).2.buffer
        prg.modelview prg.proj prg.viewport prg.front_color prg.clear_color ∧
    (RendererOperation.onDispatch lm (.RawPoint (x, y) 1) prg).2.buffer.width
      = prg.buffer.width ∧
    (RendererOperation.onDispatch lm (.RawPoint (x, y) 1) prg).2.buffer.height
      = prg.buffer.height ∧
    ∃ m2, (RendererOperation.onDispatch lm (.RawPoint (x, y) 1) prg).2.buffer.data
        = some m2 ∧
      ∀ i,
        ((∃ p ∈ [(x, y), (x - 1, y), (x + 1, y), (x, y - 1), (x, y + 1)],
            prg.buffer.inside p.1 p.2 ∧ i = prg.buffer.offset p.1 p.2) →
          m2 i = prg.front_color) ∧
        ((¬ ∃ p ∈ [(x, y), (x - 1, y), (x + 1, y), (x, y - 1), (x, y + 1)],
            prg.buffer.inside p.1 p.2 ∧ i = prg.buffer.offset p.1 p.2) →
          m2 i = m i) := by
  have hready := DisplayBuffer.ready_of_data prg.buffer m hm
  have hrun : RendererOperation.onDispatch lm (.RawPoint (x, y) 1) prg =
      prg.raw_drawBigPoint (x, y) := by
    simp only [RendererOperation.onDispatch]
    rfl
  rw [hrun, RendererProgram.raw_drawBigPoint_of_inside prg x y hready hin]
  refine ⟨rfl, rfl, ?_, ?_, ?_⟩
  · exact DisplayBuffer.foldl_plot_width _ _ _
  · exact DisplayBuffer.foldl_plot_height _ _ _
  · exact DisplayBuffer.foldl_plot_cells prg.front_color _ prg.buffer m hm

theorem big_point_inside_cross_witness :
    (RendererOperation.onDispatch ⟨fun _ => 0, fun _ => 1, fun _ => 0⟩ (.RawPoint (0, 3) 1)
      (RendererProgram.create (DisplayBuffer.create 4 4 (some (fun _ => 0)) (fun _ => 0)))).1
      = 0 :=
  (big_point_inside_cross ⟨fun _ => 0, fun _ => 1, fun _ => 0⟩
    (RendererProgram.create (DisplayBuffer.create 4 4 (some (fun _ => 0)) (fun _ => 0)))
    0 3 (fun _ => 0) rfl (by decide)).1

/-! ## Theorems: shape of the raw line between two pixels of the buffer -/

/-- The line through (a1, b1) and (a2, b2) in the form used by raw_drawLine
is b1 plus the slope times the distance from a1. -/
theorem lineAt_eq (a1 b1 a2 b2 t : Int) :
    lineAt a1 b1 a2 b2 t =
      (b1 : ℚ) + ((t : ℚ) - (a1 : ℚ)) * (((b2 : ℚ) - (b1 : ℚ)) / ((a2 : ℚ) - (a1 : ℚ))) := by
  unfold lineAt
  push_cast
  ring

theorem lineAt_left (a1 b1 a2 b2 : Int) : truncToInt (lineAt a1 b1 a2 b2 a1) = b1 := by
  have e : lineAt a1 b1 a2 b2 a1 = ((b1 : Int) : ℚ) := by
    rw [lineAt_eq]
    ring
  rw [e, truncToInt_intCast]

theorem lineAt_right (a1 b1 a2 b2 : Int) (h : a1 < a2) :
    truncToInt (lineAt a1 b1 a2 b2 a2) = b2 := by
  have hd : ((a2 : ℚ) - (a1 : ℚ)) ≠ 0 := by
    have : (a1 : ℚ) < (a2 : ℚ) := by exact_mod_cast h
    linarith
  have e : lineAt a1 b1 a2 b2 a2 = ((b2 : Int) : ℚ) := by
    rw [lineAt_eq]
    field_simp
  rw [e, truncToInt_intCast]

/-- Between a1 and a2 the line stays between b1 and b2. -/
theorem lineAt_between (a1 b1 a2 b2 t : Int) (h : a1 < a2) (ht1 : a1 ≤ t) (ht2 : t ≤ a2) :
    ((min b1 b2 : Int) : ℚ) ≤ lineAt a1 b1 a2 b2 t ∧
    lineAt a1 b1 a2 b2 t ≤ ((max b1 b2 : Int) : ℚ) := by
  have hd : (0 : ℚ) < (a2 : ℚ) - (a1 : ℚ) := by
    have : (a1 : ℚ) < (a2 : ℚ) := by exact_mod_cast h
    linarith
  have hs0 : (0 : ℚ) ≤ ((t : ℚ) - (a1 : ℚ)) / ((a2 : ℚ) - (a1 : ℚ)) := by
    apply div_nonneg _ (le_of_lt hd)
    have : (a1 : ℚ) ≤ (t : ℚ) := by exact_mod_cast ht1
    linarith
  have hs1 : ((t : ℚ) - (a1 : ℚ)) / ((a2 : ℚ) - (a1 : ℚ)) ≤ 1 := by
    rw [div_le_one hd]
    have : (t : ℚ) ≤ (a2 : ℚ) := by exact_mod_cast ht2
    linarith
  have e : lineAt a1 b1 a2 b2 t =
      (b1 : ℚ) + ((t : ℚ) - (a1 : ℚ)) / ((a2 : ℚ) - (a1 : ℚ)) * ((b2 : ℚ) - (b1 : ℚ)) := by
    rw [lineAt_eq]
    ring
  rw [e]
  rcases le_total b1 b2 with hb | hb
  · have hbq : (b1 : ℚ) ≤ (b2 : ℚ) := by exact_mod_cast hb
    rw [min_eq_left hb, max_eq_right hb]
    constructor
    · nlinarith [mul_nonneg hs0 (sub_nonneg.mpr hbq)]
    · nlinarith [mul_nonneg (sub_nonneg.mpr hs1) (sub_nonneg.mpr hbq)]
  · have hbq : (b2 : ℚ) ≤ (b1 : ℚ) := by exact_mod_cast hb
    rw [min_eq_right hb, max_eq_left hb]
    constructor
    · nlinarith [mul_nonneg (sub_nonneg.mpr hs1) (sub_nonneg.mpr hbq)]
    · nlinarith [mul_nonneg hs0 (sub_nonneg.mpr hbq)]

/-- Between a1 and a2, with b1 and b2 not negative, the truncated line stays
between b1 and b2. -/
theorem truncToInt_lineAt_between (a1 b1 a2 b2 t : Int) (h : a1 < a2)
    (hb1 : 0 ≤ b1) (hb2 : 0 ≤ b2) (ht1 : a1 ≤ t) (ht2 : t ≤ a2) :
    min b1 b2 ≤ truncToInt (lineAt a1 b1 a2 b2 t) ∧
    truncToInt (lineAt a1 b1 a2 b2 t) ≤ max b1 b2 := by
  obtain ⟨hlo, hhi⟩ := lineAt_between a1 b1 a2 b2 t h ht1 ht2
  have hmin : (0 : ℚ) ≤ ((min b1 b2 : Int) : ℚ) := by
    have : (0 : Int) ≤ min b1 b2 := le_min hb1 hb2
    exact_mod_cast this
  rw [truncToInt_of_nonneg _ (le_trans hmin hlo)]
  exact ⟨Int.le_floor.mpr hlo, Int.floor_le_iff.mpr (lt_of_le_of_lt hhi (by linarith))⟩

/-- With a slope of absolute value at most 1 and b1, b2 not negative, two
consecutive truncated values of the line differ by at most 1. -/
theorem truncToInt_lineAt_step (a1 b1 a2 b2 t : Int) (h : a1 < a2)
    (hslope : |b2 - b1| ≤ a2 - a1)
    (hb1 : 0 ≤ b1) (hb2 : 0 ≤ b2) (ht1 : a1 ≤ t) (ht2 : t < a2) :
    |truncToInt (lineAt a1 b1 a2 b2 (t + 1)) - truncToInt (lineAt a1 b1 a2 b2 t)| ≤ 1 := by
  have hd : (0 : ℚ) < (a2 : ℚ) - (a1 : ℚ) := by
    have : (a1 : ℚ) < (a2 : ℚ) := by exact_mod_cast h
    linarith
  have hmin : (0 : ℚ) ≤ ((min b1 b2 : Int) : ℚ) := by
    have : (0 : Int) ≤ min b1 b2 := le_min hb1 hb2
    exact_mod_cast this
  have h0 := (lineAt_between a1 b1 a2 b2 t h ht1 (le_of_lt ht2)).1
  have h1 := (lineAt_between a1 b1 a2 b2 (t + 1) h (by omega) (by omega)).1
  have hsq : |(b2 : ℚ) - (b1 : ℚ)| ≤ (a2 : ℚ) - (a1 : ℚ) := by
    have : ((|b2 - b1| : Int) : ℚ) ≤ ((a2 - a1 : Int) : ℚ) := by exact_mod_cast hslope
    push_cast at this
    exact this
  have hm : |((b2 : ℚ) - (b1 : ℚ)) / ((a2 : ℚ) - (a1 : ℚ))| ≤ 1 := by
    rw [abs_div, abs_of_pos hd, div_le_one hd]
    exact hsq
  have hstep : lineAt a1 b1 a2 b2 (t + 1) =
      lineAt a1 b1 a2 b2 t + ((b2 : ℚ) - (b1 : ℚ)) / ((a2 : ℚ) - (a1 : ℚ)) := by
    rw [lineAt_eq, lineAt_eq]
    push_cast
    ring
  rw [truncToInt_of_nonneg _ (le_trans hmin h0), truncToInt_of_nonneg _ (le_trans hmin h1),
    hstep]
  obtain ⟨hm1, hm2⟩ := abs_le.mp hm
  rw [abs_le]
  constructor
  · have : ⌊lineAt a1 b1 a2 b2 t⌋ - 1 ≤
        ⌊lineAt a1 b1 a2 b2 t + ((b2 : ℚ) - (b1 : ℚ)) / ((a2 : ℚ) - (a1 : ℚ))⌋ := by
      rw [← Int.floor_sub_one]
      exact Int.floor_le_floor (by linarith)
    omega
  · have : ⌊lineAt a1 b1 a2 b2 t + ((b2 : ℚ) - (b1 : ℚ)) / ((a2 : ℚ) - (a1 : ℚ))⌋ ≤
        ⌊lineAt a1 b1 a2 b2 t⌋ + 1 := by
      rw [← Int.floor_add_one]
      exact Int.floor_le_floor (by linarith)
    omega

namespace DisplayBuffer

/-- Two pixels inside the buffer with the same offset are the same pixel. -/
theorem offset_inj (b : DisplayBuffer) (x y x2 y2 : Int)
    (h1 : b.inside x y) (h2 : b.inside x2 y2) (h : b.offset x y = b.offset x2 y2) :
    x = x2 ∧ y = y2 := by
  unfold inside at h1 h2
  unfold offset at h
  obtain ⟨hx0, hxw, hy0, hyh⟩ := h1
  obtain ⟨hx0b, hxwb, hy0b, hyhb⟩ := h2
  have hw : 0 < b.width := by omega
  have e1 : 0 ≤ b.width * y + x := by positivity
  have e2 : 0 ≤ b.width * y2 + x2 := by positivity
  have e : b.width * y + x = b.width * y2 + x2 := by
    have := congrArg (fun n : Nat => (n : Int)) h
    simp only [Int.toNat_of_nonneg e1, Int.toNat_of_nonneg e2] at this
    exact this
  have hy : y = y2 := by
    rcases lt_trichotomy y y2 with hlt | heq | hgt
    · exfalso
      have : b.width * (y + 1) ≤ b.width * y2 := by
        apply mul_le_mul_of_nonneg_left _ (le_of_lt hw)
        omega
      nlinarith
    · exact heq
    · exfalso
      have : b.width * (y2 + 1) ≤ b.width * y := by
        apply mul_le_mul_of_nonneg_left _ (le_of_lt hw)
        omega
      nlinarith
  subst hy
  exact ⟨by omega, rfl⟩

end DisplayBuffer

namespace RendererProgram

/-- Two distinct pixels can be named (x1, y1), (x2, y2) so that x1 < x2 when
|dx| > |dy| and y1 < y2 otherwise. -/
theorem name_endpoints (p1 p2 : Int × Int) (hne : p1 ≠ p2) :
    ∃ x1 y1 x2 y2 : Int,
      ((p1 = (x1, y1) ∧ p2 = (x2, y2)) ∨ (p1 = (x2, y2) ∧ p2 = (x1, y1))) ∧
      ((x1 < x2 ∧ |x2 - x1| > |y2 - y1|) ∨ (y1 < y2 ∧ ¬ |x2 - x1| > |y2 - y1|)) := by
  rcases p1 with ⟨a, b⟩
  rcases p2 with ⟨c, d⟩
  by_cases hdom : |c - a| > |d - b|
  · have hac : a ≠ c := by
      intro h
      rw [h, sub_self, abs_zero] at hdom
      exact absurd hdom (not_lt.mpr (abs_nonneg _))
    rcases lt_or_gt_of_ne hac with hlt | hgt
    · exact ⟨a, b, c, d, Or.inl ⟨rfl, rfl⟩, Or.inl ⟨hlt, hdom⟩⟩
    · refine ⟨c, d, a, b, Or.inr ⟨rfl, rfl⟩, Or.inl ⟨hgt, ?_⟩⟩
      rw [abs_sub_comm a c, abs_sub_comm b d]
      exact hdom
  · have hbd : b ≠ d := by
      intro h
      apply hne
      rw [h, sub_self, abs_zero, gt_iff_lt, not_lt, abs_nonpos_iff, sub_eq_zero] at hdom
      rw [h, hdom]
    rcases lt_or_gt_of_ne hbd with hlt | hgt
    · exact ⟨a, b, c, d, Or.inl ⟨rfl, rfl⟩, Or.inr ⟨hlt, hdom⟩⟩
    · refine ⟨c, d, a, b, Or.inr ⟨rfl, rfl⟩, Or.inr ⟨hgt, ?_⟩⟩
      rw [abs_sub_comm a c, abs_sub_comm b d]
      exact hdom

end RendererProgram

/-! ## Theorems: binary32 rounding -/

theorem roundHalfEven_intCast (n : Int) : roundHalfEven (n : ℚ) = n := by
  unfold roundHalfEven
  simp

theorem roundHalfEven_eq_of_near (q : ℚ) (n : Int) (h1 : (n : ℚ) - 1 / 2 < q)
    (h2 : q < (n : ℚ) + 1 / 2) : roundHalfEven q = n := by
  unfold roundHalfEven
  have hf1 : (⌊q⌋ : ℚ) ≤ q := Int.floor_le q
  have hf2 : q < (⌊q⌋ : ℚ) + 1 := Int.lt_floor_add_one q
  split_ifs with ha hb hc
  · have h3 : (n : ℚ) - 1 < (⌊q⌋ : ℚ) := by linarith
    have h4 : (⌊q⌋ : ℚ) < (n : ℚ) + 1 := by linarith
    have h5 : n - 1 < ⌊q⌋ := by exact_mod_cast h3
    have h6 : ⌊q⌋ < n + 1 := by exact_mod_cast h4
    omega
  · have h3 : (n : ℚ) - 1 < (⌊q⌋ : ℚ) + 1 := by linarith
    have h4 : (⌊q⌋ : ℚ) + 1 < (n : ℚ) + 1 := by linarith
    have h5 : n - 1 < ⌊q⌋ + 1 := by exact_mod_cast h3
    have h6 : ⌊q⌋ + 1 < n + 1 := by exact_mod_cast h4
    omega
  · exfalso
    have he : q - (⌊q⌋ : ℚ) = 1 / 2 := le_antisymm (not_lt.mp hb) (not_lt.mp ha)
    have h3 : (n : ℚ) - 1 < (⌊q⌋ : ℚ) := by linarith
    have h4 : (⌊q⌋ : ℚ) < (n : ℚ) := by linarith
    have h5 : n - 1 < ⌊q⌋ := by exact_mod_cast h3
    have h6 : ⌊q⌋ < n := by exact_mod_cast h4
    omega
  · exfalso
    have he : q - (⌊q⌋ : ℚ) = 1 / 2 := le_antisymm (not_lt.mp hb) (not_lt.mp ha)
    have h3 : (n : ℚ) - 1 < (⌊q⌋ : ℚ) := by linarith
    have h4 : (⌊q⌋ : ℚ) < (n : ℚ) := by linarith
    have h5 : n - 1 < ⌊q⌋ := by exact_mod_cast h3
    have h6 : ⌊q⌋ < n := by exact_mod_cast h4
    omega

/-- A tie: q is halfway between the odd k and the even k + 1, or between the
even k and the odd k + 1; the even neighbour is chosen. -/
theorem roundHalfEven_tie (k : Int) :
    roundHalfEven ((k : ℚ) + 1 / 2) = if k % 2 = 0 then k else k + 1 := by
  have hf : ⌊(k : ℚ) + 1 / 2⌋ = k := by
    rw [Int.floor_eq_iff]
    constructor <;> linarith
  unfold roundHalfEven
  rw [hf]
  have h1 : ¬ ((k : ℚ) + 1 / 2 - (k : ℚ) < 1 / 2) := by
    rw [add_sub_cancel_left]; exact lt_irrefl _
  have h2 : ¬ ((1 / 2 : ℚ) < (k : ℚ) + 1 / 2 - (k : ℚ)) := by
    rw [add_sub_cancel_left]; exact lt_irrefl _
  rw [if_neg h1, if_neg h2]

theorem roundHalfEven_error (q : ℚ) : |(roundHalfEven q : ℚ) - q| ≤ 1 / 2 := by
  unfold roundHalfEven
  have hf1 : (⌊q⌋ : ℚ) ≤ q := Int.floor_le q
  have hf2 : q < (⌊q⌋ : ℚ) + 1 := Int.lt_floor_add_one q
  rw [abs_le]
  split_ifs with ha hb hc
  · constructor <;> linarith
  · push_cast; constructor <;> linarith
  · have hb2 := not_lt.mp hb
    constructor <;> linarith
  · have ha2 := not_lt.mp ha
    push_cast; constructor <;> linarith

theorem roundHalfEven_mono (s t : ℚ) (h : s ≤ t) : roundHalfEven s ≤ roundHalfEven t := by
  have hfl : ⌊s⌋ ≤ ⌊t⌋ := Int.floor_le_floor h
  have hs1 : roundHalfEven s ≤ ⌊s⌋ + 1 := by
    unfold roundHalfEven; split_ifs <;> omega
  have ht1 : ⌊t⌋ ≤ roundHalfEven t := by
    unfold roundHalfEven; split_ifs <;> omega
  rcases lt_or_eq_of_le hfl with hlt | heq
  · omega
  · have hfr : s - (⌊s⌋ : ℚ) ≤ t - (⌊t⌋ : ℚ) := by rw [heq]; linarith
    unfold roundHalfEven
    rw [heq]
    by_cases hs : s - (⌊t⌋ : ℚ) < 1 / 2
    · have hs2 : s - ((⌊s⌋ : Int) : ℚ) < 1 / 2 := by rw [heq]; exact hs
      rw [heq] at hs2
      rw [if_pos hs]
      split_ifs <;> omega
    · rw [if_neg hs]
      by_cases hs3 : 1 / 2 < s - (⌊t⌋ : ℚ)
      · have ht3 : 1 / 2 < t - (⌊t⌋ : ℚ) := by rw [heq] at hfr; linarith
        have ht4 : ¬ (t - (⌊t⌋ : ℚ) < 1 / 2) := by linarith
        rw [if_pos hs3, if_neg ht4, if_pos ht3]
      · rw [if_neg hs3]
        have hse : s - (⌊t⌋ : ℚ) = 1 / 2 := le_antisymm (not_lt.mp hs3) (not_lt.mp hs)
        have ht4 : ¬ (t - (⌊t⌋ : ℚ) < 1 / 2) := by rw [heq] at hfr; linarith
        rw [if_neg ht4]
        split_ifs <;> omega

theorem roundHalfEven_neg (q : ℚ) : roundHalfEven (-q) = - roundHalfEven q := by
  by_cases hint : (⌊q⌋ : ℚ) = q
  · rw [← hint, ← Int.cast_neg, roundHalfEven_intCast, roundHalfEven_intCast]
  · have hf1 : (⌊q⌋ : ℚ) < q := lt_of_le_of_ne (Int.floor_le q) hint
    have hf2 : q < (⌊q⌋ : ℚ) + 1 := Int.lt_floor_add_one q
    have hfn : ⌊-q⌋ = -⌊q⌋ - 1 := by
      rw [Int.floor_eq_iff]
      push_cast
      constructor <;> linarith
    unfold roundHalfEven
    rw [hfn]
    push_cast
    by_cases h1 : q - (⌊q⌋ : ℚ) < 1 / 2
    · have h2 : ¬ (-q - (-(⌊q⌋ : ℚ) - 1) < 1 / 2) := by linarith
      have h3 : (1 / 2 : ℚ) < -q - (-(⌊q⌋ : ℚ) - 1) := by linarith
      rw [if_pos h1, if_neg h2, if_pos h3]
      ring
    · rw [if_neg h1]
      by_cases h4 : 1 / 2 < q - (⌊q⌋ : ℚ)
      · have h5 : -q - (-(⌊q⌋ : ℚ) - 1) < 1 / 2 := by linarith
        rw [if_pos h4, if_pos h5]
        ring
      · have he : q - (⌊q⌋ : ℚ) = 1 / 2 := le_antisymm (not_lt.mp h4) (not_lt.mp h1)
        have h6 : ¬ (-q - (-(⌊q⌋ : ℚ) - 1) < 1 / 2) := by linarith
        have h7 : ¬ ((1 / 2 : ℚ) < -q - (-(⌊q⌋ : ℚ) - 1)) := by linarith
        rw [if_neg h4, if_neg h6, if_neg h7]
        split_ifs <;> omega

theorem roundHalfEven_nonneg (q : ℚ) (h : 0 ≤ q) : 0 ≤ roundHalfEven q := by
  have := roundHalfEven_mono 0 q h
  have h0 : roundHalfEven (0 : ℚ) = 0 := by
    have := roundHalfEven_intCast 0
    simpa using this
  omega

namespace F32

theorem ulp_pos (q : ℚ) : 0 < ulp q := by
  unfold ulp
  positivity

theorem exponent_neg (q : ℚ) : exponent (-q) = exponent q := by
  unfold exponent
  rw [abs_neg]

theorem ulp_neg (q : ℚ) : ulp (-q) = ulp q := by
  unfold ulp
  rw [exponent_neg]

theorem rnd_neg (q : ℚ) : rnd (-q) = - rnd q := by
  unfold rnd
  rw [ulp_neg, neg_div, roundHalfEven_neg]
  push_cast
  ring

theorem rnd_zero : rnd 0 = 0 := by
  unfold rnd
  rw [zero_div]
  have := roundHalfEven_intCast 0
  simp only [Int.cast_zero] at this
  rw [this]
  simp

theorem rnd_nonneg (q : ℚ) (h : 0 ≤ q) : 0 ≤ rnd q := by
  unfold rnd
  have h1 : 0 ≤ roundHalfEven (q / ulp q) :=
    roundHalfEven_nonneg _ (div_nonneg h (le_of_lt (ulp_pos q)))
  have h2 : (0 : ℚ) ≤ (roundHalfEven (q / ulp q) : ℚ) := by exact_mod_cast h1
  exact mul_nonneg h2 (le_of_lt (ulp_pos q))

/-- The exponent of a non-zero q below 2^k is below k. -/
theorem exponent_lt (q : ℚ) (k : Int) (hq : q ≠ 0) (hk : -126 < k) (h : |q| < (2 : ℚ) ^ k) :
    exponent q < k := by
  unfold exponent
  have hpos : 0 < |q| := abs_pos.mpr hq
  have : Int.log 2 |q| < k := (Int.lt_zpow_iff_log_lt (by norm_num) hpos).mp (by exact_mod_cast h)
  exact max_lt this hk

theorem exponent_eq (q : ℚ) (e : Int) (he : -126 ≤ e)
    (hlo : (2 : ℚ) ^ e ≤ |q|) (hhi : |q| < (2 : ℚ) ^ (e + 1)) : exponent q = e := by
  have hpos : 0 < |q| := lt_of_lt_of_le (by positivity) hlo
  unfold exponent
  have h1 : Int.log 2 |q| < e + 1 :=
    (Int.lt_zpow_iff_log_lt (by norm_num) hpos).mp (by exact_mod_cast hhi)
  have h2 : e ≤ Int.log 2 |q| :=
    (Int.zpow_le_iff_le_log (by norm_num) hpos).mp (by exact_mod_cast hlo)
  rw [max_eq_left (by omega)]
  omega

/-- A value that is a multiple of its own spacing is a binary32 value. -/
theorem rnd_of_multiple (q : ℚ) (k : Int) (h : q = (k : ℚ) * ulp q) : rnd q = q := by
  unfold rnd
  have hu := ulp_pos q
  have : q / ulp q = (k : ℚ) := by
    rw [div_eq_iff (ne_of_gt hu)]
    exact h
  rw [this, roundHalfEven_intCast]
  exact h.symm

/-- Every n * 2^j with |n| <= 2^24 and j >= -149 is a binary32 value. -/
theorem rnd_of_rep (q : ℚ) (n j : Int) (hn : |n| ≤ 2 ^ 24) (hj : -149 ≤ j)
    (hq : q = (n : ℚ) * (2 : ℚ) ^ j) : rnd q = q := by
  by_cases hn0 : n = 0
  · rw [hq, hn0]
    simp only [Int.cast_zero, zero_mul]
    exact rnd_zero
  have hq0 : q ≠ 0 := by
    rw [hq]
    exact mul_ne_zero (by exact_mod_cast hn0) (by positivity)
  have habs : |q| = (|n| : ℚ) * (2 : ℚ) ^ j := by
    rw [hq, abs_mul, abs_of_pos (by positivity : (0 : ℚ) < (2 : ℚ) ^ j)]
  rcases lt_or_eq_of_le hn with hlt | heq
  · -- |n| < 2^24
    have hnq : (|n| : ℚ) < (2 : ℚ) ^ (24 : ℤ) := by
      have : ((|n| : Int) : ℚ) < ((2 ^ 24 : Int) : ℚ) := by exact_mod_cast hlt
      push_cast at this
      rw [zpow_ofNat]
      exact this
    have hlt2 : |q| < (2 : ℚ) ^ (24 + j) := by
      rw [habs, zpow_add₀ (by norm_num : (2 : ℚ) ≠ 0)]
      exact mul_lt_mul_of_pos_right hnq (by positivity)
    have he : exponent q < 24 + j := exponent_lt q _ hq0 (by omega) hlt2
    have hd : 0 ≤ 23 + j - exponent q := by omega
    apply rnd_of_multiple q (n * 2 ^ (23 + j - exponent q).toNat)
    unfold ulp
    push_cast
    rw [mul_assoc, ← zpow_natCast, ← zpow_add₀ (by norm_num : (2 : ℚ) ≠ 0),
      Int.toNat_of_nonneg hd, hq]
    congr 2
    ring
  · -- |n| = 2^24
    have hnq : (|n| : ℚ) = (2 : ℚ) ^ (24 : ℤ) := by
      have : ((|n| : Int) : ℚ) = ((2 ^ 24 : Int) : ℚ) := by exact_mod_cast heq
      push_cast at this
      rw [zpow_ofNat]
      exact this
    have hqa : |q| = (2 : ℚ) ^ (24 + j) := by
      rw [habs, hnq, ← zpow_add₀ (by norm_num : (2 : ℚ) ≠ 0)]
    have he : exponent q = 24 + j := by
      apply exponent_eq q _ (by omega)
      · rw [hqa]
      · rw [hqa]
        apply zpow_lt_zpow_right₀ (by norm_num)
        omega
    have h2 : (2 : Int) ∣ n := by
      rcases abs_choice n with h | h
      · rw [h] at heq; rw [heq]; norm_num
      · rw [h] at heq
        have : n = -(2 ^ 24) := by omega
        rw [this]; norm_num
    obtain ⟨c, hc⟩ := h2
    apply rnd_of_multiple q c
    unfold ulp
    rw [he, hq, hc]
    push_cast
    have : (2 : ℚ) ^ (24 + j - 23) = 2 * (2 : ℚ) ^ j := by
      rw [show 24 + j - 23 = 1 + j by ring, zpow_add₀ (by norm_num : (2 : ℚ) ≠ 0), zpow_one]
    rw [this]
    ring

theorem rnd_intCast (n : Int) (hn : |n| ≤ 2 ^ 24) : rnd (n : ℚ) = n :=
  rnd_of_rep _ n 0 hn (by norm_num) (by simp)

end F32

namespace F32

/-- The rounding error is at most half the spacing. -/
theorem rnd_error_ulp (q : ℚ) : |rnd q - q| ≤ ulp q / 2 := by
  have hu := ulp_pos q
  have h := roundHalfEven_error (q / ulp q)
  unfold rnd
  have e : (roundHalfEven (q / ulp q) : ℚ) * ulp q - q =
      ((roundHalfEven (q / ulp q) : ℚ) - q / ulp q) * ulp q := by
    field_simp
  rw [e, abs_mul, abs_of_pos hu]
  calc |(roundHalfEven (q / ulp q) : ℚ) - q / ulp q| * ulp q
      ≤ 1 / 2 * ulp q := mul_le_mul_of_nonneg_right h (le_of_lt hu)
    _ = ulp q / 2 := by ring

/-- For |q| < 2^k, k > -126, the rounding error is at most 2^(k-25). -/
theorem rnd_error (q : ℚ) (k : Int) (hk : -126 < k) (h : |q| < (2 : ℚ) ^ k) :
    |rnd q - q| ≤ (2 : ℚ) ^ (k - 25) := by
  by_cases hq : q = 0
  · rw [hq, rnd_zero, sub_zero, abs_zero]
    positivity
  have he := exponent_lt q k hq hk h
  have h1 := rnd_error_ulp q
  have h2 : ulp q / 2 ≤ (2 : ℚ) ^ (k - 25) := by
    unfold ulp
    have : (2 : ℚ) ^ (exponent q - 23) ≤ (2 : ℚ) ^ (k - 24) :=
      zpow_le_zpow_right₀ (by norm_num) (by omega)
    have e2 : (2 : ℚ) ^ (k - 24) = 2 * (2 : ℚ) ^ (k - 25) := by
      rw [show k - 24 = 1 + (k - 25) by ring, zpow_add₀ (by norm_num : (2 : ℚ) ≠ 0), zpow_one]
    linarith
  linarith

/-- Evaluation of rnd at a positive value: q lies in the binade of exponent e
and is strictly nearer to n * 2^(e-23) than to the neighbouring multiples. -/
theorem rnd_eq_of_near (q u : ℚ) (e n : Int) (he : -126 ≤ e)
    (hlo : (2 : ℚ) ^ e ≤ q) (hhi : q < (2 : ℚ) ^ (e + 1))
    (hu : u = (2 : ℚ) ^ (e - 23))
    (h1 : ((n : ℚ) - 1 / 2) * u < q) (h2 : q < ((n : ℚ) + 1 / 2) * u) :
    rnd q = (n : ℚ) * u := by
  have hq : 0 < q := lt_of_lt_of_le (by positivity) hlo
  have hexp : exponent q = e := by
    apply exponent_eq q e he
    · rw [abs_of_pos hq]; exact hlo
    · rw [abs_of_pos hq]; exact hhi
  have hulp : ulp q = u := by unfold ulp; rw [hexp, hu]
  have hup : 0 < u := by rw [hu]; positivity
  unfold rnd
  rw [hulp, roundHalfEven_eq_of_near (q / u) n]
  · rw [lt_div_iff₀ hup]; exact h1
  · rw [div_lt_iff₀ hup]; exact h2

/-- Evaluation of rnd at a tie: q is halfway between k * 2^(e-23) and the
next multiple. -/
theorem rnd_eq_of_tie (q u : ℚ) (e k : Int) (he : -126 ≤ e)
    (hlo : (2 : ℚ) ^ e ≤ q) (hhi : q < (2 : ℚ) ^ (e + 1))
    (hu : u = (2 : ℚ) ^ (e - 23))
    (h : q = ((k : ℚ) + 1 / 2) * u) :
    rnd q = ((if k % 2 = 0 then k else k + 1 : Int) : ℚ) * u := by
  have hq : 0 < q := lt_of_lt_of_le (by positivity) hlo
  have hexp : exponent q = e := by
    apply exponent_eq q e he
    · rw [abs_of_pos hq]; exact hlo
    · rw [abs_of_pos hq]; exact hhi
  have hulp : ulp q = u := by unfold ulp; rw [hexp, hu]
  have hup : 0 < u := by rw [hu]; positivity
  unfold rnd
  rw [hulp]
  have : q / u = (k : ℚ) + 1 / 2 := by
    rw [div_eq_iff (ne_of_gt hup)]; exact h
  rw [this, roundHalfEven_tie]

end F32

/-- Conversion to int of two values less than 1 apart: the results are at
most 1 apart. -/
theorem truncToInt_sub_le (a b : ℚ) (h : |a - b| < 1) :
    |truncToInt a - truncToInt b| ≤ 1 := by
  have key : ∀ c d : ℚ, c ≤ d → d < c + 1 → truncToInt d - truncToInt c ≤ 1 ∧
      0 ≤ truncToInt d - truncToInt c := by
    intro c d hcd hd
    rcases le_or_lt 0 c with hc | hc
    · rw [truncToInt_of_nonneg c hc, truncToInt_of_nonneg d (le_trans hc hcd)]
      have h1 : ⌊d⌋ ≤ ⌊c + 1⌋ := Int.floor_le_floor (le_of_lt hd)
      rw [Int.floor_add_one] at h1
      have h2 : ⌊c⌋ ≤ ⌊d⌋ := Int.floor_le_floor hcd
      constructor <;> omega
    · have hneg : ∀ t : ℚ, t ≤ 0 → truncToInt t = -⌊-t⌋ := by
        intro t ht
        have : truncToInt t = -truncToInt (-t) := by
          unfold truncToInt
          simp [Int.neg_tdiv]
        rw [this, truncToInt_of_nonneg (-t) (by linarith)]
      rcases le_or_lt d 0 with hd0 | hd0
      · rw [hneg c (le_of_lt hc), hneg d hd0]
        have h1 : ⌊-d⌋ ≤ ⌊-c⌋ := Int.floor_le_floor (by linarith)
        have h2 : ⌊-c⌋ ≤ ⌊-d + 1⌋ := Int.floor_le_floor (by linarith)
        rw [Int.floor_add_one] at h2
        constructor <;> omega
      · rw [hneg c (le_of_lt hc), truncToInt_of_nonneg d (le_of_lt hd0)]
        have h1 : ⌊d⌋ = 0 := by
          rw [Int.floor_eq_iff]
          constructor
          · exact_mod_cast le_of_lt hd0
          · push_cast; linarith
        have h2 : ⌊-c⌋ = 0 := by
          rw [Int.floor_eq_iff]
          constructor
          · push_cast; linarith
          · push_cast; linarith
        rw [h1, h2]
        constructor <;> omega
  obtain ⟨h1, h2⟩ := abs_lt.mp h
  rw [abs_le]
  rcases le_total a b with hab | hab
  · have := key a b hab (by linarith)
    constructor <;> omega
  · have := key b a hab (by linarith)
    constructor <;> omega

/-! ## Theorems: the viewport mapping in binary32 -/

namespace F32

theorem rnd_one : rnd 1 = 1 := by
  have := rnd_intCast 1 (by norm_num)
  simpa using this

theorem rnd_four : rnd 4 = 4 := by
  have := rnd_intCast 4 (by norm_num)
  simpa using this

theorem rnd_eight : rnd 8 = 8 := by
  have := rnd_intCast 8 (by norm_num)
  simpa using this

/-- The sum 0x1.fffffep-1 + 1 lies halfway between 2 - 2^-23 and 2 and
rounds to 2. -/
theorem rnd_below_two : rnd (33554431 / 16777216) = 2 := by
  have := rnd_eq_of_tie (33554431 / 16777216) (1 / 8388608) 0 16777215 (by norm_num)
    (by norm_num) (by norm_num) (by norm_num) (by norm_num)
  rw [this]
  norm_num

/-- The sum 0x1.fffffep-2 + 1 rounds to 1.5. -/
theorem rnd_below_three_halves : rnd (50331647 / 33554432) = 3 / 2 := by
  have := rnd_eq_of_near (50331647 / 33554432) (1 / 8388608) 0 12582912 (by norm_num)
    (by norm_num) (by norm_num) (by norm_num) (by norm_num) (by norm_num)
  rw [this]
  norm_num

theorem rnd_six : rnd 6 = 6 := by
  have := rnd_intCast 6 (by norm_num)
  simpa using this

end F32

namespace math

/-- Claim C14, as stated, fails for the code: on the region (0,4,0,4), for
the float x = 0x1.fffffep-1 (the largest below 1) posOf gives px = 4 where
x_min + floor((x+1)/2 * width) is 3, and for x = 0x1.fffffep-2 it gives
px = 3 where the formula gives 2: the float addition x + 1 rounds. -/
theorem posOf_formula_counterexample :
    ((Region2i.mk 0 4 0 4).posOf_f32 (16777215 / 16777216) 0).2.1 = 4 ∧
    (0 : Int) + ⌊((16777215 / 16777216 : ℚ) + 1) / 2 * (((4 : Int) - 0 : Int) : ℚ)⌋ = 3 ∧
    ((Region2i.mk 0 4 0 4).posOf_f32 (16777215 / 33554432) 0).2.1 = 3 ∧
    (0 : Int) + ⌊((16777215 / 33554432 : ℚ) + 1) / 2 * (((4 : Int) - 0 : Int) : ℚ)⌋ = 2 := by
  refine ⟨?_, ?_, ?_, ?_⟩
  · unfold Region2i.posOf_f32
    norm_num [F32.rnd_four, F32.rnd_below_two, F32.rnd_eight, truncToInt]
  · norm_num [Int.floor_eq_iff]
  · unfold Region2i.posOf_f32
    norm_num [F32.rnd_four, F32.rnd_below_three_halves, F32.rnd_six, truncToInt]
  · norm_num [Int.floor_eq_iff]

end math

namespace math

/-- The argument of the conversion (int) in posOf is not negative when the
extent is not negative and the coordinate is at least -1. -/
theorem Region2i.posOf_f32_arg_nonneg (d : Int) (x : ℚ) (hd : 0 ≤ d) (hx : -1 ≤ x) :
    0 ≤ F32.rnd (F32.rnd (d : ℚ) * F32.rnd (x + 1)) * (1 / 2) := by
  have h1 : 0 ≤ F32.rnd (d : ℚ) := F32.rnd_nonneg _ (by exact_mod_cast hd)
  have h2 : 0 ≤ F32.rnd (x + 1) := F32.rnd_nonneg _ (by linarith)
  have h3 : 0 ≤ F32.rnd (F32.rnd (d : ℚ) * F32.rnd (x + 1)) :=
    F32.rnd_nonneg _ (mul_nonneg h1 h2)
  positivity

/-- Claim C14, as amended. Viewport mapping formula: for every region with
min <= max, with width = x_max - x_min and height = y_max - y_min, and every
(x, y) with -1 <= x < 1 and -1 <= y < 1, posOf produces
px = x_min + floor(fl(fl(width) * fl(x + 1)) / 2) and
py = y_max - floor(fl(fl(height) * fl(y + 1)) / 2), where fl rounds to the
nearest binary32 value, ties to even; when width, x + 1 and width * (x + 1)
are binary32 values, so that no operation rounds, px is
x_min + floor((x+1)/2 * width), and likewise py is
y_max - floor((y+1)/2 * height). -/
theorem posOf_formula_binary32 (r : Region2i) (x y : ℚ) (hr : r.valid)
    (hx1 : -1 ≤ x) (_hx2 : x < 1) (hy1 : -1 ≤ y) (_hy2 : y < 1) :
    (r.posOf_f32 x y).2.1 = r.x_min +
      ⌊F32.rnd (F32.rnd ((r.x_max - r.x_min : Int) : ℚ) * F32.rnd (x + 1)) / 2⌋ ∧
    (r.posOf_f32 x y).2.2 = r.y_max -
      ⌊F32.rnd (F32.rnd ((r.y_max - r.y_min : Int) : ℚ) * F32.rnd (y + 1)) / 2⌋ ∧
    (F32.rnd ((r.x_max - r.x_min : Int) : ℚ) = ((r.x_max - r.x_min : Int) : ℚ) →
      F32.rnd (x + 1) = x + 1 →
      F32.rnd (((r.x_max - r.x_min : Int) : ℚ) * (x + 1)) =
        ((r.x_max - r.x_min : Int) : ℚ) * (x + 1) →
      (r.posOf_f32 x y).2.1 =
        r.x_min + ⌊(x + 1) / 2 * ((r.x_max - r.x_min : Int) : ℚ)⌋) ∧
    (F32.rnd ((r.y_max - r.y_min : Int) : ℚ) = ((r.y_max - r.y_min : Int) : ℚ) →
      F32.rnd (y + 1) = y + 1 →
      F32.rnd (((r.y_max - r.y_min : Int) : ℚ) * (y + 1)) =
        ((r.y_max - r.y_min : Int) : ℚ) * (y + 1) →
      (r.posOf_f32 x y).2.2 =
        r.y_max - ⌊(y + 1) / 2 * ((r.y_max - r.y_min : Int) : ℚ)⌋) := by
  obtain ⟨hx, hy⟩ := hr
  have hxd : (0 : Int) ≤ r.x_max - r.x_min := by omega
  have hyd : (0 : Int) ≤ r.y_max - r.y_min := by omega
  have hpx : (r.posOf_f32 x y).2.1 = r.x_min +
      ⌊F32.rnd (F32.rnd ((r.x_max - r.x_min : Int) : ℚ) * F32.rnd (x + 1)) / 2⌋ := by
    unfold Region2i.posOf_f32
    dsimp only
    rw [truncToInt_of_nonneg _ (Region2i.posOf_f32_arg_nonneg _ x hxd hx1)]
    congr 2
    ring
  have hpy : (r.posOf_f32 x y).2.2 = r.y_max -
      ⌊F32.rnd (F32.rnd ((r.y_max - r.y_min : Int) : ℚ) * F32.rnd (y + 1)) / 2⌋ := by
    unfold Region2i.posOf_f32
    dsimp only
    rw [truncToInt_of_nonneg _ (Region2i.posOf_f32_arg_nonneg _ y hyd hy1)]
    congr 2
    ring
  refine ⟨hpx, hpy, fun h1 h2 h3 => ?_, fun h1 h2 h3 => ?_⟩
  · rw [hpx, h1, h2, h3]
    congr 2
    ring
  · rw [hpy, h1, h2, h3]
    congr 2
    ring

theorem posOf_formula_binary32_witness :
    ((Region2i.mk 0 4 0 4).posOf_f32 (-1 / 2) (1 / 4)).2.1 = (Region2i.mk 0 4 0 4).x_min +
      ⌊F32.rnd (F32.rnd ((((Region2i.mk 0 4 0 4).x_max -
        (Region2i.mk 0 4 0 4).x_min : Int) : ℚ)) * F32.rnd (-1 / 2 + 1)) / 2⌋ :=
  (posOf_formula_binary32 (Region2i.mk 0 4 0 4) (-1 / 2) (1 / 4) (by decide)
    (by norm_num) (by norm_num) (by norm_num) (by norm_num)).1

end math

/-! ## Theorems: the raw line in binary32 -/

theorem slopeF32_swap (a1 b1 a2 b2 : Int) :
    slopeF32 a2 b2 a1 b1 = slopeF32 a1 b1 a2 b2 := by
  unfold slopeF32
  have e1 : ((b1 - b2 : Int) : ℚ) = -((b2 - b1 : Int) : ℚ) := by push_cast; ring
  have e2 : ((a1 - a2 : Int) : ℚ) = -((a2 - a1 : Int) : ℚ) := by push_cast; ring
  rw [e1, e2, F32.rnd_neg, F32.rnd_neg, neg_div_neg_eq]

namespace DisplayBuffer

/-- The cells after plotting (x, f x) for x = lo..hi on a ready buffer. -/
theorem foldl_plot_columns_cells (b : DisplayBuffer) (c : Nat) (lo hi : Int) (f : Int → Int)
    (m : Mem) (hm : b.data = some m) :
    ∃ m2, ((intRange lo hi).foldl (fun d x => (d.plot x (f x) c).2) b).data = some m2 ∧
      ∀ i,
        ((∃ x, lo ≤ x ∧ x ≤ hi ∧ b.inside x (f x) ∧ i = b.offset x (f x)) → m2 i = c) ∧
        ((¬ ∃ x, lo ≤ x ∧ x ≤ hi ∧ b.inside x (f x) ∧ i = b.offset x (f x)) → m2 i = m i) := by
  have hfold : (intRange lo hi).foldl (fun d x => (d.plot x (f x) c).2) b =
      ((intRange lo hi).map (fun x => (x, f x))).foldl (fun d p => (d.plot p.1 p.2 c).2) b := by
    rw [List.foldl_map]
  rw [hfold]
  obtain ⟨m2, hm2, hcells⟩ := foldl_plot_cells c ((intRange lo hi).map (fun x => (x, f x))) b m hm
  have hiff : ∀ i, (∃ p ∈ (intRange lo hi).map (fun x => (x, f x)),
        b.inside p.1 p.2 ∧ i = b.offset p.1 p.2) ↔
      (∃ x, lo ≤ x ∧ x ≤ hi ∧ b.inside x (f x) ∧ i = b.offset x (f x)) := by
    intro i
    constructor
    · rintro ⟨p, hp, hin, hi⟩
      obtain ⟨x, hx, rfl⟩ := List.mem_map.mp hp
      have hx2 := (mem_intRange _ _ _).mp hx
      exact ⟨x, hx2.1, hx2.2, hin, hi⟩
    · rintro ⟨x, h1, h2, hin, hi⟩
      exact ⟨(x, f x), List.mem_map.mpr ⟨x, (mem_intRange _ _ _).mpr ⟨h1, h2⟩, rfl⟩, hin, hi⟩
  exact ⟨m2, hm2, fun i => ⟨fun h => (hcells i).1 ((hiff i).mpr h),
    fun h => (hcells i).2 (fun h2 => h ((hiff i).mp h2))⟩⟩

/-- The cells after plotting (f y, y) for y = lo..hi on a ready buffer. -/
theorem foldl_plot_rows_cells (b : DisplayBuffer) (c : Nat) (lo hi : Int) (f : Int → Int)
    (m : Mem) (hm : b.data = some m) :
    ∃ m2, ((intRange lo hi).foldl (fun d y => (d.plot (f y) y c).2) b).data = some m2 ∧
      ∀ i,
        ((∃ y, lo ≤ y ∧ y ≤ hi ∧ b.inside (f y) y ∧ i = b.offset (f y) y) → m2 i = c) ∧
        ((¬ ∃ y, lo ≤ y ∧ y ≤ hi ∧ b.inside (f y) y ∧ i = b.offset (f y) y) → m2 i = m i) := by
  have hfold : (intRange lo hi).foldl (fun d y => (d.plot (f y) y c).2) b =
      ((intRange lo hi).map (fun y => (f y, y))).foldl (fun d p => (d.plot p.1 p.2 c).2) b := by
    rw [List.foldl_map]
  rw [hfold]
  obtain ⟨m2, hm2, hcells⟩ := foldl_plot_cells c ((intRange lo hi).map (fun y => (f y, y))) b m hm
  have hiff : ∀ i, (∃ p ∈ (intRange lo hi).map (fun y => (f y, y)),
        b.inside p.1 p.2 ∧ i = b.offset p.1 p.2) ↔
      (∃ y, lo ≤ y ∧ y ≤ hi ∧ b.inside (f y) y ∧ i = b.offset (f y) y) := by
    intro i
    constructor
    · rintro ⟨p, hp, hin, hi⟩
      obtain ⟨y, hy, rfl⟩ := List.mem_map.mp hp
      have hy2 := (mem_intRange _ _ _).mp hy
      exact ⟨y, hy2.1, hy2.2, hin, hi⟩
    · rintro ⟨y, h1, h2, hin, hi⟩
      exact ⟨(f y, y), List.mem_map.mpr ⟨y, (mem_intRange _ _ _).mpr ⟨h1, h2⟩, rfl⟩, hin, hi⟩
  exact ⟨m2, hm2, fun i => ⟨fun h => (hcells i).1 ((hiff i).mpr h),
    fun h => (hcells i).2 (fun h2 => h ((hiff i).mp h2))⟩⟩

end DisplayBuffer

namespace RendererProgram

/-- The horizontal-dominant branch of raw_drawLine in binary32, in closed
form: with the endpoints named so that x1 < x2, whichever was passed first,
the loop plots (x, (int)(x*m + b)) for x from max(0, x1) up to x2, or up to
width - 1 when x2 > width, every operation of x*m + b being a float one. -/
theorem raw_drawLine_f32_horizontal_eq (prg : RendererProgram) (p1 p2 : Int × Int)
    (x1 y1 x2 y2 : Int)
    (hends : (p1 = (x1, y1) ∧ p2 = (x2, y2)) ∨ (p1 = (x2, y2) ∧ p2 = (x1, y1)))
    (hord : x1 < x2) (hdom : |x2 - x1| > |y2 - y1|) :
    prg.raw_drawLine_f32 p1 p2 =
      (0, RendererProgram.mk
        ((intRange (if x1 < 0 then 0 else x1)
            (if x2 > prg.buffer.width then prg.buffer.width - 1 else x2)).foldl
          (fun d x => (d.plot x (truncToInt (lineAtF32 x1 y1 x2 y2 x)) prg.front_color).2)
          prg.buffer)
        prg.modelview prg.proj prg.viewport prg.front_color prg.clear_color) := by
  rcases hends with ⟨h1, h2⟩ | ⟨h1, h2⟩
  · subst h1 h2
    have hne : ¬ ((x1, y1) = (x2, y2)) := by
      intro h
      have := (Prod.mk.inj h).1
      omega
    have hgt : ¬ (x1 > x2) := by omega
    unfold raw_drawLine_f32
    rw [if_neg hne]
    dsimp only
    rw [ite_nonneg_eq_abs, ite_nonneg_eq_abs, if_pos hdom]
    simp only [if_neg hgt]
    rfl
  · subst h1 h2
    have hne : ¬ ((x2, y2) = (x1, y1)) := by
      intro h
      have := (Prod.mk.inj h).1
      omega
    have hgt : x2 > x1 := by omega
    have hdom2 : |x1 - x2| > |y1 - y2| := by
      rw [abs_sub_comm x1 x2, abs_sub_comm y1 y2]
      exact hdom
    have hs := slopeF32_swap x1 y1 x2 y2
    unfold slopeF32 at hs
    unfold raw_drawLine_f32
    rw [if_neg hne]
    dsimp only
    rw [ite_nonneg_eq_abs, ite_nonneg_eq_abs, if_pos hdom2]
    simp only [if_pos hgt]
    unfold lineAtF32 slopeF32
    rw [hs]

/-- The vertical-dominant branch of raw_drawLine in binary32, in closed form:
with the endpoints named so that y1 < y2, the loop plots ((int)(y*m + b), y)
for y from max(0, y1) up to y2, or up to height - 1 when y2 > height. -/
theorem raw_drawLine_f32_vertical_eq (prg : RendererProgram) (p1 p2 : Int × Int)
    (x1 y1 x2 y2 : Int)
    (hends : (p1 = (x1, y1) ∧ p2 = (x2, y2)) ∨ (p1 = (x2, y2) ∧ p2 = (x1, y1)))
    (hord : y1 < y2) (hdom : ¬ |x2 - x1| > |y2 - y1|) :
    prg.raw_drawLine_f32 p1 p2 =
      (0, RendererProgram.mk
        ((intRange (if y1 < 0 then 0 else y1)
            (if y2 > prg.buffer.height then prg.buffer.height - 1 else y2)).foldl
          (fun d y => (d.plot (truncToInt (lineAtF32 y1 x1 y2 x2 y)) y prg.front_color).2)
          prg.buffer)
        prg.modelview prg.proj prg.viewport prg.front_color prg.clear_color) := by
  rcases hends with ⟨h1, h2⟩ | ⟨h1, h2⟩
  · subst h1 h2
    have hne : ¬ ((x1, y1) = (x2, y2)) := by
      intro h
      have := (Prod.mk.inj h).2
      omega
    have hgt : ¬ (y1 > y2) := by omega
    unfold raw_drawLine_f32
    rw [if_neg hne]
    dsimp only
    rw [ite_nonneg_eq_abs, ite_nonneg_eq_abs, if_neg hdom]
    simp only [if_neg hgt]
    rfl
  · subst h1 h2
    have hne : ¬ ((x2, y2) = (x1, y1)) := by
      intro h
      have := (Prod.mk.inj h).2
      omega
    have hgt : y2 > y1 := by omega
    have hdom2 : ¬ |x1 - x2| > |y1 - y2| := by
      rw [abs_sub_comm x1 x2, abs_sub_comm y1 y2]
      exact hdom
    have hs := slopeF32_swap y1 x1 y2 x2
    unfold slopeF32 at hs
    unfold raw_drawLine_f32
    rw [if_neg hne]
    dsimp only
    rw [ite_nonneg_eq_abs, ite_nonneg_eq_abs, if_neg hdom2]
    simp only [if_pos hgt]
    unfold lineAtF32 slopeF32
    rw [hs]

end RendererProgram

namespace F32

theorem rnd_error_one (q : ℚ) (h : |q| < 1) : |rnd q - q| ≤ 1 / 33554432 := by
  have := rnd_error q 0 (by norm_num) (by simpa using h)
  norm_num at this
  exact this

theorem rnd_error_2048 (q : ℚ) (h : |q| < 2048) : |rnd q - q| ≤ 1 / 16384 := by
  have := rnd_error q 11 (by norm_num) (by norm_num; exact h)
  norm_num at this
  exact this

theorem rnd_error_4096 (q : ℚ) (h : |q| < 4096) : |rnd q - q| ≤ 1 / 8192 := by
  have := rnd_error q 12 (by norm_num) (by norm_num; exact h)
  norm_num at this
  exact this

end F32

/-- The exact slope of a line with |b2 - b1| < a2 - a1 <= 2047 has absolute
value at most 1 - 1/2047, and the binary32 slope differs from it by at most
2^-25. -/
theorem slopeF32_near (a1 b1 a2 b2 : Int) (hd : a2 - a1 ≤ 2047)
    (hs : |b2 - b1| < a2 - a1) :
    |((b2 - b1 : Int) : ℚ) / ((a2 - a1 : Int) : ℚ)| ≤ 1 - 1 / 2047 ∧
    |slopeF32 a1 b1 a2 b2 - ((b2 - b1 : Int) : ℚ) / ((a2 - a1 : Int) : ℚ)| ≤ 1 / 33554432 := by
  have hdx : (0 : Int) < a2 - a1 := lt_of_le_of_lt (abs_nonneg _) hs
  have hdxq : (0 : ℚ) < ((a2 - a1 : Int) : ℚ) := by exact_mod_cast hdx
  have hdy : |b2 - b1| ≤ a2 - a1 - 1 := by omega
  have hdyq : |((b2 - b1 : Int) : ℚ)| ≤ ((a2 - a1 : Int) : ℚ) - 1 := by
    have : ((|b2 - b1| : Int) : ℚ) ≤ ((a2 - a1 - 1 : Int) : ℚ) := by exact_mod_cast hdy
    rw [Int.cast_abs] at this
    push_cast at this ⊢
    exact this
  have hdq : ((a2 - a1 : Int) : ℚ) ≤ 2047 := by exact_mod_cast hd
  have hm0 : |((b2 - b1 : Int) : ℚ) / ((a2 - a1 : Int) : ℚ)| ≤ 1 - 1 / 2047 := by
    rw [abs_div, abs_of_pos hdxq, div_le_iff₀ hdxq]
    have : (1 : ℚ) / 2047 * ((a2 - a1 : Int) : ℚ) ≤ 1 := by
      rw [div_mul_eq_mul_div, one_mul, div_le_one (by norm_num)]
      exact hdq
    linarith
  refine ⟨hm0, ?_⟩
  unfold slopeF32
  have h1 : F32.rnd ((b2 - b1 : Int) : ℚ) = ((b2 - b1 : Int) : ℚ) :=
    F32.rnd_intCast _ (by omega)
  have h2 : F32.rnd ((a2 - a1 : Int) : ℚ) = ((a2 - a1 : Int) : ℚ) :=
    F32.rnd_intCast _ (by rw [abs_of_pos hdx]; omega)
  rw [h1, h2]
  apply F32.rnd_error_one
  have : (1 : ℚ) - 1 / 2047 < 1 := by norm_num
  linarith

/-- The binary32 evaluation of a line between points with coordinates in
0..2047 and |b2 - b1| < a2 - a1, at t between a1 and a2: the product t*m is
off by at most 2^-14, the final sum by at most 2^-14 more, and the value
differs from the exact line by less than 2^-10. -/
theorem lineAtF32_near (a1 b1 a2 b2 t : Int)
    (ha1 : 0 ≤ a1) (ha2 : a2 ≤ 2047) (hb1 : 0 ≤ b1) (hb1u : b1 ≤ 2047)
    (hb2 : 0 ≤ b2) (hb2u : b2 ≤ 2047) (hs : |b2 - b1| < a2 - a1)
    (ht1 : a1 ≤ t) (ht2 : t ≤ a2) :
    |F32.rnd ((t : ℚ) * slopeF32 a1 b1 a2 b2) - (t : ℚ) * slopeF32 a1 b1 a2 b2|
      ≤ 1 / 16384 ∧
    |lineAtF32 a1 b1 a2 b2 t -
        (F32.rnd ((t : ℚ) * slopeF32 a1 b1 a2 b2) +
          F32.rnd ((b1 : ℚ) - F32.rnd ((a1 : ℚ) * slopeF32 a1 b1 a2 b2)))| ≤ 1 / 16384 ∧
    |lineAtF32 a1 b1 a2 b2 t - lineAt a1 b1 a2 b2 t| < 1 / 1024 := by
  have hdx : (0 : Int) < a2 - a1 := lt_of_le_of_lt (abs_nonneg _) hs
  obtain ⟨hm0, hme⟩ := slopeF32_near a1 b1 a2 b2 (by omega) hs
  obtain ⟨hm0l, hm0u⟩ := abs_le.mp hm0
  obtain ⟨hmel, hmeu⟩ := abs_le.mp hme
  -- casts
  have ca1 : (0 : ℚ) ≤ (a1 : ℚ) := by exact_mod_cast ha1
  have ca1u : (a1 : ℚ) ≤ 2047 := by exact_mod_cast (by omega : a1 ≤ 2047)
  have ct : (0 : ℚ) ≤ (t : ℚ) := by exact_mod_cast (by omega : (0 : Int) ≤ t)
  have ctu : (t : ℚ) ≤ 2047 := by exact_mod_cast (by omega : t ≤ 2047)
  have cta : (0 : ℚ) ≤ (t : ℚ) - (a1 : ℚ) := by
    have : (a1 : ℚ) ≤ (t : ℚ) := by exact_mod_cast ht1
    linarith
  have cb1 : (0 : ℚ) ≤ (b1 : ℚ) := by exact_mod_cast hb1
  have cb1u : (b1 : ℚ) ≤ 2047 := by exact_mod_cast hb1u
  have rt : F32.rnd (t : ℚ) = (t : ℚ) := F32.rnd_intCast _ (by rw [abs_of_nonneg (by omega)]; omega)
  have ra1 : F32.rnd (a1 : ℚ) = (a1 : ℚ) := F32.rnd_intCast _ (by rw [abs_of_nonneg ha1]; omega)
  have rb1 : F32.rnd (b1 : ℚ) = (b1 : ℚ) := F32.rnd_intCast _ (by rw [abs_of_nonneg hb1]; omega)
  -- the slope
  have hml : -1 < slopeF32 a1 b1 a2 b2 := by linarith
  have hmu : slopeF32 a1 b1 a2 b2 < 1 := by linarith
  -- products
  have hprod : ∀ s : ℚ, 0 ≤ s → s ≤ 2047 → |s * slopeF32 a1 b1 a2 b2| < 2048 := by
    intro s hs0 hs1
    rw [abs_lt]
    constructor <;> nlinarith
  have eA := F32.rnd_error_2048 _ (hprod (t : ℚ) ct ctu)
  have e1 := F32.rnd_error_2048 _ (hprod (a1 : ℚ) ca1 ca1u)
  obtain ⟨eAl, eAu⟩ := abs_le.mp eA
  obtain ⟨e1l, e1u⟩ := abs_le.mp e1
  obtain ⟨hpl, hpu⟩ := abs_lt.mp (hprod (a1 : ℚ) ca1 ca1u)
  -- the intercept
  have hB : |(b1 : ℚ) - F32.rnd ((a1 : ℚ) * slopeF32 a1 b1 a2 b2)| < 4096 := by
    rw [abs_lt]
    constructor <;> linarith
  have eB := F32.rnd_error_4096 _ hB
  obtain ⟨eBl, eBu⟩ := abs_le.mp eB
  -- the exact line
  obtain ⟨hLl, hLu⟩ := lineAt_between a1 b1 a2 b2 t (by omega) ht1 ht2
  have hmin : (0 : ℚ) ≤ ((min b1 b2 : Int) : ℚ) := by
    exact_mod_cast (le_min hb1 hb2 : (0 : Int) ≤ min b1 b2)
  have hmax : ((max b1 b2 : Int) : ℚ) ≤ 2047 := by
    exact_mod_cast (max_le hb1u hb2u : max b1 b2 ≤ 2047)
  have hL : lineAt a1 b1 a2 b2 t = (t : ℚ) * slopeF32 a1 b1 a2 b2 + (b1 : ℚ)
      - (a1 : ℚ) * slopeF32 a1 b1 a2 b2
      - ((t : ℚ) - (a1 : ℚ)) * (slopeF32 a1 b1 a2 b2 -
          ((b2 - b1 : Int) : ℚ) / ((a2 - a1 : Int) : ℚ)) := by
    unfold lineAt
    ring
  have hcorr : |((t : ℚ) - (a1 : ℚ)) * (slopeF32 a1 b1 a2 b2 -
      ((b2 - b1 : Int) : ℚ) / ((a2 - a1 : Int) : ℚ))| ≤ 1 / 16384 := by
    rw [abs_mul, abs_of_nonneg cta]
    calc ((t : ℚ) - (a1 : ℚ)) * |slopeF32 a1 b1 a2 b2 -
          ((b2 - b1 : Int) : ℚ) / ((a2 - a1 : Int) : ℚ)|
        ≤ 2047 * (1 / 33554432) :=
          mul_le_mul (by linarith) hme (abs_nonneg _) (by norm_num)
      _ ≤ 1 / 16384 := by norm_num
  obtain ⟨hcl, hcu⟩ := abs_le.mp hcorr
  -- the sum before the last rounding
  have hS : |F32.rnd ((t : ℚ) * slopeF32 a1 b1 a2 b2) +
      F32.rnd ((b1 : ℚ) - F32.rnd ((a1 : ℚ) * slopeF32 a1 b1 a2 b2))| < 2048 := by
    rw [abs_lt]
    constructor <;> linarith
  have eV := F32.rnd_error_2048 _ hS
  obtain ⟨eVl, eVu⟩ := abs_le.mp eV
  have hV : lineAtF32 a1 b1 a2 b2 t =
      F32.rnd (F32.rnd ((t : ℚ) * slopeF32 a1 b1 a2 b2) +
        F32.rnd ((b1 : ℚ) - F32.rnd ((a1 : ℚ) * slopeF32 a1 b1 a2 b2))) := by
    unfold lineAtF32
    rw [rt, ra1, rb1]
  refine ⟨eA, ?_, ?_⟩
  · rw [hV]
    exact eV
  · rw [hV, abs_lt]
    constructor <;> linarith

/-- Two consecutive binary32 values of such a line are less than 1 apart. -/
theorem lineAtF32_step (a1 b1 a2 b2 t : Int)
    (ha1 : 0 ≤ a1) (ha2 : a2 ≤ 2047) (hb1 : 0 ≤ b1) (hb1u : b1 ≤ 2047)
    (hb2 : 0 ≤ b2) (hb2u : b2 ≤ 2047) (hs : |b2 - b1| < a2 - a1)
    (ht1 : a1 ≤ t) (ht2 : t < a2) :
    |lineAtF32 a1 b1 a2 b2 (t + 1) - lineAtF32 a1 b1 a2 b2 t| < 1 := by
  obtain ⟨hm0, hme⟩ := slopeF32_near a1 b1 a2 b2 (by omega) hs
  obtain ⟨hm0l, hm0u⟩ := abs_le.mp hm0
  obtain ⟨hmel, hmeu⟩ := abs_le.mp hme
  obtain ⟨pA, pV, _⟩ := lineAtF32_near a1 b1 a2 b2 t ha1 ha2 hb1 hb1u hb2 hb2u hs ht1
    (le_of_lt ht2)
  obtain ⟨qA, qV, _⟩ := lineAtF32_near a1 b1 a2 b2 (t + 1) ha1 ha2 hb1 hb1u hb2 hb2u hs
    (by omega) (by omega)
  obtain ⟨pAl, pAu⟩ := abs_le.mp pA
  obtain ⟨pVl, pVu⟩ := abs_le.mp pV
  obtain ⟨qAl, qAu⟩ := abs_le.mp qA
  obtain ⟨qVl, qVu⟩ := abs_le.mp qV
  have e : (((t + 1 : Int) : ℚ)) * slopeF32 a1 b1 a2 b2 =
      (t : ℚ) * slopeF32 a1 b1 a2 b2 + slopeF32 a1 b1 a2 b2 := by
    push_cast; ring
  rw [e] at qAl qAu qVl qVu
  rw [abs_lt]
  have c1 : (1 : ℚ) / 2047 > 1 / 33554432 + 4 * (1 / 16384) := by norm_num
  constructor <;> linarith

theorem truncToInt_of_small_neg (q : ℚ) (h1 : -1 < q) (h2 : q ≤ 0) : truncToInt q = 0 := by
  have e : truncToInt q = -truncToInt (-q) := by
    unfold truncToInt
    simp [Int.neg_tdiv]
  rw [e, truncToInt_of_nonneg (-q) (by linarith)]
  have : ⌊-q⌋ = 0 := by
    rw [Int.floor_eq_iff]
    constructor
    · push_cast; linarith
    · push_cast; linarith
  rw [this]
  rfl

/-- Conversion to int of a value less than 1/1024 away from the integer n
that is not negative: n itself, or n - 1 when n is at least 1. -/
theorem truncToInt_near_int (q : ℚ) (n : Int) (hn : 0 ≤ n) (h : |q - (n : ℚ)| < 1 / 1024) :
    truncToInt q = n ∨ (truncToInt q = n - 1 ∧ 1 ≤ n) := by
  obtain ⟨h1, h2⟩ := abs_lt.mp h
  have hnq : (0 : ℚ) ≤ (n : ℚ) := by exact_mod_cast hn
  rcases le_or_lt (n : ℚ) q with hq | hq
  · left
    rw [truncToInt_of_nonneg q (le_trans hnq hq), Int.floor_eq_iff]
    constructor
    · exact hq
    · linarith
  · rcases eq_or_lt_of_le hn with h0 | h0
    · left
      rw [← h0] at h1 hq ⊢
      simp only [Int.cast_zero, sub_zero] at h1 hq
      exact truncToInt_of_small_neg q (by linarith) (le_of_lt hq)
    · right
      have hn1 : (1 : ℚ) ≤ (n : ℚ) := by exact_mod_cast (by omega : (1 : Int) ≤ n)
      refine ⟨?_, by omega⟩
      rw [truncToInt_of_nonneg q (by linarith), Int.floor_eq_iff]
      push_cast
      constructor <;> linarith

/-- Conversion to int of a value less than 1/1024 away from a value that
lies between the integers lo >= 0 and hi: the result is at least 0, at least
lo - 1 and at most hi. -/
theorem truncToInt_near_between (q r : ℚ) (lo hi : Int) (hlo : 0 ≤ lo)
    (h : |q - r| < 1 / 1024) (h1 : (lo : ℚ) ≤ r) (h2 : r ≤ (hi : ℚ)) :
    0 ≤ truncToInt q ∧ lo - 1 ≤ truncToInt q ∧ truncToInt q ≤ hi := by
  obtain ⟨e1, e2⟩ := abs_lt.mp h
  have hloq : (0 : ℚ) ≤ (lo : ℚ) := by exact_mod_cast hlo
  have hhi : lo ≤ hi := by
    have : (lo : ℚ) ≤ (hi : ℚ) := le_trans h1 h2
    exact_mod_cast this
  rcases le_or_lt 0 q with hq | hq
  · rw [truncToInt_of_nonneg q hq]
    have f0 : 0 ≤ ⌊q⌋ := Int.floor_nonneg.mpr hq
    have f1 : ⌊q⌋ ≤ hi := by
      have : ⌊q⌋ < hi + 1 := by
        rw [Int.floor_lt]
        push_cast
        linarith
      omega
    have f2 : lo - 1 ≤ ⌊q⌋ := by
      rcases eq_or_lt_of_le hlo with h0 | h0
      · omega
      · rw [Int.le_floor]
        push_cast
        linarith
    exact ⟨f0, f2, f1⟩
  · rw [truncToInt_of_small_neg q (by linarith) (le_of_lt hq)]
    have : lo = 0 := by
      by_contra hne
      have : (1 : ℚ) ≤ (lo : ℚ) := by exact_mod_cast (by omega : (1 : Int) ≤ lo)
      linarith
    omega

/-- On a tie, |b2 - b1| = a2 - a1, with coordinates in 0..2047, the binary32
evaluation of the line is exact. -/
theorem lineAtF32_eq_of_tie (a1 b1 a2 b2 t : Int)
    (ha1 : 0 ≤ a1) (ha : a1 < a2) (ha2 : a2 ≤ 2047) (hb1 : 0 ≤ b1) (hb1u : b1 ≤ 2047)
    (htie : |b2 - b1| = a2 - a1) (ht1 : a1 ≤ t) (ht2 : t ≤ a2) :
    lineAtF32 a1 b1 a2 b2 t = lineAt a1 b1 a2 b2 t := by
  have hdx : ((a2 - a1 : Int) : ℚ) ≠ 0 := by
    have : (0 : Int) < a2 - a1 := by omega
    exact_mod_cast (ne_of_gt this)
  have rdx : F32.rnd ((a2 - a1 : Int) : ℚ) = ((a2 - a1 : Int) : ℚ) :=
    F32.rnd_intCast _ (by rw [abs_of_pos (by omega)]; omega)
  have rdy : F32.rnd ((b2 - b1 : Int) : ℚ) = ((b2 - b1 : Int) : ℚ) :=
    F32.rnd_intCast _ (by rw [htie]; omega)
  have rt : F32.rnd (t : ℚ) = (t : ℚ) := F32.rnd_intCast _ (by rw [abs_of_nonneg (by omega)]; omega)
  have ra1 : F32.rnd (a1 : ℚ) = (a1 : ℚ) := F32.rnd_intCast _ (by rw [abs_of_nonneg ha1]; omega)
  have rb1 : F32.rnd (b1 : ℚ) = (b1 : ℚ) := F32.rnd_intCast _ (by rw [abs_of_nonneg hb1]; omega)
  rcases abs_choice (b2 - b1) with hc | hc
  · have e : b2 - b1 = a2 - a1 := by omega
    have hm : slopeF32 a1 b1 a2 b2 = 1 := by
      unfold slopeF32
      rw [rdy, rdx, e, div_self hdx, F32.rnd_one]
    have hm0 : ((b2 - b1 : Int) : ℚ) / ((a2 - a1 : Int) : ℚ) = 1 := by
      rw [e, div_self hdx]
    unfold lineAtF32 lineAt
    rw [hm, hm0, rt, ra1, rb1, mul_one, mul_one, rt, ra1]
    have s1 : (b1 : ℚ) - (a1 : ℚ) = ((b1 - a1 : Int) : ℚ) := by push_cast; ring
    rw [s1, F32.rnd_intCast _ (by rw [abs_le]; constructor <;> omega)]
    have s2 : (t : ℚ) + ((b1 - a1 : Int) : ℚ) = ((t + (b1 - a1) : Int) : ℚ) := by push_cast; ring
    rw [s2, F32.rnd_intCast _ (by rw [abs_le]; constructor <;> omega)]
  · have e : b2 - b1 = -(a2 - a1) := by omega
    have hm0 : ((b2 - b1 : Int) : ℚ) / ((a2 - a1 : Int) : ℚ) = -1 := by
      rw [e, Int.cast_neg, neg_div, div_self hdx]
    have hm : slopeF32 a1 b1 a2 b2 = -1 := by
      unfold slopeF32
      rw [rdy, rdx, hm0, F32.rnd_neg, F32.rnd_one]
    unfold lineAtF32 lineAt
    rw [hm, hm0, rt, ra1, rb1, mul_neg_one, mul_neg_one, F32.rnd_neg, F32.rnd_neg, rt, ra1]
    have s1 : (b1 : ℚ) - -(a1 : ℚ) = ((b1 + a1 : Int) : ℚ) := by push_cast; ring
    rw [s1, F32.rnd_intCast _ (by rw [abs_le]; constructor <;> omega)]
    have s2 : -(t : ℚ) + ((b1 + a1 : Int) : ℚ) = ((-t + (b1 + a1) : Int) : ℚ) := by
      push_cast; ring
    rw [s2, F32.rnd_intCast _ (by rw [abs_le]; constructor <;> omega)]

/-- The pixels of a raw line in binary32, for endpoints with coordinates in
0..2047 and |b2 - b1| <= a2 - a1: at every t from a1 to a2 the converted
value is between 0 and max(b1, b2) and at least min(b1, b2) - 1; at a1 it is
b1 or b1 - 1, at a2 it is b2 or b2 - 1; consecutive values differ by at most
1. -/
theorem truncToInt_lineAtF32 (a1 b1 a2 b2 : Int)
    (ha1 : 0 ≤ a1) (ha : a1 < a2) (ha2 : a2 ≤ 2047) (hb1 : 0 ≤ b1) (hb1u : b1 ≤ 2047)
    (hb2 : 0 ≤ b2) (hb2u : b2 ≤ 2047) (hs : |b2 - b1| ≤ a2 - a1) :
    (∀ t, a1 ≤ t → t ≤ a2 →
      0 ≤ truncToInt (lineAtF32 a1 b1 a2 b2 t) ∧
      min b1 b2 - 1 ≤ truncToInt (lineAtF32 a1 b1 a2 b2 t) ∧
      truncToInt (lineAtF32 a1 b1 a2 b2 t) ≤ max b1 b2) ∧
    (truncToInt (lineAtF32 a1 b1 a2 b2 a1) = b1 ∨
      (truncToInt (lineAtF32 a1 b1 a2 b2 a1) = b1 - 1 ∧ 1 ≤ b1)) ∧
    (truncToInt (lineAtF32 a1 b1 a2 b2 a2) = b2 ∨
      (truncToInt (lineAtF32 a1 b1 a2 b2 a2) = b2 - 1 ∧ 1 ≤ b2)) ∧
    (∀ t, a1 ≤ t → t < a2 →
      |truncToInt (lineAtF32 a1 b1 a2 b2 (t + 1)) - truncToInt (lineAtF32 a1 b1 a2 b2 t)|
        ≤ 1) := by
  have hnear : ∀ t, a1 ≤ t → t ≤ a2 →
      |lineAtF32 a1 b1 a2 b2 t - lineAt a1 b1 a2 b2 t| < 1 / 1024 := by
    intro t ht1 ht2
    rcases lt_or_eq_of_le hs with hlt | heq
    · exact (lineAtF32_near a1 b1 a2 b2 t ha1 ha2 hb1 hb1u hb2 hb2u hlt ht1 ht2).2.2
    · rw [lineAtF32_eq_of_tie a1 b1 a2 b2 t ha1 ha ha2 hb1 hb1u heq ht1 ht2, sub_self, abs_zero]
      norm_num
  have hLa1 : lineAt a1 b1 a2 b2 a1 = (b1 : ℚ) := by
    rw [lineAt_eq]; ring
  have hLa2 : lineAt a1 b1 a2 b2 a2 = (b2 : ℚ) := by
    have hd : ((a2 : ℚ) - (a1 : ℚ)) ≠ 0 := by
      have : (a1 : ℚ) < (a2 : ℚ) := by exact_mod_cast ha
      linarith
    rw [lineAt_eq]
    field_simp
  refine ⟨fun t ht1 ht2 => ?_, ?_, ?_, fun t ht1 ht2 => ?_⟩
  · obtain ⟨hl, hu⟩ := lineAt_between a1 b1 a2 b2 t ha ht1 ht2
    exact truncToInt_near_between _ _ (min b1 b2) (max b1 b2) (le_min hb1 hb2)
      (hnear t ht1 ht2) hl hu
  · have := hnear a1 (le_refl _) (le_of_lt ha)
    rw [hLa1] at this
    exact truncToInt_near_int _ b1 hb1 this
  · have := hnear a2 (le_of_lt ha) (le_refl _)
    rw [hLa2] at this
    exact truncToInt_near_int _ b2 hb2 this
  · rcases lt_or_eq_of_le hs with hlt | heq
    · exact truncToInt_sub_le _ _
        (lineAtF32_step a1 b1 a2 b2 t ha1 ha2 hb1 hb1u hb2 hb2u hlt ht1 ht2)
    · rw [lineAtF32_eq_of_tie a1 b1 a2 b2 t ha1 ha ha2 hb1 hb1u heq ht1 (le_of_lt ht2),
        lineAtF32_eq_of_tie a1 b1 a2 b2 (t + 1) ha1 ha ha2 hb1 hb1u heq (by omega) (by omega)]
      exact truncToInt_lineAt_step a1 b1 a2 b2 t ha hs hb1 hb2 ht1 ht2

/-! ## Theorems: the raw line, perspective and matrix product as the code computes them -/

namespace RendererProgram

/-- The horizontal-dominant raw line in binary32 between two pixels inside a
buffer of at most 2048 x 2048 pixels, named so that x1 < x2: every column x
from x1 to x2 gets the pixel (x, (int)fl(fl(x*m) + b)), which is inside the
buffer and whose row lies between min(y1, y2) - 1 and max(y1, y2); the first
and last pixel are the endpoint or the pixel one row lower; consecutive
columns differ by at most one row; these cells hold the front color
afterwards and no other cell changes. -/
theorem raw_drawLine_f32_horizontal_inside (prg : RendererProgram) (p1 p2 : Int × Int)
    (x1 y1 x2 y2 : Int) (m : Mem) (hm : prg.buffer.data = some m)
    (hends : (p1 = (x1, y1) ∧ p2 = (x2, y2)) ∨ (p1 = (x2, y2) ∧ p2 = (x1, y1)))
    (hord : x1 < x2) (hdom : |x2 - x1| > |y2 - y1|)
    (h1 : prg.buffer.inside x1 y1) (h2 : prg.buffer.inside x2 y2)
    (hW : prg.buffer.width ≤ 2048) (hH : prg.buffer.height ≤ 2048) :
    (∀ x, x1 ≤ x → x ≤ x2 →
      prg.buffer.inside x (truncToInt (lineAtF32 x1 y1 x2 y2 x)) ∧
      min y1 y2 - 1 ≤ truncToInt (lineAtF32 x1 y1 x2 y2 x) ∧
      truncToInt (lineAtF32 x1 y1 x2 y2 x) ≤ max y1 y2) ∧
    (truncToInt (lineAtF32 x1 y1 x2 y2 x1) = y1 ∨
      (truncToInt (lineAtF32 x1 y1 x2 y2 x1) = y1 - 1 ∧ 1 ≤ y1)) ∧
    (truncToInt (lineAtF32 x1 y1 x2 y2 x2) = y2 ∨
      (truncToInt (lineAtF32 x1 y1 x2 y2 x2) = y2 - 1 ∧ 1 ≤ y2)) ∧
    (∀ x, x1 ≤ x → x < x2 →
      |truncToInt (lineAtF32 x1 y1 x2 y2 (x + 1)) - truncToInt (lineAtF32 x1 y1 x2 y2 x)|
        ≤ 1) ∧
    ∃ m2, (prg.raw_drawLine_f32 p1 p2).2.buffer.data = some m2 ∧
      ∀ i,
        ((∃ x, x1 ≤ x ∧ x ≤ x2 ∧
            i = prg.buffer.offset x (truncToInt (lineAtF32 x1 y1 x2 y2 x))) →
          m2 i = prg.front_color) ∧
        ((¬ ∃ x, x1 ≤ x ∧ x ≤ x2 ∧
            i = prg.buffer.offset x (truncToInt (lineAtF32 x1 y1 x2 y2 x))) →
          m2 i = m i) := by
  have h1c := h1
  have h2c := h2
  unfold DisplayBuffer.inside at h1c h2c
  have hslope : |y2 - y1| ≤ x2 - x1 := by
    rw [abs_of_pos (by omega : (0 : Int) < x2 - x1)] at hdom
    exact le_of_lt hdom
  obtain ⟨hrange, hfirst, hlast, hstep⟩ :=
    truncToInt_lineAtF32 x1 y1 x2 y2 h1c.1 hord (by omega) h1c.2.2.1 (by omega)
      h2c.2.2.1 (by omega) hslope
  have hin : ∀ x, x1 ≤ x → x ≤ x2 →
      prg.buffer.inside x (truncToInt (lineAtF32 x1 y1 x2 y2 x)) := by
    intro x hx1 hx2
    obtain ⟨h0, _, hhi⟩ := hrange x hx1 hx2
    have hmax : max y1 y2 < prg.buffer.height := max_lt h1c.2.2.2 h2c.2.2.2
    unfold DisplayBuffer.inside
    exact ⟨by omega, by omega, h0, lt_of_le_of_lt hhi hmax⟩
  refine ⟨fun x hx1 hx2 => ⟨hin x hx1 hx2, (hrange x hx1 hx2).2.1, (hrange x hx1 hx2).2.2⟩,
    hfirst, hlast, hstep, ?_⟩
  rw [raw_drawLine_f32_horizontal_eq prg p1 p2 x1 y1 x2 y2 hends hord hdom]
  rw [if_neg (by omega : ¬ x1 < 0), if_neg (by omega : ¬ x2 > prg.buffer.width)]
  obtain ⟨m2, hm2, hcells⟩ := DisplayBuffer.foldl_plot_columns_cells prg.buffer prg.front_color
    x1 x2 (fun x => truncToInt (lineAtF32 x1 y1 x2 y2 x)) m hm
  refine ⟨m2, hm2, fun i => ⟨?_, ?_⟩⟩
  · rintro ⟨x, hx1, hx2, hi⟩
    exact (hcells i).1 ⟨x, hx1, hx2, hin x hx1 hx2, hi⟩
  · intro hno
    refine (hcells i).2 ?_
    rintro ⟨x, hx1, hx2, _, hi⟩
    exact hno ⟨x, hx1, hx2, hi⟩

/-- The vertical-dominant raw line in binary32 between two pixels inside a
buffer of at most 2048 x 2048 pixels, named so that y1 < y2: every row y from
y1 to y2 gets the pixel ((int)fl(fl(y*m) + b), y), which is inside the buffer
and whose column lies between min(x1, x2) - 1 and max(x1, x2); the first and
last pixel are the endpoint or the pixel one column lower; consecutive rows
differ by at most one column; these cells hold the front color afterwards and
no other cell changes. -/
theorem raw_drawLine_f32_vertical_inside (prg : RendererProgram) (p1 p2 : Int × Int)
    (x1 y1 x2 y2 : Int) (m : Mem) (hm : prg.buffer.data = some m)
    (hends : (p1 = (x1, y1) ∧ p2 = (x2, y2)) ∨ (p1 = (x2, y2) ∧ p2 = (x1, y1)))
    (hord : y1 < y2) (hdom : ¬ |x2 - x1| > |y2 - y1|)
    (h1 : prg.buffer.inside x1 y1) (h2 : prg.buffer.inside x2 y2)
    (hW : prg.buffer.width ≤ 2048) (hH : prg.buffer.height ≤ 2048) :
    (∀ y, y1 ≤ y → y ≤ y2 →
      prg.buffer.inside (truncToInt (lineAtF32 y1 x1 y2 x2 y)) y ∧
      min x1 x2 - 1 ≤ truncToInt (lineAtF32 y1 x1 y2 x2 y) ∧
      truncToInt (lineAtF32 y1 x1 y2 x2 y) ≤ max x1 x2) ∧
    (truncToInt (lineAtF32 y1 x1 y2 x2 y1) = x1 ∨
      (truncToInt (lineAtF32 y1 x1 y2 x2 y1) = x1 - 1 ∧ 1 ≤ x1)) ∧
    (truncToInt (lineAtF32 y1 x1 y2 x2 y2) = x2 ∨
      (truncToInt (lineAtF32 y1 x1 y2 x2 y2) = x2 - 1 ∧ 1 ≤ x2)) ∧
    (∀ y, y1 ≤ y → y < y2 →
      |truncToInt (lineAtF32 y1 x1 y2 x2 (y + 1)) - truncToInt (lineAtF32 y1 x1 y2 x2 y)|
        ≤ 1) ∧
    ∃ m2, (prg.raw_drawLine_f32 p1 p2).2.buffer.data = some m2 ∧
      ∀ i,
        ((∃ y, y1 ≤ y ∧ y ≤ y2 ∧
            i = prg.buffer.offset (truncToInt (lineAtF32 y1 x1 y2 x2 y)) y) →
          m2 i = prg.front_color) ∧
        ((¬ ∃ y, y1 ≤ y ∧ y ≤ y2 ∧
            i = prg.buffer.offset (truncToInt (lineAtF32 y1 x1 y2 x2 y)) y) →
          m2 i = m i) := by
  have h1c := h1
  have h2c := h2
  unfold DisplayBuffer.inside at h1c h2c
  have hslope : |x2 - x1| ≤ y2 - y1 := by
    rw [gt_iff_lt, not_lt, abs_of_pos (by omega : (0 : Int) < y2 - y1)] at hdom
    exact hdom
  obtain ⟨hrange, hfirst, hlast, hstep⟩ :=
    truncToInt_lineAtF32 y1 x1 y2 x2 h1c.2.2.1 hord (by omega) h1c.1 (by omega)
      h2c.1 (by omega) hslope
  have hin : ∀ y, y1 ≤ y → y ≤ y2 →
      prg.buffer.inside (truncToInt (lineAtF32 y1 x1 y2 x2 y)) y := by
    intro y hy1 hy2
    obtain ⟨h0, _, hhi⟩ := hrange y hy1 hy2
    have hmax : max x1 x2 < prg.buffer.width := max_lt h1c.2.1 h2c.2.1
    unfold DisplayBuffer.inside
    exact ⟨h0, lt_of_le_of_lt hhi hmax, by omega, by omega⟩
  refine ⟨fun y hy1 hy2 => ⟨hin y hy1 hy2, (hrange y hy1 hy2).2.1, (hrange y hy1 hy2).2.2⟩,
    hfirst, hlast, hstep, ?_⟩
  rw [raw_drawLine_f32_vertical_eq prg p1 p2 x1 y1 x2 y2 hends hord hdom]
  rw [if_neg (by omega : ¬ y1 < 0), if_neg (by omega : ¬ y2 > prg.buffer.height)]
  obtain ⟨m2, hm2, hcells⟩ := DisplayBuffer.foldl_plot_rows_cells prg.buffer prg.front_color
    y1 y2 (fun y => truncToInt (lineAtF32 y1 x1 y2 x2 y)) m hm
  refine ⟨m2, hm2, fun i => ⟨?_, ?_⟩⟩
  · rintro ⟨y, hy1, hy2, hi⟩
    exact (hcells i).1 ⟨y, hy1, hy2, hin y hy1 hy2, hi⟩
  · intro hno
    refine (hcells i).2 ?_
    rintro ⟨y, hy1, hy2, _, hi⟩
    exact hno ⟨y, hy1, hy2, hi⟩

end RendererProgram

namespace DisplayBuffer

theorem foldl_plot_columns_width (b : DisplayBuffer) (c : Nat) (l : List Int) (f : Int → Int) :
    (l.foldl (fun d x => (d.plot x (f x) c).2) b).width = b.width := by
  induction l generalizing b with
  | nil => rfl
  | cons p ps ih => rw [List.foldl_cons, ih, plot_width]

theorem foldl_plot_columns_height (b : DisplayBuffer) (c : Nat) (l : List Int) (f : Int → Int) :
    (l.foldl (fun d x => (d.plot x (f x) c).2) b).height = b.height := by
  induction l generalizing b with
  | nil => rfl
  | cons p ps ih => rw [List.foldl_cons, ih, plot_height]

end DisplayBuffer

namespace RendererProgram

/-- The horizontal-dominant raw line in binary32 on a buffer with storage:
the return value is 0, the other fields of the render state and the size of
the buffer are unchanged, and the front color is written exactly at the cells
of the pixels inside the buffer among (x, (int)fl(fl(fl(x)*m) + b)) for
max(0,x1) <= x <= min(W,x2). -/
theorem raw_drawLine_f32_horizontal_cells (prg : RendererProgram)
    (p1 p2 : Int × Int) (x1 y1 x2 y2 : Int) (m : Mem) (hm : prg.buffer.data = some m)
    (hends : (p1 = (x1, y1) ∧ p2 = (x2, y2)) ∨ (p1 = (x2, y2) ∧ p2 = (x1, y1)))
    (hord : x1 < x2) (hdom : |x2 - x1| > |y2 - y1|) :
    (prg.raw_drawLine_f32 p1 p2).1 = 0 ∧
    (prg.raw_drawLine_f32 p1 p2).2.modelview = prg.modelview ∧
    (prg.raw_drawLine_f32 p1 p2).2.proj = prg.proj ∧
    (prg.raw_drawLine_f32 p1 p2).2.viewport = prg.viewport ∧
    (prg.raw_drawLine_f32 p1 p2).2.front_color = prg.front_color ∧
    (prg.raw_drawLine_f32 p1 p2).2.clear_color = prg.clear_color ∧
    (prg.raw_drawLine_f32 p1 p2).2.buffer.width = prg.buffer.width ∧
    (prg.raw_drawLine_f32 p1 p2).2.buffer.height = prg.buffer.height ∧
    ∃ m2, (prg.raw_drawLine_f32 p1 p2).2.buffer.data = some m2 ∧
      ∀ i,
        ((∃ x, max 0 x1 ≤ x ∧ x ≤ min prg.buffer.width x2 ∧
            prg.buffer.inside x (truncToInt (lineAtF32 x1 y1 x2 y2 x)) ∧
            i = prg.buffer.offset x (truncToInt (lineAtF32 x1 y1 x2 y2 x))) →
          m2 i = prg.front_color) ∧
        ((¬ ∃ x, max 0 x1 ≤ x ∧ x ≤ min prg.buffer.width x2 ∧
            prg.buffer.inside x (truncToInt (lineAtF32 x1 y1 x2 y2 x)) ∧
            i = prg.buffer.offset x (truncToInt (lineAtF32 x1 y1 x2 y2 x))) →
          m2 i = m i) := by
  rw [raw_drawLine_f32_horizontal_eq prg p1 p2 x1 y1 x2 y2 hends hord hdom]
  obtain ⟨m2, hm2, hcells⟩ := DisplayBuffer.foldl_plot_columns_cells prg.buffer prg.front_color
    (if x1 < 0 then 0 else x1)
    (if x2 > prg.buffer.width then prg.buffer.width - 1 else x2)
    (fun x => truncToInt (lineAtF32 x1 y1 x2 y2 x)) m hm
  refine ⟨rfl, rfl, rfl, rfl, rfl, rfl, DisplayBuffer.foldl_plot_columns_width _ _ _ _,
    DisplayBuffer.foldl_plot_columns_height _ _ _ _, m2, hm2, fun i => ⟨?_, ?_⟩⟩
  · rintro ⟨x, hx1, hx2, hin, hi⟩
    refine (hcells i).1 ⟨x, ?_, ?_, hin, hi⟩
    · have := max_le_iff.mp hx1
      split_ifs <;> omega
    · have := le_min_iff.mp hx2
      have hxw : x < prg.buffer.width := hin.2.1
      split_ifs <;> omega
  · intro hno
    refine (hcells i).2 ?_
    rintro ⟨x, hx1, hx2, hin, hi⟩
    refine hno ⟨x, ?_, ?_, hin, hi⟩
    · refine max_le hin.1 ?_
      split_ifs at hx1 <;> omega
    · have hxw : x < prg.buffer.width := hin.2.1
      refine le_min (le_of_lt hxw) ?_
      split_ifs at hx2 <;> omega

end RendererProgram

/-- Claim C19, as amended for the float code. Horizontal-dominant raw line:
on a ready buffer of width W, for two pixels with |dx| > |dy|, named (x1,y1)
and (x2,y2) so that x1 < x2 whichever was passed first, and with the binary32
values m = fl(fl(dy)/fl(dx)) and b = fl(fl(y1) - fl(fl(x1)*m)), DrawRawLine
returns 0 and writes the front color exactly at the pixels inside the buffer
among (x, trunc(fl(fl(fl(x)*m) + b))) for max(0,x1) <= x <= min(W,x2), where
fl rounds to the nearest binary32 value and trunc is the conversion to int,
which truncates toward zero; no other cell and no other field of the render
state changes. -/
theorem raw_line_horizontal_binary32 (prg : RendererProgram)
    (p1 p2 : Int × Int) (x1 y1 x2 y2 : Int)
    (hready : prg.buffer.operatorNot = false)
    (hends : (p1 = (x1, y1) ∧ p2 = (x2, y2)) ∨ (p1 = (x2, y2) ∧ p2 = (x1, y1)))
    (hord : x1 < x2) (hdom : |x2 - x1| > |y2 - y1|) :
    (RawLine_onDispatch_f32 p1 p2 prg).1 = 0 ∧
    (RawLine_onDispatch_f32 p1 p2 prg).2.modelview = prg.modelview ∧
    (RawLine_onDispatch_f32 p1 p2 prg).2.proj = prg.proj ∧
    (RawLine_onDispatch_f32 p1 p2 prg).2.viewport = prg.viewport ∧
    (RawLine_onDispatch_f32 p1 p2 prg).2.front_color = prg.front_color ∧
    (RawLine_onDispatch_f32 p1 p2 prg).2.clear_color = prg.clear_color ∧
    (RawLine_onDispatch_f32 p1 p2 prg).2.buffer.width = prg.buffer.width ∧
    (RawLine_onDispatch_f32 p1 p2 prg).2.buffer.height = prg.buffer.height ∧
    ∃ m m2, prg.buffer.data = some m ∧
      (RawLine_onDispatch_f32 p1 p2 prg).2.buffer.data = some m2 ∧
      ∀ i,
        ((∃ x, max 0 x1 ≤ x ∧ x ≤ min prg.buffer.width x2 ∧
            prg.buffer.inside x (truncToInt (lineAtF32 x1 y1 x2 y2 x)) ∧
            i = prg.buffer.offset x (truncToInt (lineAtF32 x1 y1 x2 y2 x))) →
          m2 i = prg.front_color) ∧
        ((¬ ∃ x, max 0 x1 ≤ x ∧ x ≤ min prg.buffer.width x2 ∧
            prg.buffer.inside x (truncToInt (lineAtF32 x1 y1 x2 y2 x)) ∧
            i = prg.buffer.offset x (truncToInt (lineAtF32 x1 y1 x2 y2 x))) →
          m2 i = m i) := by
  obtain ⟨m, hm⟩ := DisplayBuffer.data_isSome_of_ready _ hready
  have hres : RawLine_onDispatch_f32 p1 p2 prg = prg.raw_drawLine_f32 p1 p2 := rfl
  rw [hres]
  obtain ⟨h1, h2, h3, h4, h5, h6, h7, h8, m2, hm2, hcells⟩ :=
    RendererProgram.raw_drawLine_f32_horizontal_cells prg p1 p2 x1 y1 x2 y2 m hm hends
      hord hdom
  exact ⟨h1, h2, h3, h4, h5, h6, h7, h8, m, m2, hm, hm2, hcells⟩

namespace RendererProgram

/-- The raw line in binary32 between two distinct pixels inside a buffer of at
most 2048 x 2048 pixels, named so that x1 < x2 when |dx| > |dy| and y1 < y2
otherwise: each endpoint, or the pixel next to it one lower in the
non-dominant coordinate, holds the front color afterwards; every pixel whose
cell changed lies in the bounding box of the endpoints extended by one on the
low side of the non-dominant coordinate; cells of no pixel are unchanged. -/
theorem raw_drawLine_f32_covers (prg : RendererProgram) (p1 p2 : Int × Int)
    (x1 y1 x2 y2 : Int) (m : Mem) (hm : prg.buffer.data = some m)
    (hends : (p1 = (x1, y1) ∧ p2 = (x2, y2)) ∨ (p1 = (x2, y2) ∧ p2 = (x1, y1)))
    (hcase : (x1 < x2 ∧ |x2 - x1| > |y2 - y1|) ∨ (y1 < y2 ∧ ¬ |x2 - x1| > |y2 - y1|))
    (h1 : prg.buffer.inside x1 y1) (h2 : prg.buffer.inside x2 y2)
    (hW : prg.buffer.width ≤ 2048) (hH : prg.buffer.height ≤ 2048) :
    ∃ m2, (prg.raw_drawLine_f32 p1 p2).2.buffer.data = some m2 ∧
      (|x2 - x1| > |y2 - y1| →
        (m2 (prg.buffer.offset x1 y1) = prg.front_color ∨
          (1 ≤ y1 ∧ m2 (prg.buffer.offset x1 (y1 - 1)) = prg.front_color)) ∧
        (m2 (prg.buffer.offset x2 y2) = prg.front_color ∨
          (1 ≤ y2 ∧ m2 (prg.buffer.offset x2 (y2 - 1)) = prg.front_color)) ∧
        (∀ x y, prg.buffer.inside x y →
          m2 (prg.buffer.offset x y) ≠ m (prg.buffer.offset x y) →
          min x1 x2 ≤ x ∧ x ≤ max x1 x2 ∧ min y1 y2 - 1 ≤ y ∧ y ≤ max y1 y2)) ∧
      (¬ |x2 - x1| > |y2 - y1| →
        (m2 (prg.buffer.offset x1 y1) = prg.front_color ∨
          (1 ≤ x1 ∧ m2 (prg.buffer.offset (x1 - 1) y1) = prg.front_color)) ∧
        (m2 (prg.buffer.offset x2 y2) = prg.front_color ∨
          (1 ≤ x2 ∧ m2 (prg.buffer.offset (x2 - 1) y2) = prg.front_color)) ∧
        (∀ x y, prg.buffer.inside x y →
          m2 (prg.buffer.offset x y) ≠ m (prg.buffer.offset x y) →
          min x1 x2 - 1 ≤ x ∧ x ≤ max x1 x2 ∧ min y1 y2 ≤ y ∧ y ≤ max y1 y2)) ∧
      (∀ i, (∀ x y, prg.buffer.inside x y → i ≠ prg.buffer.offset x y) → m2 i = m i) := by
  rcases hcase with ⟨hord, hdom⟩ | ⟨hord, hdom⟩
  · obtain ⟨hin, hfirst, hlast, _, m2, hm2, hcells⟩ :=
      raw_drawLine_f32_horizontal_inside prg p1 p2 x1 y1 x2 y2 m hm hends hord hdom h1 h2
        hW hH
    refine ⟨m2, hm2, fun _ => ⟨?_, ?_, ?_⟩, fun h => absurd hdom h, ?_⟩
    · rcases hfirst with e | ⟨e, hy⟩
      · exact Or.inl ((hcells _).1 ⟨x1, le_refl _, le_of_lt hord, by rw [e]⟩)
      · exact Or.inr ⟨hy, (hcells _).1 ⟨x1, le_refl _, le_of_lt hord, by rw [e]⟩⟩
    · rcases hlast with e | ⟨e, hy⟩
      · exact Or.inl ((hcells _).1 ⟨x2, le_of_lt hord, le_refl _, by rw [e]⟩)
      · exact Or.inr ⟨hy, (hcells _).1 ⟨x2, le_of_lt hord, le_refl _, by rw [e]⟩⟩
    · intro x y hxy hch
      by_cases hex : ∃ x3, x1 ≤ x3 ∧ x3 ≤ x2 ∧
          prg.buffer.offset x y = prg.buffer.offset x3 (truncToInt (lineAtF32 x1 y1 x2 y2 x3))
      · obtain ⟨x3, hx1, hx2, hi⟩ := hex
        obtain ⟨hin3, hlo, hhi⟩ := hin x3 hx1 hx2
        obtain ⟨ex, ey⟩ := DisplayBuffer.offset_inj prg.buffer x y x3 _ hxy hin3 hi
        rw [ex, ey]
        exact ⟨le_trans (min_le_left _ _) hx1, le_trans hx2 (le_max_right _ _), hlo, hhi⟩
      · exact absurd ((hcells _).2 hex) hch
    · intro i hi
      refine (hcells i).2 ?_
      rintro ⟨x, hx1, hx2, rfl⟩
      exact hi x _ (hin x hx1 hx2).1 rfl
  · obtain ⟨hin, hfirst, hlast, _, m2, hm2, hcells⟩ :=
      raw_drawLine_f32_vertical_inside prg p1 p2 x1 y1 x2 y2 m hm hends hord hdom h1 h2
        hW hH
    refine ⟨m2, hm2, fun h => absurd h hdom, fun _ => ⟨?_, ?_, ?_⟩, ?_⟩
    · rcases hfirst with e | ⟨e, hx⟩
      · exact Or.inl ((hcells _).1 ⟨y1, le_refl _, le_of_lt hord, by rw [e]⟩)
      · exact Or.inr ⟨hx, (hcells _).1 ⟨y1, le_refl _, le_of_lt hord, by rw [e]⟩⟩
    · rcases hlast with e | ⟨e, hx⟩
      · exact Or.inl ((hcells _).1 ⟨y2, le_of_lt hord, le_refl _, by rw [e]⟩)
      · exact Or.inr ⟨hx, (hcells _).1 ⟨y2, le_of_lt hord, le_refl _, by rw [e]⟩⟩
    · intro x y hxy hch
      by_cases hex : ∃ y3, y1 ≤ y3 ∧ y3 ≤ y2 ∧
          prg.buffer.offset x y = prg.buffer.offset (truncToInt (lineAtF32 y1 x1 y2 x2 y3)) y3
      · obtain ⟨y3, hy1, hy2, hi⟩ := hex
        obtain ⟨hin3, hlo, hhi⟩ := hin y3 hy1 hy2
        obtain ⟨ex, ey⟩ := DisplayBuffer.offset_inj prg.buffer x y _ y3 hxy hin3 hi
        rw [ex, ey]
        exact ⟨hlo, hhi, le_trans (min_le_left _ _) hy1, le_trans hy2 (le_max_right _ _)⟩
      · exact absurd ((hcells _).2 hex) hch
    · intro i hi
      refine (hcells i).2 ?_
      rintro ⟨y, hy1, hy2, rfl⟩
      exact hi _ y (hin y hy1 hy2).1 rfl

end RendererProgram

/-- Claim C38, as amended for the float code. On a ready buffer of at most
2048 x 2048 pixels, for distinct pixels p1 and p2 that both lie inside the
buffer, after DrawRawLine(p1, p2) in binary32 each endpoint, or the pixel one
row lower (one column lower when |dx| <= |dy|), holds the front color; every
pixel of the buffer whose cell changed lies inside the bounding box of p1 and
p2 extended by one row (one column when |dx| <= |dy|) on the low side; and the
cells that belong to no pixel are unchanged. -/
theorem raw_line_covers_endpoints_binary32 (prg : RendererProgram) (p1 p2 : Int × Int)
    (m : Mem) (hm : prg.buffer.data = some m) (hne : p1 ≠ p2)
    (h1 : prg.buffer.inside p1.1 p1.2) (h2 : prg.buffer.inside p2.1 p2.2)
    (hW : prg.buffer.width ≤ 2048) (hH : prg.buffer.height ≤ 2048) :
    ∃ m2, (RawLine_onDispatch_f32 p1 p2 prg).2.buffer.data = some m2 ∧
      (|p2.1 - p1.1| > |p2.2 - p1.2| →
        (m2 (prg.buffer.offset p1.1 p1.2) = prg.front_color ∨
          (1 ≤ p1.2 ∧ m2 (prg.buffer.offset p1.1 (p1.2 - 1)) = prg.front_color)) ∧
        (m2 (prg.buffer.offset p2.1 p2.2) = prg.front_color ∨
          (1 ≤ p2.2 ∧ m2 (prg.buffer.offset p2.1 (p2.2 - 1)) = prg.front_color)) ∧
        (∀ x y, prg.buffer.inside x y →
          m2 (prg.buffer.offset x y) ≠ m (prg.buffer.offset x y) →
          min p1.1 p2.1 ≤ x ∧ x ≤ max p1.1 p2.1 ∧
            min p1.2 p2.2 - 1 ≤ y ∧ y ≤ max p1.2 p2.2)) ∧
      (¬ |p2.1 - p1.1| > |p2.2 - p1.2| →
        (m2 (prg.buffer.offset p1.1 p1.2) = prg.front_color ∨
          (1 ≤ p1.1 ∧ m2 (prg.buffer.offset (p1.1 - 1) p1.2) = prg.front_color)) ∧
        (m2 (prg.buffer.offset p2.1 p2.2) = prg.front_color ∨
          (1 ≤ p2.1 ∧ m2 (prg.buffer.offset (p2.1 - 1) p2.2) = prg.front_color)) ∧
        (∀ x y, prg.buffer.inside x y →
          m2 (prg.buffer.offset x y) ≠ m (prg.buffer.offset x y) →
          min p1.1 p2.1 - 1 ≤ x ∧ x ≤ max p1.1 p2.1 ∧
            min p1.2 p2.2 ≤ y ∧ y ≤ max p1.2 p2.2)) ∧
      (∀ i, (∀ x y, prg.buffer.inside x y → i ≠ prg.buffer.offset x y) → m2 i = m i) := by
  have hrun : RawLine_onDispatch_f32 p1 p2 prg = prg.raw_drawLine_f32 p1 p2 := rfl
  rw [hrun]
  obtain ⟨x1, y1, x2, y2, hends, hcase⟩ := RendererProgram.name_endpoints p1 p2 hne
  rcases hends with ⟨e1, e2⟩ | ⟨e1, e2⟩
  · subst e1 e2
    exact RendererProgram.raw_drawLine_f32_covers prg _ _ x1 y1 x2 y2 m hm
      (Or.inl ⟨rfl, rfl⟩) hcase h1 h2 hW hH
  · subst e1 e2
    obtain ⟨m2, hm2, hH1, hV1, hrest⟩ :=
      RendererProgram.raw_drawLine_f32_covers prg _ _ x1 y1 x2 y2 m hm
        (Or.inr ⟨rfl, rfl⟩) hcase h2 h1 hW hH
    dsimp only at hH1 hV1 ⊢
    refine ⟨m2, hm2, fun hd => ?_, fun hd => ?_, hrest⟩
    · rw [abs_sub_comm x1 x2, abs_sub_comm y1 y2] at hd
      obtain ⟨c1, c2, hbox⟩ := hH1 hd
      refine ⟨c2, c1, fun x y hxy hch => ?_⟩
      rw [min_comm x2 x1, max_comm x2 x1, min_comm y2 y1, max_comm y2 y1]
      exact hbox x y hxy hch
    · rw [abs_sub_comm x1 x2, abs_sub_comm y1 y2] at hd
      obtain ⟨c1, c2, hbox⟩ := hV1 hd
      refine ⟨c2, c1, fun x y hxy hch => ?_⟩
      rw [min_comm x2 x1, max_comm x2 x1, min_comm y2 y1, max_comm y2 y1]
      exact hbox x y hxy hch

/-- Claim C39, as amended for the float code. On a ready buffer of at most
2048 x 2048 pixels, for distinct pixels p1 and p2 inside the buffer, named
(x1, y1), (x2, y2) so that x1 < x2 when |dx| > |dy| and y1 < y2 otherwise,
DrawRawLine in binary32 writes in each column x from x1 to x2 (each row y
from y1 to y2 otherwise) the one pixel (x, (int)fl(fl(fl(x)*m) + b)) (the
pixel ((int)fl(fl(fl(y)*m) + b), y) otherwise), which lies inside the buffer;
these pixels hold the front color afterwards, every other pixel of the buffer
is unchanged, and the pixels of two consecutive columns (rows) differ by at
most 1 in the other coordinate. -/
theorem raw_line_gap_free_binary32 (prg : RendererProgram) (p1 p2 : Int × Int)
    (m : Mem) (hm : prg.buffer.data = some m) (hne : p1 ≠ p2)
    (h1 : prg.buffer.inside p1.1 p1.2) (h2 : prg.buffer.inside p2.1 p2.2)
    (hW : prg.buffer.width ≤ 2048) (hH : prg.buffer.height ≤ 2048) :
    ∃ x1 y1 x2 y2 : Int,
      ((p1 = (x1, y1) ∧ p2 = (x2, y2)) ∨ (p1 = (x2, y2) ∧ p2 = (x1, y1))) ∧
      ∃ m2, (RawLine_onDispatch_f32 p1 p2 prg).2.buffer.data = some m2 ∧
        ((x1 < x2 ∧ |x2 - x1| > |y2 - y1| ∧
          (∀ x, x1 ≤ x → x ≤ x2 →
            prg.buffer.inside x (truncToInt (lineAtF32 x1 y1 x2 y2 x)) ∧
            m2 (prg.buffer.offset x (truncToInt (lineAtF32 x1 y1 x2 y2 x)))
              = prg.front_color) ∧
          (∀ x y, prg.buffer.inside x y →
            ¬ (x1 ≤ x ∧ x ≤ x2 ∧ y = truncToInt (lineAtF32 x1 y1 x2 y2 x)) →
            m2 (prg.buffer.offset x y) = m (prg.buffer.offset x y)) ∧
          (∀ x, x1 ≤ x → x < x2 →
            |truncToInt (lineAtF32 x1 y1 x2 y2 (x + 1)) -
              truncToInt (lineAtF32 x1 y1 x2 y2 x)| ≤ 1)) ∨
        (y1 < y2 ∧ ¬ |x2 - x1| > |y2 - y1| ∧
          (∀ y, y1 ≤ y → y ≤ y2 →
            prg.buffer.inside (truncToInt (lineAtF32 y1 x1 y2 x2 y)) y ∧
            m2 (prg.buffer.offset (truncToInt (lineAtF32 y1 x1 y2 x2 y)) y)
              = prg.front_color) ∧
          (∀ x y, prg.buffer.inside x y →
            ¬ (y1 ≤ y ∧ y ≤ y2 ∧ x = truncToInt (lineAtF32 y1 x1 y2 x2 y)) →
            m2 (prg.buffer.offset x y) = m (prg.buffer.offset x y)) ∧
          (∀ y, y1 ≤ y → y < y2 →
            |truncToInt (lineAtF32 y1 x1 y2 x2 (y + 1)) -
              truncToInt (lineAtF32 y1 x1 y2 x2 y)| ≤ 1))) := by
  have hrun : RawLine_onDispatch_f32 p1 p2 prg = prg.raw_drawLine_f32 p1 p2 := rfl
  rw [hrun]
  obtain ⟨x1, y1, x2, y2, hends, hcase⟩ := RendererProgram.name_endpoints p1 p2 hne
  have hin12 : prg.buffer.inside x1 y1 ∧ prg.buffer.inside x2 y2 := by
    rcases hends with ⟨e1, e2⟩ | ⟨e1, e2⟩
    · subst e1 e2; exact ⟨h1, h2⟩
    · subst e1 e2; exact ⟨h2, h1⟩
  refine ⟨x1, y1, x2, y2, hends, ?_⟩
  rcases hcase with ⟨hord, hdom⟩ | ⟨hord, hdom⟩
  · obtain ⟨hin, _, _, hstep, m2, hm2, hcells⟩ :=
      RendererProgram.raw_drawLine_f32_horizontal_inside prg p1 p2 x1 y1 x2 y2 m hm hends
        hord hdom hin12.1 hin12.2 hW hH
    refine ⟨m2, hm2, Or.inl ⟨hord, hdom, fun x hx1 hx2 => ⟨(hin x hx1 hx2).1, ?_⟩,
      fun x y hxy hno => ?_, hstep⟩⟩
    · exact (hcells _).1 ⟨x, hx1, hx2, rfl⟩
    · refine (hcells _).2 ?_
      rintro ⟨x3, hx1, hx2, hi⟩
      obtain ⟨ex, ey⟩ :=
        DisplayBuffer.offset_inj prg.buffer x y x3 _ hxy (hin x3 hx1 hx2).1 hi
      apply hno
      rw [ex, ey]
      exact ⟨hx1, hx2, rfl⟩
  · obtain ⟨hin, _, _, hstep, m2, hm2, hcells⟩ :=
      RendererProgram.raw_drawLine_f32_vertical_inside prg p1 p2 x1 y1 x2 y2 m hm hends
        hord hdom hin12.1 hin12.2 hW hH
    refine ⟨m2, hm2, Or.inr ⟨hord, hdom, fun y hy1 hy2 => ⟨(hin y hy1 hy2).1, ?_⟩,
      fun x y hxy hno => ?_, hstep⟩⟩
    · exact (hcells _).1 ⟨y, hy1, hy2, rfl⟩
    · refine (hcells _).2 ?_
      rintro ⟨y3, hy1, hy2, hi⟩
      obtain ⟨ex, ey⟩ :=
        DisplayBuffer.offset_inj prg.buffer x y _ y3 hxy (hin y3 hy1 hy2).1 hi
      apply hno
      rw [ex, ey]
      exact ⟨hy1, hy2, rfl⟩

/-- The conversion to int of a value in [n, n+1) with n >= 0 is n. -/
theorem truncToInt_eq_of_between (q : ℚ) (n : Int) (hn : 0 ≤ n) (h1 : (n : ℚ) ≤ q)
    (h2 : q < (n : ℚ) + 1) : truncToInt q = n := by
  have hq : (0 : ℚ) ≤ q := le_trans (by exact_mod_cast hn) h1
  rw [truncToInt_of_nonneg q hq, Int.floor_eq_iff]
  exact ⟨h1, h2⟩

/-- The binary32 line through (-2,-3) and (1,-1) at x = 1: m = fl(2/3), b = fl(-3 + fl(2*m)) and the value is -(1 - 2^-24), where the exact line is at -1. -/
theorem lineAtF32_example_2x2 :
    lineAtF32 (-2) (-3) 1 (-1) 1 = -(16777215 / 16777216) := by
  have h1 : F32.rnd (2) = 2 :=
    F32.rnd_of_rep _ 8388608 (-22) (by norm_num) (by norm_num) (by norm_num)
  have h2 : F32.rnd (3) = 3 :=
    F32.rnd_of_rep _ 12582912 (-22) (by norm_num) (by norm_num) (by norm_num)
  have h3 : F32.rnd (2 / 3) = 11184811 / 16777216 := by
    have := F32.rnd_eq_of_near (2 / 3) (1 / 16777216) (-1) 11184811 (by norm_num)
      (by norm_num) (by norm_num) (by norm_num) (by norm_num) (by norm_num)
    rw [this]
    norm_num
  have h4 : F32.rnd (11184811 / 8388608) = 11184811 / 8388608 :=
    F32.rnd_of_rep _ 11184811 (-23) (by norm_num) (by norm_num) (by norm_num)
  have h5 : F32.rnd (13981013 / 8388608) = 13981013 / 8388608 :=
    F32.rnd_of_rep _ 13981013 (-23) (by norm_num) (by norm_num) (by norm_num)
  have h6 : F32.rnd (1) = 1 :=
    F32.rnd_of_rep _ 8388608 (-23) (by norm_num) (by norm_num) (by norm_num)
  have h7 : F32.rnd (11184811 / 16777216) = 11184811 / 16777216 :=
    F32.rnd_of_rep _ 11184811 (-24) (by norm_num) (by norm_num) (by norm_num)
  have h8 : F32.rnd (16777215 / 16777216) = 16777215 / 16777216 :=
    F32.rnd_of_rep _ 16777215 (-24) (by norm_num) (by norm_num) (by norm_num)
  unfold lineAtF32 slopeF32
  norm_num [F32.rnd_neg, h1, h2, h3, h4, h5, h6, h7, h8]

/-- The binary32 line through (1,2) and (4,1) at x = 1, 2, 3, 4: m = fl(-1/3), b = fl(2 - m), and the values at the endpoints are 2 - 2^-23 and 1 - 2^-23, where the exact line is at 2 and 1. -/
theorem lineAtF32_example_5x5 :
    lineAtF32 1 2 4 1 1 = 16777215 / 8388608 ∧
    lineAtF32 1 2 4 1 2 = 3495253 / 2097152 ∧
    lineAtF32 1 2 4 1 3 = 5592405 / 4194304 ∧
    lineAtF32 1 2 4 1 4 = 8388607 / 8388608 := by
  have h1 : F32.rnd (1) = 1 :=
    F32.rnd_of_rep _ 8388608 (-23) (by norm_num) (by norm_num) (by norm_num)
  have h2 : F32.rnd (3) = 3 :=
    F32.rnd_of_rep _ 12582912 (-22) (by norm_num) (by norm_num) (by norm_num)
  have h3 : F32.rnd (1 / 3) = 11184811 / 33554432 := by
    have := F32.rnd_eq_of_near (1 / 3) (1 / 33554432) (-2) 11184811 (by norm_num)
      (by norm_num) (by norm_num) (by norm_num) (by norm_num) (by norm_num)
    rw [this]
    norm_num
  have h4 : F32.rnd (2) = 2 :=
    F32.rnd_of_rep _ 8388608 (-22) (by norm_num) (by norm_num) (by norm_num)
  have h5 : F32.rnd (11184811 / 33554432) = 11184811 / 33554432 :=
    F32.rnd_of_rep _ 11184811 (-25) (by norm_num) (by norm_num) (by norm_num)
  have h6 : F32.rnd (78293675 / 33554432) = 9786709 / 4194304 := by
    have := F32.rnd_eq_of_near (78293675 / 33554432) (1 / 4194304) (1) 9786709 (by norm_num)
      (by norm_num) (by norm_num) (by norm_num) (by norm_num) (by norm_num)
    rw [this]
    norm_num
  have h7 : F32.rnd (67108861 / 33554432) = 16777215 / 8388608 := by
    have := F32.rnd_eq_of_near (67108861 / 33554432) (1 / 8388608) (0) 16777215 (by norm_num)
      (by norm_num) (by norm_num) (by norm_num) (by norm_num) (by norm_num)
    rw [this]
    norm_num
  have h8 : F32.rnd (11184811 / 16777216) = 11184811 / 16777216 :=
    F32.rnd_of_rep _ 11184811 (-24) (by norm_num) (by norm_num) (by norm_num)
  have h9 : F32.rnd (27962025 / 16777216) = 3495253 / 2097152 := by
    have := F32.rnd_eq_of_tie (27962025 / 16777216) (1 / 8388608) (0) 13981012 (by norm_num)
      (by norm_num) (by norm_num) (by norm_num) (by norm_num)
    rw [this]
    norm_num
  have h10 : F32.rnd (33554433 / 33554432) = 1 := by
    have := F32.rnd_eq_of_near (33554433 / 33554432) (1 / 8388608) (0) 8388608 (by norm_num)
      (by norm_num) (by norm_num) (by norm_num) (by norm_num) (by norm_num)
    rw [this]
    norm_num
  have h11 : F32.rnd (5592405 / 4194304) = 5592405 / 4194304 :=
    F32.rnd_of_rep _ 11184810 (-23) (by norm_num) (by norm_num) (by norm_num)
  have h12 : F32.rnd (4) = 4 :=
    F32.rnd_of_rep _ 8388608 (-21) (by norm_num) (by norm_num) (by norm_num)
  have h13 : F32.rnd (11184811 / 8388608) = 11184811 / 8388608 :=
    F32.rnd_of_rep _ 11184811 (-23) (by norm_num) (by norm_num) (by norm_num)
  have h14 : F32.rnd (8388607 / 8388608) = 8388607 / 8388608 :=
    F32.rnd_of_rep _ 16777214 (-24) (by norm_num) (by norm_num) (by norm_num)
  unfold lineAtF32 slopeF32
  norm_num [F32.rnd_neg, h1, h2, h3, h4, h5, h6, h7, h8, h9, h10, h11, h12, h13, h14]

/-- The binary32 line through (42,3944) and (8540,12440) at x = 4291 and
x = 4292: the exact line is at 8192 and 8193 - 2/8498; the float values are
8192 - 2^-11 and 8193. -/
theorem lineAtF32_example_gap :
    lineAtF32 42 3944 8540 12440 4291 = 16777215 / 2048 ∧
    lineAtF32 42 3944 8540 12440 4292 = 8193 := by
  have h1 : F32.rnd (8496) = 8496 :=
    F32.rnd_of_rep _ 8699904 (-10) (by norm_num) (by norm_num) (by norm_num)
  have h2 : F32.rnd (8498) = 8498 :=
    F32.rnd_of_rep _ 8701952 (-10) (by norm_num) (by norm_num) (by norm_num)
  have h3 : F32.rnd (4248 / 4249) = 16773267 / 16777216 := by
    have := F32.rnd_eq_of_near (4248 / 4249) (1 / 16777216) (-1) 16773267 (by norm_num)
      (by norm_num) (by norm_num) (by norm_num) (by norm_num) (by norm_num)
    rw [this]
    norm_num
  have h4 : F32.rnd (3944) = 3944 :=
    F32.rnd_of_rep _ 16154624 (-12) (by norm_num) (by norm_num) (by norm_num)
  have h5 : F32.rnd (42) = 42 :=
    F32.rnd_of_rep _ 11010048 (-18) (by norm_num) (by norm_num) (by norm_num)
  have h6 : F32.rnd (352238607 / 8388608) = 343983 / 8192 := by
    have := F32.rnd_eq_of_near (352238607 / 8388608) (1 / 262144) (5) 11007456 (by norm_num)
      (by norm_num) (by norm_num) (by norm_num) (by norm_num) (by norm_num)
    rw [this]
    norm_num
  have h7 : F32.rnd (31965265 / 8192) = 1997829 / 512 := by
    have := F32.rnd_eq_of_tie (31965265 / 8192) (1 / 4096) (11) 15982632 (by norm_num)
      (by norm_num) (by norm_num) (by norm_num) (by norm_num)
    rw [this]
    norm_num
  have h8 : F32.rnd (4291) = 4291 :=
    F32.rnd_of_rep _ 8787968 (-11) (by norm_num) (by norm_num) (by norm_num)
  have h9 : F32.rnd (71974088697 / 16777216) = 8785899 / 2048 := by
    have := F32.rnd_eq_of_near (71974088697 / 16777216) (1 / 2048) (12) 8785899 (by norm_num)
      (by norm_num) (by norm_num) (by norm_num) (by norm_num) (by norm_num)
    rw [this]
    norm_num
  have h10 : F32.rnd (16777215 / 2048) = 16777215 / 2048 :=
    F32.rnd_of_rep _ 16777215 (-11) (by norm_num) (by norm_num) (by norm_num)
  have h11 : F32.rnd (4292) = 4292 :=
    F32.rnd_of_rep _ 8790016 (-11) (by norm_num) (by norm_num) (by norm_num)
  have h12 : F32.rnd (17997715491 / 4194304) = 8787947 / 2048 := by
    have := F32.rnd_eq_of_near (17997715491 / 4194304) (1 / 2048) (12) 8787947 (by norm_num)
      (by norm_num) (by norm_num) (by norm_num) (by norm_num) (by norm_num)
    rw [this]
    norm_num
  have h13 : F32.rnd (16779263 / 2048) = 8193 := by
    have := F32.rnd_eq_of_tie (16779263 / 2048) (1 / 1024) (13) 8389631 (by norm_num)
      (by norm_num) (by norm_num) (by norm_num) (by norm_num)
    rw [this]
    norm_num
  unfold lineAtF32 slopeF32
  norm_num [F32.rnd_neg, h1, h2, h3, h4, h5, h6, h7, h8, h9, h10, h11, h12, h13]

/-- The binary32 line through (0,0) and (3,2) at x = 1: m = fl(2/3), b = 0 and
the value is fl(2/3), below 1. -/
theorem lineAtF32_example_4x4 :
    lineAtF32 0 0 3 2 1 = 11184811 / 16777216 := by
  have h1 : F32.rnd (2) = 2 :=
    F32.rnd_of_rep _ 8388608 (-22) (by norm_num) (by norm_num) (by norm_num)
  have h2 : F32.rnd (3) = 3 :=
    F32.rnd_of_rep _ 12582912 (-22) (by norm_num) (by norm_num) (by norm_num)
  have h3 : F32.rnd (2 / 3) = 11184811 / 16777216 := by
    have := F32.rnd_eq_of_near (2 / 3) (1 / 16777216) (-1) 11184811 (by norm_num)
      (by norm_num) (by norm_num) (by norm_num) (by norm_num) (by norm_num)
    rw [this]
    norm_num
  have h4 : F32.rnd (1) = 1 :=
    F32.rnd_of_rep _ 8388608 (-23) (by norm_num) (by norm_num) (by norm_num)
  have h5 : F32.rnd (11184811 / 16777216) = 11184811 / 16777216 :=
    F32.rnd_of_rep _ 11184811 (-24) (by norm_num) (by norm_num) (by norm_num)
  unfold lineAtF32 slopeF32
  norm_num [F32.rnd_neg, F32.rnd_zero, h1, h2, h3, h4, h5]

theorem raw_line_horizontal_binary32_witness :
    (∃ m2, (RawLine_onDispatch_f32 (0, 0) (3, 2)
        (RendererProgram.create
          (DisplayBuffer.create 4 4 (some (fun _ => 0)) (fun _ => 0)))).2.buffer.data
        = some m2 ∧
      m2 ((DisplayBuffer.create 4 4 (some (fun _ => 0)) (fun _ => 0)).offset 1 0)
        = 4294967295) ∧
    (∃ m2, (RawLine_onDispatch_f32 (-2, -3) (1, -1)
        (RendererProgram.create
          (DisplayBuffer.create 2 2 (some (fun _ => 0)) (fun _ => 0)))).2.buffer.data
        = some m2 ∧
      m2 ((DisplayBuffer.create 2 2 (some (fun _ => 0)) (fun _ => 0)).offset 1 0)
        = 4294967295) := by
  have t0 : truncToInt (lineAtF32 0 0 3 2 1) = 0 := by
    rw [lineAtF32_example_4x4]
    exact truncToInt_eq_of_between _ 0 (by norm_num) (by norm_num) (by norm_num)
  have t1 : truncToInt (lineAtF32 (-2) (-3) 1 (-1) 1) = 0 := by
    rw [lineAtF32_example_2x2]
    exact truncToInt_of_small_neg _ (by norm_num) (by norm_num)
  constructor
  · obtain ⟨_, _, _, _, _, _, _, _, m, m2, _, hm2, hcells⟩ :=
      raw_line_horizontal_binary32
        (RendererProgram.create (DisplayBuffer.create 4 4 (some (fun _ => 0)) (fun _ => 0)))
        (0, 0) (3, 2) 0 0 3 2 (by decide) (Or.inl ⟨rfl, rfl⟩) (by decide) (by decide)
    refine ⟨m2, hm2, ?_⟩
    refine (hcells _).1 ⟨1, by decide, by decide, ?_, ?_⟩
    · rw [t0]; decide
    · rw [t0]; rfl
  · obtain ⟨_, _, _, _, _, _, _, _, m, m2, _, hm2, hcells⟩ :=
      raw_line_horizontal_binary32
        (RendererProgram.create (DisplayBuffer.create 2 2 (some (fun _ => 0)) (fun _ => 0)))
        (-2, -3) (1, -1) (-2) (-3) 1 (-1) (by decide) (Or.inl ⟨rfl, rfl⟩) (by decide)
        (by decide)
    refine ⟨m2, hm2, ?_⟩
    refine (hcells _).1 ⟨1, by decide, by decide, ?_, ?_⟩
    · rw [t1]; decide
    · rw [t1]; rfl

/-- Claim C38, as stated, fails for the float code: on a 5x5 buffer whose
cells hold 0, the line from (1,2) to (4,1) has m = fl(-1/3) and b = fl(2 - m),
and the values at x = 1 and x = 4 are 2 - 2^-23 and 1 - 2^-23, so the pixels
written are (1,1), (2,1), (3,1) and (4,0): the endpoints (1,2) and (4,1) keep
the value 0, and the pixel (4,0), outside the bounding box of the endpoints,
holds the front color. -/
theorem raw_line_endpoints_counterexample :
    ∃ m2, (RawLine_onDispatch_f32 (1, 2) (4, 1)
        (RendererProgram.create
          (DisplayBuffer.create 5 5 (some (fun _ => 0)) (fun _ => 0)))).2.buffer.data
        = some m2 ∧
      m2 ((DisplayBuffer.create 5 5 (some (fun _ => 0)) (fun _ => 0)).offset 1 2) = 0 ∧
      m2 ((DisplayBuffer.create 5 5 (some (fun _ => 0)) (fun _ => 0)).offset 4 1) = 0 ∧
      m2 ((DisplayBuffer.create 5 5 (some (fun _ => 0)) (fun _ => 0)).offset 1 1)
        = 4294967295 ∧
      m2 ((DisplayBuffer.create 5 5 (some (fun _ => 0)) (fun _ => 0)).offset 4 0)
        = 4294967295 := by
  obtain ⟨e1, e2, e3, e4⟩ := lineAtF32_example_5x5
  have t1 : truncToInt (lineAtF32 1 2 4 1 1) = 1 := by
    rw [e1]; exact truncToInt_eq_of_between _ 1 (by norm_num) (by norm_num) (by norm_num)
  have t2 : truncToInt (lineAtF32 1 2 4 1 2) = 1 := by
    rw [e2]; exact truncToInt_eq_of_between _ 1 (by norm_num) (by norm_num) (by norm_num)
  have t3 : truncToInt (lineAtF32 1 2 4 1 3) = 1 := by
    rw [e3]; exact truncToInt_eq_of_between _ 1 (by norm_num) (by norm_num) (by norm_num)
  have t4 : truncToInt (lineAtF32 1 2 4 1 4) = 0 := by
    rw [e4]; exact truncToInt_eq_of_between _ 0 (by norm_num) (by norm_num) (by norm_num)
  have hrun : RawLine_onDispatch_f32 (1, 2) (4, 1)
      (RendererProgram.create (DisplayBuffer.create 5 5 (some (fun _ => 0)) (fun _ => 0)))
      = (RendererProgram.create
          (DisplayBuffer.create 5 5 (some (fun _ => 0)) (fun _ => 0))).raw_drawLine_f32
        (1, 2) (4, 1) := rfl
  rw [hrun]
  obtain ⟨_, _, _, _, _, _, _, _, m2, hm2, hcells⟩ :=
    RendererProgram.raw_drawLine_f32_horizontal_cells
      (RendererProgram.create (DisplayBuffer.create 5 5 (some (fun _ => 0)) (fun _ => 0)))
      (1, 2) (4, 1) 1 2 4 1 (fun _ => 0) rfl (Or.inl ⟨rfl, rfl⟩) (by decide) (by decide)
  have hnot : ∀ x y : Int,
      (DisplayBuffer.create 5 5 (some (fun _ => 0)) (fun _ => 0)).inside x y →
      ¬ (x = 1 ∧ y = 1) → ¬ (x = 2 ∧ y = 1) → ¬ (x = 3 ∧ y = 1) → ¬ (x = 4 ∧ y = 0) →
      m2 ((DisplayBuffer.create 5 5 (some (fun _ => 0)) (fun _ => 0)).offset x y) = 0 := by
    intro x y hxy n1 n2 n3 n4
    refine (hcells _).2 ?_
    rintro ⟨x3, hx1, hx2, hin, hi⟩
    obtain ⟨ex, ey⟩ := DisplayBuffer.offset_inj _ x y x3 _ hxy hin hi
    have h1 : 1 ≤ x3 := (max_le_iff.mp hx1).2
    have h4 : x3 ≤ 4 := (le_min_iff.mp hx2).2
    interval_cases x3
    · exact n1 ⟨ex, by rw [ey, t1]⟩
    · exact n2 ⟨ex, by rw [ey, t2]⟩
    · exact n3 ⟨ex, by rw [ey, t3]⟩
    · exact n4 ⟨ex, by rw [ey, t4]⟩
  refine ⟨m2, hm2, ?_, ?_, ?_, ?_⟩
  · exact hnot 1 2 (by decide) (by decide) (by decide) (by decide) (by decide)
  · exact hnot 4 1 (by decide) (by decide) (by decide) (by decide) (by decide)
  · refine (hcells _).1 ⟨1, by decide, by decide, ?_, ?_⟩
    · rw [t1]; decide
    · rw [t1]; rfl
  · refine (hcells _).1 ⟨4, by decide, by decide, ?_, ?_⟩
    · rw [t4]; decide
    · rw [t4]; rfl

theorem raw_line_covers_endpoints_binary32_witness :
    ∃ m2, (RawLine_onDispatch_f32 (1, 2) (4, 1)
        (RendererProgram.create
          (DisplayBuffer.create 5 5 (some (fun _ => 0)) (fun _ => 0)))).2.buffer.data
        = some m2 ∧
      (m2 ((DisplayBuffer.create 5 5 (some (fun _ => 0)) (fun _ => 0)).offset 1 2)
          = 4294967295 ∨
        ((1 : Int) ≤ 2 ∧
          m2 ((DisplayBuffer.create 5 5 (some (fun _ => 0)) (fun _ => 0)).offset 1 (2 - 1))
            = 4294967295)) :=
  (raw_line_covers_endpoints_binary32
    (RendererProgram.create (DisplayBuffer.create 5 5 (some (fun _ => 0)) (fun _ => 0)))
    (1, 2) (4, 1) (fun _ => 0) rfl (by decide) (by decide) (by decide) (by decide)
    (by decide)).imp
    (fun _ h => ⟨h.1, (h.2.1 (by decide)).1⟩)

/-- Claim C39, as stated, fails for the float code: on a 8541 x 12441 buffer
whose cells hold 0, the line from (42,3944) to (8540,12440) has dx = 8498 and
dy = 8496; at x = 4291 the exact line is at 8192 and the float value is
8192 - 2^-11, at x = 4292 the float value is 8193. So column 4291 gets the
pixel of row 8191 and column 4292 the pixel of row 8193: the pixels of rows
8190, 8191 and 8192 in column 4292 keep the value 0. -/
theorem raw_line_gap_counterexample :
    ∃ m2, (RawLine_onDispatch_f32 (42, 3944) (8540, 12440)
        (RendererProgram.create
          (DisplayBuffer.create 8541 12441 (some (fun _ => 0)) (fun _ => 0)))).2.buffer.data
        = some m2 ∧
      m2 ((DisplayBuffer.create 8541 12441 (some (fun _ => 0)) (fun _ => 0)).offset 4291 8191)
        = 4294967295 ∧
      m2 ((DisplayBuffer.create 8541 12441 (some (fun _ => 0)) (fun _ => 0)).offset 4292 8193)
        = 4294967295 ∧
      m2 ((DisplayBuffer.create 8541 12441 (some (fun _ => 0)) (fun _ => 0)).offset 4292 8190)
        = 0 ∧
      m2 ((DisplayBuffer.create 8541 12441 (some (fun _ => 0)) (fun _ => 0)).offset 4292 8191)
        = 0 ∧
      m2 ((DisplayBuffer.create 8541 12441 (some (fun _ => 0)) (fun _ => 0)).offset 4292 8192)
        = 0 := by
  obtain ⟨e1, e2⟩ := lineAtF32_example_gap
  have t1 : truncToInt (lineAtF32 42 3944 8540 12440 4291) = 8191 := by
    rw [e1]; exact truncToInt_eq_of_between _ 8191 (by norm_num) (by norm_num) (by norm_num)
  have t2 : truncToInt (lineAtF32 42 3944 8540 12440 4292) = 8193 := by
    rw [e2]; exact truncToInt_eq_of_between _ 8193 (by norm_num) (by norm_num) (by norm_num)
  have hrun : RawLine_onDispatch_f32 (42, 3944) (8540, 12440)
      (RendererProgram.create
        (DisplayBuffer.create 8541 12441 (some (fun _ => 0)) (fun _ => 0)))
      = (RendererProgram.create
          (DisplayBuffer.create 8541 12441 (some (fun _ => 0)) (fun _ => 0))).raw_drawLine_f32
        (42, 3944) (8540, 12440) := rfl
  rw [hrun]
  obtain ⟨_, _, _, _, _, _, _, _, m2, hm2, hcells⟩ :=
    RendererProgram.raw_drawLine_f32_horizontal_cells
      (RendererProgram.create
        (DisplayBuffer.create 8541 12441 (some (fun _ => 0)) (fun _ => 0)))
      (42, 3944) (8540, 12440) 42 3944 8540 12440 (fun _ => 0) rfl (Or.inl ⟨rfl, rfl⟩)
      (by decide) (by decide)
  have hnot : ∀ y : Int,
      (DisplayBuffer.create 8541 12441 (some (fun _ => 0)) (fun _ => 0)).inside 4292 y →
      y ≠ 8193 →
      m2 ((DisplayBuffer.create 8541 12441 (some (fun _ => 0)) (fun _ => 0)).offset 4292 y)
        = 0 := by
    intro y hxy hy
    refine (hcells _).2 ?_
    rintro ⟨x3, _, _, hin, hi⟩
    obtain ⟨ex, ey⟩ := DisplayBuffer.offset_inj _ 4292 y x3 _ hxy hin hi
    rw [← ex, t2] at ey
    exact hy ey
  refine ⟨m2, hm2, ?_, ?_, ?_, ?_, ?_⟩
  · refine (hcells _).1 ⟨4291, by decide, by decide, ?_, ?_⟩
    · rw [t1]; decide
    · rw [t1]; rfl
  · refine (hcells _).1 ⟨4292, by decide, by decide, ?_, ?_⟩
    · rw [t2]; decide
    · rw [t2]; rfl
  · exact hnot 8190 (by decide) (by decide)
  · exact hnot 8191 (by decide) (by decide)
  · exact hnot 8192 (by decide) (by decide)

theorem raw_line_gap_free_binary32_witness :
    ∃ x1 y1 x2 y2 : Int,
      ((((0 : Int), (0 : Int)) = (x1, y1) ∧ ((3 : Int), (1 : Int)) = (x2, y2)) ∨
        (((0 : Int), (0 : Int)) = (x2, y2) ∧ ((3 : Int), (1 : Int)) = (x1, y1))) ∧
      ∃ m2, (RawLine_onDispatch_f32 (0, 0) (3, 1)
          (RendererProgram.create
            (DisplayBuffer.create 4 4 (some (fun _ => 0)) (fun _ => 0)))).2.buffer.data
          = some m2 :=
  (raw_line_gap_free_binary32
    (RendererProgram.create (DisplayBuffer.create 4 4 (some (fun _ => 0)) (fun _ => 0)))
    (0, 0) (3, 1) (fun _ => 0) rfl (by decide) (by decide) (by decide) (by decide)
    (by decide)).imp
    (fun _ h => h.imp (fun _ h => h.imp (fun _ h => h.imp (fun _ h =>
      ⟨h.1, h.2.imp (fun _ h => h.1)⟩))))

namespace math

end math

namespace math

/-- In A *= A the entry m[1] (row 1, column 0) is computed from the entry
m[0] that the same call has already overwritten. -/
theorem Mat4x4f.operatorMulAssignSelf_m1 (a : Mat4x4f) :
    a.operatorMulAssignSelf.m 1 =
      a.m 1 * (a.m 0 * a.m 0 + a.m 4 * a.m 1 + a.m 8 * a.m 2 + a.m 12 * a.m 3) +
        a.m 5 * a.m 1 + a.m 9 * a.m 2 + a.m 13 * a.m 3 := by
  simp [Mat4x4f.operatorMulAssignSelf, List.finRange, List.foldl, Function.update]

/-- The first column of A *= A: every entry after m[0] is computed from
entries of the column that the same call has already overwritten. -/
theorem Mat4x4f.operatorMulAssignSelf_col0 (a : Mat4x4f) :
    a.operatorMulAssignSelf.m 0 =
      a.m 0 * a.m 0 + a.m 4 * a.m 1 + a.m 8 * a.m 2 + a.m 12 * a.m 3 ∧
    a.operatorMulAssignSelf.m 2 =
      a.m 2 * a.operatorMulAssignSelf.m 0 + a.m 6 * a.operatorMulAssignSelf.m 1 +
        a.m 10 * a.m 2 + a.m 14 * a.m 3 ∧
    a.operatorMulAssignSelf.m 3 =
      a.m 3 * a.operatorMulAssignSelf.m 0 + a.m 7 * a.operatorMulAssignSelf.m 1 +
        a.m 11 * a.operatorMulAssignSelf.m 2 + a.m 15 * a.m 3 := by
  refine ⟨?_, ?_, ?_⟩ <;>
    simp [Mat4x4f.operatorMulAssignSelf, List.finRange, List.foldl, Function.update]

/-- The first column of A *= A for A = {1,1,0,0, 1,1,0,0, 0,0,1,0, 0,0,0,1}. -/
theorem Mat4x4f.operatorMulAssignSelf_example :
    (Mat4x4f.ofList
      [1, 1, 0, 0,  1, 1, 0, 0,  0, 0, 1, 0,  0, 0, 0, 1]).operatorMulAssignSelf.get 0 0 = 2 ∧
    (Mat4x4f.ofList
      [1, 1, 0, 0,  1, 1, 0, 0,  0, 0, 1, 0,  0, 0, 0, 1]).operatorMulAssignSelf.get 1 0 = 3 ∧
    (Mat4x4f.ofList
      [1, 1, 0, 0,  1, 1, 0, 0,  0, 0, 1, 0,  0, 0, 0, 1]).operatorMulAssignSelf.get 2 0 = 0 ∧
    (Mat4x4f.ofList
      [1, 1, 0, 0,  1, 1, 0, 0,  0, 0, 1, 0,  0, 0, 0, 1]).operatorMulAssignSelf.get 3 0 = 0 := by
  have g : ∀ a : Mat4x4f, a.get 0 0 = a.m 0 ∧ a.get 1 0 = a.m 1 ∧ a.get 2 0 = a.m 2 ∧
      a.get 3 0 = a.m 3 := fun a => ⟨rfl, rfl, rfl, rfl⟩
  obtain ⟨c0, c2, c3⟩ := Mat4x4f.operatorMulAssignSelf_col0
    (Mat4x4f.ofList [1, 1, 0, 0,  1, 1, 0, 0,  0, 0, 1, 0,  0, 0, 0, 1])
  have c1 := Mat4x4f.operatorMulAssignSelf_m1
    (Mat4x4f.ofList [1, 1, 0, 0,  1, 1, 0, 0,  0, 0, 1, 0,  0, 0, 0, 1])
  have v0 : (Mat4x4f.ofList
      [1, 1, 0, 0,  1, 1, 0, 0,  0, 0, 1, 0,  0, 0, 0, 1]).m 0 = 1 := rfl
  have v1 : (Mat4x4f.ofList
      [1, 1, 0, 0,  1, 1, 0, 0,  0, 0, 1, 0,  0, 0, 0, 1]).m 1 = 1 := rfl
  have v2 : (Mat4x4f.ofList
      [1, 1, 0, 0,  1, 1, 0, 0,  0, 0, 1, 0,  0, 0, 0, 1]).m 2 = 0 := rfl
  have v3 : (Mat4x4f.ofList
      [1, 1, 0, 0,  1, 1, 0, 0,  0, 0, 1, 0,  0, 0, 0, 1]).m 3 = 0 := rfl
  have v4 : (Mat4x4f.ofList
      [1, 1, 0, 0,  1, 1, 0, 0,  0, 0, 1, 0,  0, 0, 0, 1]).m 4 = 1 := rfl
  have v5 : (Mat4x4f.ofList
      [1, 1, 0, 0,  1, 1, 0, 0,  0, 0, 1, 0,  0, 0, 0, 1]).m 5 = 1 := rfl
  have v6 : (Mat4x4f.ofList
      [1, 1, 0, 0,  1, 1, 0, 0,  0, 0, 1, 0,  0, 0, 0, 1]).m 6 = 0 := rfl
  have v7 : (Mat4x4f.ofList
      [1, 1, 0, 0,  1, 1, 0, 0,  0, 0, 1, 0,  0, 0, 0, 1]).m 7 = 0 := rfl
  have v8 : (Mat4x4f.ofList
      [1, 1, 0, 0,  1, 1, 0, 0,  0, 0, 1, 0,  0, 0, 0, 1]).m 8 = 0 := rfl
  have v9 : (Mat4x4f.ofList
      [1, 1, 0, 0,  1, 1, 0, 0,  0, 0, 1, 0,  0, 0, 0, 1]).m 9 = 0 := rfl
  have v10 : (Mat4x4f.ofList
      [1, 1, 0, 0,  1, 1, 0, 0,  0, 0, 1, 0,  0, 0, 0, 1]).m 10 = 1 := rfl
  have v11 : (Mat4x4f.ofList
      [1, 1, 0, 0,  1, 1, 0, 0,  0, 0, 1, 0,  0, 0, 0, 1]).m 11 = 0 := rfl
  have v12 : (Mat4x4f.ofList
      [1, 1, 0, 0,  1, 1, 0, 0,  0, 0, 1, 0,  0, 0, 0, 1]).m 12 = 0 := rfl
  have v13 : (Mat4x4f.ofList
      [1, 1, 0, 0,  1, 1, 0, 0,  0, 0, 1, 0,  0, 0, 0, 1]).m 13 = 0 := rfl
  have v14 : (Mat4x4f.ofList
      [1, 1, 0, 0,  1, 1, 0, 0,  0, 0, 1, 0,  0, 0, 0, 1]).m 14 = 0 := rfl
  have v15 : (Mat4x4f.ofList
      [1, 1, 0, 0,  1, 1, 0, 0,  0, 0, 1, 0,  0, 0, 0, 1]).m 15 = 1 := rfl
  rw [(g _).1, (g _).2.1, (g _).2.2.1, (g _).2.2.2, c3, c2, c1, c0]
  simp only [v0, v1, v2, v3, v4, v5, v6, v7, v8, v9, v10, v11, v12, v13, v14, v15]
  norm_num

/-- Claim C30. M *= IDENTITY leaves M unchanged and multiply(v, IDENTITY)
equals v. IDENTITY * M (and M * IDENTITY) builds M in its local out, but what
operator* returns is a reference to that local, which no longer exists when
the caller receives it: the product cannot be read. -/
theorem identity_product_is_a_dangling_reference (M : Mat4x4f) (v : Vector4f) :
    M.operatorMulAssign Mat4x4f.IDENTITY = M ∧
    multiply v Mat4x4f.IDENTITY = v ∧
    (Mat4x4f.IDENTITY.operatorMul M).target = M ∧
    (M.operatorMul Mat4x4f.IDENTITY).target = M ∧
    (Mat4x4f.IDENTITY.operatorMul M).read = none ∧
    (M.operatorMul Mat4x4f.IDENTITY).read = none :=
  ⟨Mat4x4f.operatorMulAssign_IDENTITY M, multiply_IDENTITY v,
    Mat4x4f.IDENTITY_operatorMulAssign M, Mat4x4f.operatorMulAssign_IDENTITY M, rfl, rfl⟩

/-- Claim C31. For a right operand B held in another object than A,
multiply(v, A *= B) equals multiply(multiply(v, B), A), where get(row, col)
reads the element stored at index row + 4*col. Called as A *= A, operator*=
reads the entries of other, which is *this, while it overwrites them: m[1] is
computed from the m[0] already overwritten, and for
A = {1,1,0,0, 1,1,0,0, 0,0,1,0, 0,0,0,1} the vector (1,0,0,0) is sent to
(2,3,0,0), where transforming it by A twice gives (2,2,0,0). -/
theorem self_multiplication_reads_overwritten_entries (A B : Mat4x4f) (v : Vector4f) :
    multiply v (A.operatorMulAssign B) = multiply (multiply v B) A ∧
    (∀ (row col : Nat) (h : row < 4 ∧ col < 4),
      A.get row col = A.m ⟨row + 4 * col, by omega⟩) ∧
    A.operatorMulAssignSelf.m 1 =
      A.m 1 * (A.m 0 * A.m 0 + A.m 4 * A.m 1 + A.m 8 * A.m 2 + A.m 12 * A.m 3) +
        A.m 5 * A.m 1 + A.m 9 * A.m 2 + A.m 13 * A.m 3 ∧
    multiply ⟨1, 0, 0, 0⟩
      (Mat4x4f.ofList
        [1, 1, 0, 0,  1, 1, 0, 0,  0, 0, 1, 0,  0, 0, 0, 1]).operatorMulAssignSelf
      = ⟨2, 3, 0, 0⟩ ∧
    multiply (multiply ⟨1, 0, 0, 0⟩
        (Mat4x4f.ofList [1, 1, 0, 0,  1, 1, 0, 0,  0, 0, 1, 0,  0, 0, 0, 1]))
      (Mat4x4f.ofList [1, 1, 0, 0,  1, 1, 0, 0,  0, 0, 1, 0,  0, 0, 0, 1])
      = ⟨2, 2, 0, 0⟩ := by
  refine ⟨multiply_operatorMulAssign A B v, fun row col h => ?_,
    Mat4x4f.operatorMulAssignSelf_m1 A, ?_, ?_⟩
  · unfold Mat4x4f.get
    rw [dif_pos h]
    congr 2
    omega
  · obtain ⟨g0, g1, g2, g3⟩ := Mat4x4f.operatorMulAssignSelf_example
    unfold multiply
    simp only [g0, g1, g2, g3]
    norm_num
  · unfold multiply
    norm_num [Mat4x4f.ofList_get]

end math

end derplot
